import Mathlib

/-!
# LazyLint: adapters, completion aggregation and the interaction state machine

A shallow embedding of the linter adapters and their registry (`pkg/linters`),
the legacy tool runner (`pkg/tools`), the default configuration (`pkg/config`),
the startup of `main` and the Bubble Tea model (`pkg/tui`) of LazyLint.

The outside world (the clock, the operating system that runs a command, the
file system of the project, the Bubble Tea widgets of the `bubbles` library) is
not code of the repository. It enters the embedding as explicit observations:
a `World` for the adapters, a `Project` for their constructors and an `Ext`
for the model's `Update`.
-/

namespace LazyLint

/-! ## Observations of the outside world -/

/-- The value of `cmd.Run()`: `nil`, an `*exec.ExitError` (the process started
and ended unsuccessfully), or any other error (the command could not be
started, I/O failure), each with the text of its `Error()`. -/
inductive CmdErr where
  | none
  | exitError (text : String)
  | other (text : String)
deriving DecidableEq, Repr

/-- Go `err != nil`. -/
def CmdErr.isErr : CmdErr → Bool
  | CmdErr.none => false
  | _ => true

/-- Go `_, ok := err.(*exec.ExitError)`. -/
def CmdErr.isExitError : CmdErr → Bool
  | CmdErr.exitError _ => true
  | _ => false

/-- Go `err.Error()`, as `%w` prints it. -/
def CmdErr.text : CmdErr → String
  | CmdErr.none => ""
  | CmdErr.exitError t => t
  | CmdErr.other t => t

/-- The value of `ctx.Err()`. -/
inductive CtxErr where
  | none
  | canceled
  | deadlineExceeded
deriving DecidableEq, Repr

/-- A `context.Context` as the adapters use it: only its deadline matters
(`context.WithTimeout(context.Background(), d)`), in nanoseconds. -/
structure Context where
  timeout : Option Nat
deriving DecidableEq, Repr

/-- Everything `Run` observes of one execution of an external command:
the captured streams, the value of `cmd.Run()`, the value of `ctx.Err()` read
after `cmd.Run()` returned, `time.Since(start)` and the `time.Now()` stored in
the result. -/
structure ProcOutcome where
  stdout : String
  stderr : String
  err : CmdErr
  ctxErr : CtxErr
  duration : Nat
  finished : Nat
deriving DecidableEq, Repr

/-- The outside world of an adapter: the clock read by the disabled branch,
the operating system running `exec.CommandContext(ctx, path, args...)`, the
text `%s` prints for a `time.Duration`, and whether `exec.LookPath` finds a
binary. -/
structure World where
  now : Nat
  exec : Context → String → List String → ProcOutcome
  durationString : Nat → String
  lookPath : String → Bool

/-! ## Go maps with string keys -/

/-- The code points of a key; keys are ordered by comparing these lists
lexicographically. -/
def keyCode (s : String) : List Nat := s.data.map Char.toNat

/-- Entries of a `map[string]V`, kept in ascending key order. -/
def GoMap.Sorted {V : Type} (l : List (String × V)) : Prop :=
  (l.map (fun e => keyCode e.1)).Pairwise (· < ·)

/-- Go `m[k] = v` on the entry list: overwrite the entry of `k` if there is
one, add a new entry otherwise. -/
def GoMap.insertEntry {V : Type} (k : String) (v : V) :
    List (String × V) → List (String × V)
  | [] => [(k, v)]
  | (k', v') :: rest =>
    if keyCode k < keyCode k' then (k, v) :: (k', v') :: rest
    else if k = k' then (k, v) :: rest
    else (k', v') :: GoMap.insertEntry k v rest

/-- Go `v, ok := m[k]` on the entry list. -/
def GoMap.lookupEntry {V : Type} (k : String) : List (String × V) → Option V
  | [] => none
  | (k', v') :: rest => if k = k' then some v' else GoMap.lookupEntry k rest

theorem keyCode_injective : Function.Injective keyCode := by
  intro a b h
  have hd : a.data = b.data := by
    refine List.map_injective_iff.mpr ?_ h
    intro x y hxy
    rw [← Char.ofNat_toNat x, ← Char.ofNat_toNat y, hxy]
  exact String.ext hd

theorem GoMap.mem_keys_insertEntry {V : Type} (k : String) (v : V) (l : List (String × V))
    (c : List Nat) (hc : c ∈ (GoMap.insertEntry k v l).map (fun e => keyCode e.1)) :
    c = keyCode k ∨ c ∈ l.map (fun e => keyCode e.1) := by
  induction l with
  | nil => simp [GoMap.insertEntry] at hc; exact Or.inl hc
  | cons hd tl ih =>
    obtain ⟨k', v'⟩ := hd
    unfold GoMap.insertEntry at hc
    split_ifs at hc with h1 h2
    · simp only [List.map_cons, List.mem_cons] at hc ⊢
      exact hc
    · simp only [List.map_cons, List.mem_cons] at hc ⊢
      rcases hc with hc | hc
      · exact Or.inl hc
      · exact Or.inr (Or.inr hc)
    · simp only [List.map_cons, List.mem_cons] at hc ⊢
      rcases hc with hc | hc
      · exact Or.inr (Or.inl hc)
      · rcases ih hc with h | h
        · exact Or.inl h
        · exact Or.inr (Or.inr h)

theorem GoMap.sorted_insertEntry {V : Type} (k : String) (v : V) (l : List (String × V))
    (hl : GoMap.Sorted l) : GoMap.Sorted (GoMap.insertEntry k v l) := by
  induction l with
  | nil => simp [GoMap.insertEntry, GoMap.Sorted]
  | cons hd tl ih =>
    obtain ⟨k', v'⟩ := hd
    unfold GoMap.Sorted at hl ih ⊢
    simp only [List.map_cons, List.pairwise_cons] at hl
    unfold GoMap.insertEntry
    split_ifs with h1 h2
    · simp only [List.map_cons, List.pairwise_cons, List.mem_cons]
      refine ⟨?_, hl⟩
      intro c hc
      rcases hc with hc | hc
      · rw [hc]; exact h1
      · exact lt_trans h1 (hl.1 c hc)
    · subst h2
      simp only [List.map_cons, List.pairwise_cons]
      exact hl
    · simp only [List.map_cons, List.pairwise_cons]
      refine ⟨?_, ih hl.2⟩
      intro c hc
      rcases GoMap.mem_keys_insertEntry k v tl c hc with h | h
      · rw [h]
        rcases lt_trichotomy (keyCode k) (keyCode k') with h3 | h3 | h3
        · exact absurd h3 h1
        · exact absurd (keyCode_injective h3) h2
        · exact h3
      · exact hl.1 c h

/-- Go `map[string]V`. The entries are kept in ascending key order, so that two
maps with the same entries are equal; `range` over the map visits the entries
in this order, one of the orders Go may choose. -/
def GoMap (V : Type) : Type := { l : List (String × V) // GoMap.Sorted l }

instance (V : Type) [DecidableEq V] : DecidableEq (GoMap V) :=
  inferInstanceAs (DecidableEq { l : List (String × V) // GoMap.Sorted l })

/-- Go `make(map[string]V)`. -/
def GoMap.empty {V : Type} : GoMap V := ⟨[], List.Pairwise.nil⟩

/-- The entries a `range` over the map visits. -/
def GoMap.entries {V : Type} (m : GoMap V) : List (String × V) := m.1

/-- Go `m[k] = v`. -/
def GoMap.set {V : Type} (m : GoMap V) (k : String) (v : V) : GoMap V :=
  ⟨GoMap.insertEntry k v m.1, GoMap.sorted_insertEntry k v m.1 m.2⟩

/-- Go `v, ok := m[k]`. -/
def GoMap.get? {V : Type} (m : GoMap V) (k : String) : Option V :=
  GoMap.lookupEntry k m.1

/-- Go `len(m)`. -/
def GoMap.len {V : Type} (m : GoMap V) : Nat := m.1.length

/-- Go `delete(m, k)`. -/
def GoMap.delete {V : Type} (m : GoMap V) (k : String) : GoMap V :=
  ⟨m.1.filter (fun e => e.1 ≠ k),
    List.Pairwise.sublist ((List.filter_sublist m.1).map (fun e => keyCode e.1)) m.2⟩

/-- The keys a `range` over the map visits. -/
def GoMap.keys {V : Type} (m : GoMap V) : List String := m.1.map Prod.fst

/-! ## Option bags -/

/-- An element of a Go `[]interface{}`: a string, or a value of another type
(a bool, a number, `nil`). -/
inductive Atom where
  | str (s : String)
  | bool (b : Bool)
  | int (i : Int)
  | null
deriving DecidableEq, Repr

/-- A value of an option bag `map[string]interface{}` by its dynamic type:
`string`, `bool`, a number, `nil`, the typed list `[]string`, or the generic
list `[]interface{}`. -/
inductive Value where
  | str (s : String)
  | bool (b : Bool)
  | int (i : Int)
  | null
  | strings (l : List String)
  | list (l : List Atom)
deriving DecidableEq, Repr

namespace linters

/-- Go struct `linters.Result` (linter.go). -/
structure Result where
  Name : String
  Success : Bool
  Output : String
  Error : String
  Duration : Nat
  Timestamp : Nat
deriving DecidableEq, Repr

/-- Go struct `PHPStan` (phpstan.go). -/
structure PHPStan where
  path : String
  args : List String
  enabled : Bool
deriving DecidableEq, Repr

/-- Go struct `PHPCS` (phpcs.go). -/
structure PHPCS where
  path : String
  args : List String
  enabled : Bool
deriving DecidableEq, Repr

/-- Go struct `PHP` (php.go). -/
structure PHP where
  path : String
  args : List String
  enabled : Bool
deriving DecidableEq, Repr

/-- Go struct `GolangCI` (golangci.go). -/
structure GolangCI where
  path : String
  args : List String
  enabled : Bool
deriving DecidableEq, Repr

/-- Go struct `ESLint` (eslint.go). -/
structure ESLint where
  path : String
  args : List String
  enabled : Bool
deriving DecidableEq, Repr

def PHPStan.Name (_ : PHPStan) : String := "phpstan"
def PHPCS.Name (_ : PHPCS) : String := "phpcs"
def PHP.Name (_ : PHP) : String := "php"
def GolangCI.Name (_ : GolangCI) : String := "golangci-lint"
def ESLint.Name (_ : ESLint) : String := "eslint"

/-- Go `(*PHPStan).Run` (phpstan.go). Returns the `*Result` (never nil here) and the
`error` (`none` for nil). -/
def PHPStan.Run (l : PHPStan) (w : World) (ctx : Context) (target : String) :
    Result × Option String :=
  if !l.enabled then
    ({ Name := l.Name, Success := true, Output := "PHPStan is disabled in configuration",
       Error := "", Duration := 0, Timestamp := w.now }, none)
  else
    let args := [] ++ l.args
    let args := if target ≠ "" then args ++ [target] else args
    let o := w.exec ctx l.path args
    let result : Result :=
      { Name := l.Name, Success := false, Output := o.stdout, Error := o.stderr,
        Duration := o.duration, Timestamp := o.finished }
    if o.err.isErr then
      if o.ctxErr = CtxErr.deadlineExceeded then
        (result, some ("command timed out after " ++ w.durationString o.duration))
      else if o.err.isExitError then
        ({ result with Success := false }, none)
      else
        (result, some ("command failed: " ++ o.err.text))
    else
      ({ result with Success := true }, none)

/-- Go `(*PHPCS).Run` (phpcs.go). Returns the `*Result` (never nil here) and the
`error` (`none` for nil). -/
def PHPCS.Run (l : PHPCS) (w : World) (ctx : Context) (target : String) :
    Result × Option String :=
  if !l.enabled then
    ({ Name := l.Name, Success := true, Output := "PHPCS is disabled in configuration",
       Error := "", Duration := 0, Timestamp := w.now }, none)
  else
    let args := [] ++ l.args
    let args := if target ≠ "" then args ++ [target] else args
    let o := w.exec ctx l.path args
    let result : Result :=
      { Name := l.Name, Success := false, Output := o.stdout, Error := o.stderr,
        Duration := o.duration, Timestamp := o.finished }
    if o.err.isErr then
      if o.ctxErr = CtxErr.deadlineExceeded then
        (result, some ("command timed out after " ++ w.durationString o.duration))
      else if o.err.isExitError then
        ({ result with Success := false }, none)
      else
        (result, some ("command failed: " ++ o.err.text))
    else
      ({ result with Success := true }, none)

/-- Go `(*PHP).Run` (php.go). Returns the `*Result` (never nil here) and the
`error` (`none` for nil). -/
def PHP.Run (l : PHP) (w : World) (ctx : Context) (target : String) :
    Result × Option String :=
  if !l.enabled then
    ({ Name := l.Name, Success := true, Output := "PHP syntax check is disabled in configuration",
       Error := "", Duration := 0, Timestamp := w.now }, none)
  else
    let args := [] ++ l.args
    let args := if target ≠ "" then args ++ [target] else args
    let o := w.exec ctx l.path args
    let result : Result :=
      { Name := l.Name, Success := false, Output := o.stdout, Error := o.stderr,
        Duration := o.duration, Timestamp := o.finished }
    if o.err.isErr then
      if o.ctxErr = CtxErr.deadlineExceeded then
        (result, some ("command timed out after " ++ w.durationString o.duration))
      else if o.err.isExitError then
        ({ result with Success := false }, none)
      else
        (result, some ("command failed: " ++ o.err.text))
    else
      ({ result with Success := true }, none)

/-- Go `(*GolangCI).Run` (golangci.go). Returns the `*Result` (never nil here) and the
`error` (`none` for nil). -/
def GolangCI.Run (l : GolangCI) (w : World) (ctx : Context) (target : String) :
    Result × Option String :=
  if !l.enabled then
    ({ Name := l.Name, Success := true, Output := "golangci-lint is disabled in configuration",
       Error := "", Duration := 0, Timestamp := w.now }, none)
  else
    let args := [] ++ l.args
    let args := if target ≠ "" then args ++ [target] else args
    let o := w.exec ctx l.path args
    let result : Result :=
      { Name := l.Name, Success := false, Output := o.stdout, Error := o.stderr,
        Duration := o.duration, Timestamp := o.finished }
    if o.err.isErr then
      if o.ctxErr = CtxErr.deadlineExceeded then
        (result, some ("command timed out after " ++ w.durationString o.duration))
      else if o.err.isExitError then
        ({ result with Success := false }, none)
      else
        (result, some ("command failed: " ++ o.err.text))
    else
      ({ result with Success := true }, none)

/-- Go `(*ESLint).Run` (eslint.go). Returns the `*Result` (never nil here) and the
`error` (`none` for nil). -/
def ESLint.Run (l : ESLint) (w : World) (ctx : Context) (target : String) :
    Result × Option String :=
  if !l.enabled then
    ({ Name := l.Name, Success := true, Output := "ESLint is disabled in configuration",
       Error := "", Duration := 0, Timestamp := w.now }, none)
  else
    let args := [] ++ l.args
    let args := if target ≠ "" then args ++ [target] else args
    let o := w.exec ctx l.path args
    let result : Result :=
      { Name := l.Name, Success := false, Output := o.stdout, Error := o.stderr,
        Duration := o.duration, Timestamp := o.finished }
    if o.err.isErr then
      if o.ctxErr = CtxErr.deadlineExceeded then
        (result, some ("command timed out after " ++ w.durationString o.duration))
      else if o.err.isExitError then
        ({ result with Success := false }, none)
      else
        (result, some ("command failed: " ++ o.err.text))
    else
      ({ result with Success := true }, none)

/-- Go interface `Linter` (linter.go) with its five implementations. -/
inductive Linter where
  | phpstan (l : PHPStan)
  | phpcs (l : PHPCS)
  | php (l : PHP)
  | golangci (l : GolangCI)
  | eslint (l : ESLint)
deriving DecidableEq, Repr

/-- Interface method `Name()`. -/
def Linter.Name : Linter → String
  | Linter.phpstan l => l.Name
  | Linter.phpcs l => l.Name
  | Linter.php l => l.Name
  | Linter.golangci l => l.Name
  | Linter.eslint l => l.Name

/-- Interface method `Run(ctx, target)`. -/
def Linter.Run : Linter → World → Context → String → Result × Option String
  | Linter.phpstan l => l.Run
  | Linter.phpcs l => l.Run
  | Linter.php l => l.Run
  | Linter.golangci l => l.Run
  | Linter.eslint l => l.Run

/-- The private field `enabled` of the adapter behind the interface. -/
def Linter.enabled : Linter → Bool
  | Linter.phpstan l => l.enabled
  | Linter.phpcs l => l.enabled
  | Linter.php l => l.enabled
  | Linter.golangci l => l.enabled
  | Linter.eslint l => l.enabled

/-- The private field `path` of the adapter behind the interface. -/
def Linter.path : Linter → String
  | Linter.phpstan l => l.path
  | Linter.phpcs l => l.path
  | Linter.php l => l.path
  | Linter.golangci l => l.path
  | Linter.eslint l => l.path

/-- The private field `args` of the adapter behind the interface. -/
def Linter.args : Linter → List String
  | Linter.phpstan l => l.args
  | Linter.phpcs l => l.args
  | Linter.php l => l.args
  | Linter.golangci l => l.args
  | Linter.eslint l => l.args

/-- Interface method `IsAvailable()`: every adapter asks `exec.LookPath` for
its configured path. -/
def Linter.IsAvailable (l : Linter) (w : World) : Bool := w.lookPath l.path

/-- Go struct `Registry` (linter.go). -/
structure Registry where
  linters : GoMap Linter

/-- Go `NewRegistry`. -/
def NewRegistry : Registry := { linters := GoMap.empty }

/-- Go `(*Registry).Register`. -/
def Registry.Register (r : Registry) (linter : Linter) : Registry :=
  { linters := r.linters.set linter.Name linter }

/-- Go `(*Registry).GetAvailable`. -/
def Registry.GetAvailable (r : Registry) (w : World) : List Linter :=
  (r.linters.entries.map Prod.snd).filter (fun linter => linter.IsAvailable w)

/-- Go `(*PHPStan).Configure` (phpstan.go): the adapter after the call and the returned
`error` (`none` for nil). An element of a generic list that is no string leaves
the zero value `""` at its index. -/
def PHPStan.Configure (l : PHPStan) (options : GoMap Value) : PHPStan × Option String :=
  let l := match options.get? "path" with
    | some (Value.str path) => { l with path := path }
    | _ => l
  let l := match options.get? "args" with
    | some (Value.strings args) => { l with args := args }
    | some (Value.list argsInterface) =>
      { l with args := argsInterface.map (fun arg =>
          match arg with
          | Atom.str str => str
          | _ => "") }
    | _ => l
  let l := match options.get? "enabled" with
    | some (Value.bool enabled) => { l with enabled := enabled }
    | _ => l
  (l, none)

/-- Go `(*PHPCS).Configure` (phpcs.go): the adapter after the call and the returned
`error` (`none` for nil). An element of a generic list that is no string leaves
the zero value `""` at its index. -/
def PHPCS.Configure (l : PHPCS) (options : GoMap Value) : PHPCS × Option String :=
  let l := match options.get? "path" with
    | some (Value.str path) => { l with path := path }
    | _ => l
  let l := match options.get? "args" with
    | some (Value.strings args) => { l with args := args }
    | some (Value.list argsInterface) =>
      { l with args := argsInterface.map (fun arg =>
          match arg with
          | Atom.str str => str
          | _ => "") }
    | _ => l
  let l := match options.get? "enabled" with
    | some (Value.bool enabled) => { l with enabled := enabled }
    | _ => l
  (l, none)

/-- Go `(*PHP).Configure` (php.go): the adapter after the call and the returned
`error` (`none` for nil). Only a generic list is accepted for `args`, and only
its string elements are appended. -/
def PHP.Configure (l : PHP) (options : GoMap Value) : PHP × Option String :=
  let l := match options.get? "path" with
    | some (Value.str path) => { l with path := path }
    | _ => l
  let l := match options.get? "args" with
    | some (Value.list args) =>
      { l with args := args.foldl (fun acc arg =>
          match arg with
          | Atom.str s => acc ++ [s]
          | _ => acc) [] }
    | _ => l
  let l := match options.get? "enabled" with
    | some (Value.bool enabled) => { l with enabled := enabled }
    | _ => l
  (l, none)

/-- Go `(*GolangCI).Configure` (golangci.go): the adapter after the call and the returned
`error` (`none` for nil). An element of a generic list that is no string leaves
the zero value `""` at its index. -/
def GolangCI.Configure (l : GolangCI) (options : GoMap Value) : GolangCI × Option String :=
  let l := match options.get? "path" with
    | some (Value.str path) => { l with path := path }
    | _ => l
  let l := match options.get? "args" with
    | some (Value.strings args) => { l with args := args }
    | some (Value.list argsInterface) =>
      { l with args := argsInterface.map (fun arg =>
          match arg with
          | Atom.str str => str
          | _ => "") }
    | _ => l
  let l := match options.get? "enabled" with
    | some (Value.bool enabled) => { l with enabled := enabled }
    | _ => l
  (l, none)

/-- Go `(*ESLint).Configure` (eslint.go): the adapter after the call and the returned
`error` (`none` for nil). An element of a generic list that is no string leaves
the zero value `""` at its index. -/
def ESLint.Configure (l : ESLint) (options : GoMap Value) : ESLint × Option String :=
  let l := match options.get? "path" with
    | some (Value.str path) => { l with path := path }
    | _ => l
  let l := match options.get? "args" with
    | some (Value.strings args) => { l with args := args }
    | some (Value.list argsInterface) =>
      { l with args := argsInterface.map (fun arg =>
          match arg with
          | Atom.str str => str
          | _ => "") }
    | _ => l
  let l := match options.get? "enabled" with
    | some (Value.bool enabled) => { l with enabled := enabled }
    | _ => l
  (l, none)

/-- Interface method `Configure(options)`. -/
def Linter.Configure : Linter → GoMap Value → Linter × Option String
  | Linter.phpstan l, options => (Linter.phpstan (l.Configure options).1, (l.Configure options).2)
  | Linter.phpcs l, options => (Linter.phpcs (l.Configure options).1, (l.Configure options).2)
  | Linter.php l, options => (Linter.php (l.Configure options).1, (l.Configure options).2)
  | Linter.golangci l, options =>
    (Linter.golangci (l.Configure options).1, (l.Configure options).2)
  | Linter.eslint l, options => (Linter.eslint (l.Configure options).1, (l.Configure options).2)

def PHPStan.FileExtensions (_ : PHPStan) : List String := [".php"]
def PHPCS.FileExtensions (_ : PHPCS) : List String := [".php"]
def PHP.FileExtensions (_ : PHP) : List String := [".php"]
def GolangCI.FileExtensions (_ : GolangCI) : List String := [".go"]
def ESLint.FileExtensions (_ : ESLint) : List String := [".js", ".jsx", ".ts", ".tsx"]

/-- Interface method `FileExtensions()`. -/
def Linter.FileExtensions : Linter → List String
  | Linter.phpstan l => l.FileExtensions
  | Linter.phpcs l => l.FileExtensions
  | Linter.php l => l.FileExtensions
  | Linter.golangci l => l.FileExtensions
  | Linter.eslint l => l.FileExtensions

/-- Go `(*Registry).Get`: `some linter` for `(linter, true)`, `none` for
not found. -/
def Registry.Get (r : Registry) (name : String) : Option Linter := r.linters.get? name

/-- Go `(*Registry).GetAll`. -/
def Registry.GetAll (r : Registry) : List Linter :=
  r.linters.entries.foldl (fun result e => result ++ [e.2]) []

/-- The inner loop of `GetForExtension` (linter.go, lines 86-91): whether the
loop over the extensions reaches the `append` before it ends. -/
def extensionListed (ext : String) : List String → Bool
  | [] => false
  | e :: rest => if e = ext then true else extensionListed ext rest

/-- Go `(*Registry).GetForExtension`. -/
def Registry.GetForExtension (r : Registry) (ext : String) : List Linter :=
  r.linters.entries.foldl
    (fun result e => if extensionListed ext e.2.FileExtensions then result ++ [e.2] else result) []

/-- What the constructors of the adapters observe of the project: the value of
`findGitRoot()` (a directory, or an error text), whether `os.Stat` finds a
path, and `filepath.Join`. -/
structure Project where
  gitRoot : Except String String
  stat : String → Bool
  join : List String → String

/-- Go `NewPHPStan` (phpstan.go). -/
def NewPHPStan (p : Project) : PHPStan :=
  let gitRoot := match p.gitRoot with
    | Except.ok root => root
    | Except.error _ => ""
  let phpstanPath := "phpstan"
  let phpstanPath :=
    if gitRoot ≠ "" then
      let vendorBin := p.join [gitRoot, "vendor", "bin"]
      let vendorPath := p.join [vendorBin, "phpstan"]
      if p.stat vendorPath then vendorPath else phpstanPath
    else phpstanPath
  { path := phpstanPath, args := ["analyse", "--level=5"], enabled := true }

/-- Go `NewPHPCS` (phpcs.go). -/
def NewPHPCS (p : Project) : PHPCS :=
  let gitRoot := match p.gitRoot with
    | Except.ok root => root
    | Except.error _ => ""
  let phpcsPath := "phpcs"
  let phpcsPath :=
    if gitRoot ≠ "" then
      let vendorBin := p.join [gitRoot, "vendor", "bin"]
      let vendorPath := p.join [vendorBin, "phpcs"]
      if p.stat vendorPath then vendorPath else phpcsPath
    else phpcsPath
  { path := phpcsPath, args := ["--standard=PSR12"], enabled := true }

/-- Go `NewPHP` (php.go). -/
def NewPHP : PHP := { path := "php", args := ["-l"], enabled := true }

/-- Go `NewGolangCI` (golangci.go). -/
def NewGolangCI (p : Project) : GolangCI :=
  let gitRoot := match p.gitRoot with
    | Except.ok root => root
    | Except.error _ => ""
  let golangciPath := "golangci-lint"
  let golangciPath :=
    if gitRoot ≠ "" then
      let localPath := p.join [gitRoot, "bin", "golangci-lint"]
      if p.stat localPath then localPath else golangciPath
    else golangciPath
  { path := golangciPath, args := ["run", "--out-format=colored-line-number"], enabled := true }

/-- Go `NewESLint` (eslint.go). -/
def NewESLint (p : Project) : ESLint :=
  let gitRoot := match p.gitRoot with
    | Except.ok root => root
    | Except.error _ => ""
  let eslintPath := "eslint"
  let eslintPath :=
    if gitRoot ≠ "" then
      let localPath := p.join [gitRoot, "node_modules", ".bin", "eslint"]
      if p.stat localPath then localPath else eslintPath
    else eslintPath
  { path := eslintPath, args := ["--format=stylish"], enabled := true }

/-- Go `DefaultRegistry` (registry.go). -/
def DefaultRegistry (p : Project) : Registry :=
  let registry := NewRegistry
  let registry := registry.Register (Linter.phpstan (NewPHPStan p))
  let registry := registry.Register (Linter.phpcs (NewPHPCS p))
  let registry := registry.Register (Linter.php NewPHP)
  let registry := registry.Register (Linter.golangci (NewGolangCI p))
  let registry := registry.Register (Linter.eslint (NewESLint p))
  registry

/-- Go `unicode.IsSpace`: the white space of Latin-1 and the characters with
the Unicode property White_Space. -/
def unicodeIsSpace (c : Char) : Bool :=
  c.toNat == 9 || c.toNat == 10 || c.toNat == 11 || c.toNat == 12 || c.toNat == 13 ||
  c.toNat == 32 || c.toNat == 0x85 || c.toNat == 0xA0 || c.toNat == 0x1680 ||
  (decide (0x2000 ≤ c.toNat) && decide (c.toNat ≤ 0x200A)) ||
  c.toNat == 0x2028 || c.toNat == 0x2029 || c.toNat == 0x202F || c.toNat == 0x205F ||
  c.toNat == 0x3000

/-- Library `strings.TrimSpace`: the string without its leading and trailing
white space. Strings are sequences of Unicode characters here. -/
def stringsTrimSpace (s : String) : String :=
  String.mk ((s.data.dropWhile unicodeIsSpace).reverse.dropWhile unicodeIsSpace).reverse

/-- The pieces of a character sequence between the occurrences of `sep`. -/
def splitChars (sep : Char) : List Char → List (List Char)
  | [] => [[]]
  | c :: cs =>
    if c = sep then [] :: splitChars sep cs
    else
      match splitChars sep cs with
      | [] => [[c]]
      | piece :: pieces => (c :: piece) :: pieces

/-- Library `strings.Split(s, sep)` for a separator of one character. -/
def stringsSplit (s : String) (sep : Char) : List String :=
  (splitChars sep s.data).map String.mk

/-- Go `ParseOutput` (registry.go); `none` is the nil `*Result`. -/
def ParseOutput (result : Option Result) : List String :=
  match result with
  | none => []
  | some result =>
    if result.Output = "" then []
    else
      let lines := stringsSplit result.Output (Char.ofNat 10)
      lines.foldl
        (fun filtered line => if stringsTrimSpace line ≠ "" then filtered ++ [line] else filtered)
        []

/-- A Go slice of strings: the address of its backing array, its length and
its capacity. The slices here begin at the first cell of their array. -/
structure Slice where
  array : Nat
  len : Nat
  cap : Nat
deriving DecidableEq, Repr

/-- The arrays of strings on the Go heap, by address. -/
structure Heap where
  arrays : List (List String)
deriving DecidableEq, Repr

/-- The elements of a slice. -/
def Heap.read (h : Heap) (s : Slice) : List String :=
  ((h.arrays[s.array]?).getD []).take s.len

/-- Go's built-in `append(s, xs...)`. Within the capacity of `s` the new
elements are written into its backing array, which every slice of that array
sees; beyond it a new array is made, with as much room to spare as the
run-time system picks (`extra`), and the elements are copied. -/
def Heap.append (extra : Nat → Nat) (h : Heap) (s : Slice) (xs : List String) : Heap × Slice :=
  if s.len + xs.length ≤ s.cap then
    ({ arrays := h.arrays.set s.array
        (((h.arrays[s.array]?).getD []).take s.len ++ xs
          ++ ((h.arrays[s.array]?).getD []).drop (s.len + xs.length)) },
     { s with len := s.len + xs.length })
  else
    ({ arrays := h.arrays
        ++ [h.read s ++ xs ++ List.replicate (extra (s.len + xs.length)) ""] },
     { array := h.arrays.length, len := s.len + xs.length,
       cap := s.len + xs.length + extra (s.len + xs.length) })

/-- The statements of `Run` that build the argument vector (phpstan.go, lines
68-71; the same in the four other adapters and in the legacy runners), on the
heap: `args := append([]string{}, l.args...)`, then
`if target != "" { args = append(args, target) }`. The literal `[]string{}`
is a slice of length and capacity 0. -/
def buildArgs (extra : Nat → Nat) (h : Heap) (configured : Slice) (target : String) :
    Heap × Slice :=
  let literal : Heap × Slice :=
    ({ arrays := h.arrays ++ [[]] }, { array := h.arrays.length, len := 0, cap := 0 })
  let copied := literal.1.append extra literal.2 (literal.1.read configured)
  if target ≠ "" then copied.1.append extra copied.2 [target] else copied

end linters

namespace config

/-- Modelled from the spec: Go struct `config.PHPStanConfig`, whose declaration
is not in config.go; it has the three fields `RunPHPStan` and the tests read
and write, the recognized options of an adapter. -/
structure PHPStanConfig where
  Path : String
  Args : List String
  Enabled : Bool
deriving DecidableEq, Repr

/-- Modelled from the spec: Go struct `config.PHPCSConfig`, whose declaration
is not in config.go; it has the three fields `RunPHPCS` and the tests read and
write, the recognized options of an adapter. -/
structure PHPCSConfig where
  Path : String
  Args : List String
  Enabled : Bool
deriving DecidableEq, Repr

end config

namespace tools

/-- Go struct `tools.Result` (tools.go). -/
structure Result where
  Tool : String
  Success : Bool
  Output : String
  Error : String
  Duration : Nat
  Timestamp : Nat
deriving DecidableEq, Repr

/-- Go `runTool` (tools.go). Returns the `*Result` (never nil) and the `error`
(`none` for nil). -/
def runTool (w : World) (name path : String) (args : List String) (timeout : Nat) :
    Result × Option String :=
  let ctx : Context := { timeout := some timeout }
  let o := w.exec ctx path args
  let result : Result :=
    { Tool := name, Success := false, Output := o.stdout, Error := o.stderr,
      Duration := o.duration, Timestamp := o.finished }
  if o.err.isErr then
    if o.ctxErr = CtxErr.deadlineExceeded then
      (result, some ("command timed out after " ++ w.durationString timeout))
    else if o.err.isExitError then
      ({ result with Success := false }, none)
    else
      (result, some ("command failed: " ++ o.err.text))
  else
    ({ result with Success := true }, none)

/-- Go `RunPHPStan` (tools.go). -/
def RunPHPStan (w : World) (cfg : config.PHPStanConfig) (target : String) (timeout : Nat) :
    Result × Option String :=
  if !cfg.Enabled then
    ({ Tool := "phpstan", Success := true, Output := "PHPStan is disabled in configuration",
       Error := "", Duration := 0, Timestamp := w.now }, none)
  else
    let args := [] ++ cfg.Args
    let args := if target ≠ "" then args ++ [target] else args
    runTool w "phpstan" cfg.Path args timeout

/-- Go `RunPHPCS` (tools.go). -/
def RunPHPCS (w : World) (cfg : config.PHPCSConfig) (target : String) (timeout : Nat) :
    Result × Option String :=
  if !cfg.Enabled then
    ({ Tool := "phpcs", Success := true, Output := "PHPCS is disabled in configuration",
       Error := "", Duration := 0, Timestamp := w.now }, none)
  else
    let args := [] ++ cfg.Args
    let args := if target ≠ "" then args ++ [target] else args
    runTool w "phpcs" cfg.Path args timeout

/-- Library constant `bufio.MaxScanTokenSize`: the size in bytes the buffer of
a `bufio.Scanner` grows to at most. -/
def maxScanTokenSize : Nat := 64 * 1024

/-- Library `dropCR` of `bufio.ScanLines`: the line without one trailing
carriage return. -/
def dropCR (line : List Char) : List Char :=
  if line.getLast? = some (Char.ofNat 13) then line.dropLast else line

/-- The lines `bufio.ScanLines` cuts the input into: the pieces between the
newlines, without a last piece that is empty (at the end of the input no
empty token is produced). -/
def rawLines (data : List Char) : List (List Char) :=
  let pieces := linters.splitChars (Char.ofNat 10) data
  if pieces.getLast? = some [] then pieces.dropLast else pieces

/-- The successive values of `scanner.Text()` for
`bufio.NewScanner(strings.NewReader(output))` until `Scan` returns false: the
lines of the input, each without one trailing carriage return. A line of
`maxScanTokenSize` bytes or more does not fit the buffer: `Scan` returns false
there (`bufio.ErrTooLong`) and the scan ends. -/
def scanLines (output : String) : List String :=
  ((rawLines output.data).takeWhile
    (fun line => decide ((String.mk line).utf8ByteSize < maxScanTokenSize))).map
    (fun line => String.mk (dropCR line))

/-- Go `ParsePHPStanOutput` (tools.go). -/
def ParsePHPStanOutput (output : String) : List String :=
  (scanLines output).foldl
    (fun lines line => if linters.stringsTrimSpace line ≠ "" then lines ++ [line] else lines)
    []

/-- Go `ParsePHPCSOutput` (tools.go). -/
def ParsePHPCSOutput (output : String) : List String :=
  (scanLines output).foldl
    (fun lines line => if linters.stringsTrimSpace line ≠ "" then lines ++ [line] else lines)
    []

end tools

namespace config

/-- Go struct `config.ThemeColors`. -/
structure ThemeColors where
  Subtle : String
  Highlight : String
  Special : String
  Error : String
  Warning : String
  Border : String
  Text : String
  DimText : String
  Background : String
deriving DecidableEq, Repr

/-- Go struct `config.ThemeConfig`. -/
structure ThemeConfig where
  Name : String
  Colors : ThemeColors
deriving DecidableEq, Repr

/-- Go struct `config.UIConfig`. -/
structure UIConfig where
  Theme : String
  Themes : GoMap ThemeConfig

/-- Go struct `config.Config`. -/
structure Config where
  Linters : GoMap (GoMap Value)
  UI : UIConfig

/-- The option bag `{"path": path, "args": args, "enabled": true}` of the
map literal in `DefaultConfig`; `args` is a `[]string`. -/
def defaultOptions (path : String) (args : List String) : GoMap Value :=
  ((GoMap.empty.set "path" (Value.str path)).set "args" (Value.strings args)).set "enabled"
    (Value.bool true)

/-- Go `DefaultConfig` (config.go): the map literals, entry by entry. -/
def DefaultConfig : Config :=
  let linters : GoMap (GoMap Value) := GoMap.empty
  let linters := linters.set "phpstan" (defaultOptions "phpstan" ["analyse", "--level=5"])
  let linters := linters.set "phpcs" (defaultOptions "phpcs" ["--standard=PSR12"])
  let linters := linters.set "php" (defaultOptions "php" ["-l"])
  let linters := linters.set "golangci-lint" (defaultOptions "golangci-lint" ["run", "--out-format=colored-line-number"])
  let linters := linters.set "eslint" (defaultOptions "eslint" ["--format=stylish"])
  let themes : GoMap ThemeConfig := GoMap.empty
  let themes := themes.set "tokyo-night"
    { Name := "tokyo-night",
      Colors :=
        { Subtle := "#565F89", Highlight := "#7AA2F7", Special := "#9ECE6A",
          Error := "#F7768E", Warning := "#E0AF68", Border := "#565F89",
          Text := "#C0CAF5", DimText := "#9AA5CE", Background := "#1A1B26" } }
  let themes := themes.set "light"
    { Name := "light",
      Colors :=
        { Subtle := "#D9DCCF", Highlight := "#874BFD", Special := "#43BF6D",
          Error := "#FF5F87", Warning := "#FFA500", Border := "#4A4A4A",
          Text := "#1A1A1A", DimText := "#666666", Background := "#FFFFFF" } }
  let themes := themes.set "high-contrast"
    { Name := "high-contrast",
      Colors :=
        { Subtle := "#000000", Highlight := "#0000FF", Special := "#008000",
          Error := "#FF0000", Warning := "#FFA500", Border := "#000000",
          Text := "#000000", DimText := "#333333", Background := "#FFFFFF" } }
  let themes := themes.set "catppuccin"
    { Name := "catppuccin",
      Colors :=
        { Subtle := "#6E6C7E", Highlight := "#89B4FA", Special := "#A6E3A1",
          Error := "#F38BA8", Warning := "#FAB387", Border := "#89B4FA",
          Text := "#CDD6F4", DimText := "#BAC2DE", Background := "#1E1E2E" } }
  { Linters := linters, UI := { Theme := "tokyo-night", Themes := themes } }

end config

namespace cmd

open linters

/-- The loop of `main` that configures the linters from the configuration
(main.go, lines 64-70); `Configure` writes through the pointer the registry
holds under the name. -/
def configureLinters (registry : Registry) (cfg : config.Config) : Registry :=
  cfg.Linters.entries.foldl
    (fun registry e =>
      match registry.Get e.1 with
      | some linter => { linters := registry.linters.set e.1 (linter.Configure e.2).1 }
      | none => registry)
    registry

/-- The registry `main` hands to `NewModel` (main.go, lines 61-70), given the
loaded configuration. -/
def startup (p : Project) (cfg : config.Config) : Registry :=
  configureLinters (DefaultRegistry p) cfg

end cmd

namespace tui

open linters

/-- Go type `State` (types.go). -/
inductive State where
  | StateMenu
  | StateRunning
  | StateResults
  | StateConfig
  | StateExplorer
  | StateMultiPane
deriving DecidableEq, Repr

/-- The messages `Update` receives. `key s` is a `tea.KeyMsg` whose `String()`
is `s`; `other` is any message type `Update` has no case for. -/
inductive Msg where
  | key (s : String)
  | windowSize (Width Height : Int)
  | spinnerTick
  | result (r : Result)
  | errorMsg (err : String)
  | other
deriving DecidableEq, Repr

/-- Whether a message is a `linters.Result`. -/
def Msg.isResult : Msg → Bool
  | Msg.result _ => true
  | _ => false

/-- The commands `Update` returns, as the list handed to `tea.Batch`:
`tea.Quit`, the closure built by `runLinter` (with the linter and the target it
captured), or a command of a `bubbles` widget (which may be nil). -/
inductive Cmd where
  | quit
  | linter (l : Linter) (target : String)
  | widget
deriving DecidableEq, Repr

/-- Go struct `tui.ThemeColors` (themes.go); a `lipgloss.Color` is a string. -/
structure ThemeColors where
  Subtle : String
  Highlight : String
  Special : String
  Error : String
  Warning : String
  Border : String
  Text : String
  DimText : String
  Background : String
deriving DecidableEq, Repr

/-- Go struct `tui.Theme` (themes.go). -/
structure Theme where
  Name : String
  Colors : ThemeColors
deriving DecidableEq, Repr

/-- Go `parseColor` (themes.go). -/
def parseColor (colorStr : String) : String :=
  if colorStr ≠ "" then colorStr else "#FFFFFF"

/-- Go `convertConfigTheme` (themes.go). -/
def convertConfigTheme (configTheme : config.ThemeConfig) : Theme :=
  { Name := configTheme.Name,
    Colors :=
      { Subtle := parseColor configTheme.Colors.Subtle,
        Highlight := parseColor configTheme.Colors.Highlight,
        Special := parseColor configTheme.Colors.Special,
        Error := parseColor configTheme.Colors.Error,
        Warning := parseColor configTheme.Colors.Warning,
        Border := parseColor configTheme.Colors.Border,
        Text := parseColor configTheme.Colors.Text,
        DimText := parseColor configTheme.Colors.DimText,
        Background := parseColor configTheme.Colors.Background } }

/-- Go `ApplyTheme` (themes.go): the theme it stores in the global
`CurrentTheme`, given the global map `Themes`. The style variables it then
recomputes are presentation only. -/
def ApplyTheme (Themes : GoMap Theme) (themeName : String) : Theme :=
  match Themes.get? themeName with
  | some theme => theme
  | none =>
    match Themes.entries with
    | e :: _ => e.2
    | [] =>
      { Name := "tokyo-night",
        Colors :=
          { Subtle := "#565F89", Highlight := "#7AA2F7", Special := "#9ECE6A",
            Error := "#F7768E", Warning := "#E0AF68", Border := "#565F89",
            Text := "#C0CAF5", DimText := "#9AA5CE", Background := "#1A1B26" } }

/-- Go struct `FileItem` (explorer.go). -/
structure FileItem where
  path : String
  name : String
  isDir : Bool
  selected : Bool
deriving DecidableEq, Repr

/-- Go struct `Explorer` (explorer.go), without its `bubbles` list widget
(see `Ext`) and without the registry pointer, which only `loadFiles` reads. -/
structure Explorer where
  selectedFiles : GoMap Bool
  currentDir : String
  rootDir : String
  preview : String
  width : Int
  height : Int
  showPreview : Bool
  fileFilter : String

/-- What one call of `Update` observes outside the repository's code: the item
under the cursor of the explorer's list widget (`e.list.SelectedItem()`, when
it is a `FileItem`), `os.ReadFile` (its error as text), the scroll offset
`viewport.Update` leaves and the frame `spinner.Update` leaves. -/
structure Ext where
  selectedItem : Option FileItem
  readFile : String → Except String String
  yOffset : Int
  frame : Nat

/-- Go `(*Explorer).Update` (explorer.go). `loadFiles` and `e.list.Update` only
change the list widget. -/
def Explorer.Update (e : Explorer) (x : Ext) (msg : Msg) : Explorer × List Cmd :=
  match msg with
  | Msg.windowSize Width Height =>
    ({ e with width := Width, height := Height }, [Cmd.widget])
  | Msg.key s =>
    if s = "enter" then
      match x.selectedItem with
      | some i =>
        if i.isDir then
          ({ e with currentDir := i.path, preview := "" }, [])
        else
          match x.readFile i.path with
          | Except.ok content => ({ e with preview := content }, [Cmd.widget])
          | Except.error err =>
            ({ e with preview := "Error loading file: " ++ err }, [Cmd.widget])
      | none => (e, [Cmd.widget])
    else if s = " " then
      match x.selectedItem with
      | some i =>
        if !i.isDir then
          if e.selectedFiles.get? i.path = some true then
            ({ e with selectedFiles := e.selectedFiles.delete i.path }, [Cmd.widget])
          else
            ({ e with selectedFiles := e.selectedFiles.set i.path true }, [Cmd.widget])
        else (e, [Cmd.widget])
      | none => (e, [Cmd.widget])
    else if s = "tab" then
      ({ e with showPreview := !e.showPreview }, [Cmd.widget])
    else (e, [Cmd.widget])
  | _ => (e, [Cmd.widget])

/-- Go `(*Explorer).GetSelectedFiles` (explorer.go). -/
def Explorer.GetSelectedFiles (e : Explorer) : List String := e.selectedFiles.keys

/-- The `viewport.Model` of `bubbles`, as far as the model touches it. -/
structure Viewport where
  Width : Int
  Height : Int
  YOffset : Int
  content : String
deriving DecidableEq, Repr

/-- Library `viewport.SetContent`. -/
def Viewport.SetContent (vp : Viewport) (s : String) : Viewport := { vp with content := s }

/-- Library `viewport.GotoTop`. -/
def Viewport.GotoTop (vp : Viewport) : Viewport := { vp with YOffset := 0 }

/-- Go struct `OutputPane` (panes.go). -/
structure OutputPane where
  width : Int
  height : Int
  viewport : Viewport
  content : String
  title : String
  isActive : Bool
deriving DecidableEq, Repr

/-- Go `(*OutputPane).SetContent` (panes.go). -/
def OutputPane.SetContent (p : OutputPane) (content : String) : OutputPane :=
  { p with content := content, viewport := p.viewport.SetContent content }

/-- Go `(*OutputPane).SetTitle` (panes.go). -/
def OutputPane.SetTitle (p : OutputPane) (title : String) : OutputPane :=
  { p with title := title }

/-- Go `(*OutputPane).SetSize` (panes.go). -/
def OutputPane.SetSize (p : OutputPane) (width height : Int) : OutputPane :=
  { p with width := width, height := height,
           viewport := { p.viewport with Width := width - 8, Height := height - 8 } }

/-- Go interface `Pane` (panes.go) with its four implementations; of the
repo-info, tools and explorer panes only what `SetSize` writes is kept. -/
inductive Pane where
  | repoInfo (width height : Int)
  | tools (width height : Int) (tools : List String)
  | explorer (width height : Int)
  | output (p : OutputPane)
deriving DecidableEq, Repr

/-- Interface method `SetSize(width, height)`. -/
def Pane.SetSize : Pane → Int → Int → Pane
  | Pane.repoInfo _ _, w, h => Pane.repoInfo w h
  | Pane.tools _ _ ts, w, h => Pane.tools w h ts
  | Pane.explorer _ _, w, h => Pane.explorer w h
  | Pane.output p, w, h => Pane.output (p.SetSize w h)

/-- Go struct `Model` (types.go). `config` holds `m.config`; the package-level
variables `Themes` and `CurrentTheme` are carried along as fields; the
`bubbles` spinner is its frame, the help widget its two fields the model
writes. The registry pointer and the key map are constant and left out. Go
`int` fields are `Int`: tab indices, cursor positions and terminal sizes stay
far from the 64-bit range. -/
structure Model where
  config : config.Config
  Themes : GoMap Theme
  CurrentTheme : Theme
  state : State
  width : Int
  height : Int
  selectedTool : Int
  target : String
  results : GoMap Result
  viewport : Viewport
  spinner : Nat
  helpShowAll : Bool
  helpWidth : Int
  err : String
  explorer : Explorer
  activeLinters : List Linter
  panes : List Pane
  activePaneIndex : Int
  activeTab : Int
  useNewUI : Bool

/-- Go `InitTheme` (themes.go): the new `cfg`, the new global `Themes` and the
new global `CurrentTheme`. -/
def InitTheme (cfg : config.Config) (Themes : GoMap Theme) :
    config.Config × GoMap Theme × Theme :=
  let Themes := cfg.UI.Themes.entries.foldl
    (fun acc e => acc.set e.1 (convertConfigTheme e.2)) Themes
  let themeName := cfg.UI.Theme
  match Themes.get? themeName with
  | some _ => (cfg, Themes, ApplyTheme Themes themeName)
  | none =>
    let themeName := "default"
    ({ cfg with UI := { cfg.UI with Theme := themeName } }, Themes, ApplyTheme Themes themeName)

/-- Go `NewExplorer` (explorer.go); `rootDir` is what `git rev-parse` printed,
or `"."`. -/
def NewExplorer (rootDir : String) (width height : Int) : Explorer :=
  { selectedFiles := GoMap.empty, currentDir := rootDir, rootDir := rootDir, preview := "",
    width := width, height := height, showPreview := true, fileFilter := "" }

/-- Go `NewOutputPane` (panes.go). -/
def NewOutputPane (width height : Int) : OutputPane :=
  { width := width, height := height,
    viewport := { Width := width - 4, Height := height - 4, YOffset := 0, content := "" },
    content := "No output to display", title := "Output", isActive := false }

/-- Go `NewModel` (model.go). The package-level `Themes` is empty when the
program starts. -/
def NewModel (w : World) (rootDir : String) (cfg : config.Config) (registry : Registry) : Model :=
  let themed := InitTheme cfg GoMap.empty
  let cfg := themed.1
  let Themes := themed.2.1
  let CurrentTheme := themed.2.2
  let activeLinters := registry.GetAvailable w
  let toolNames := activeLinters.map Linter.Name
  let panes := [Pane.repoInfo 80 8, Pane.tools 80 16 toolNames, Pane.explorer 80 24,
    Pane.output (NewOutputPane 80 24)]
  { config := cfg, Themes := Themes, CurrentTheme := CurrentTheme,
    state := State.StateMultiPane, width := 0, height := 0, selectedTool := 0, target := "",
    results := GoMap.empty,
    viewport := { Width := 80, Height := 24, YOffset := 0, content := "" },
    spinner := 0, helpShowAll := false, helpWidth := 0, err := "",
    explorer := NewExplorer rootDir 80 24,
    activeLinters := activeLinters, panes := panes,
    activePaneIndex := 2, activeTab := 0, useNewUI := true }

/-- Go `(Model).runLinter` (commands.go): the command it returns. -/
def Model.runLinter (m : Model) (linter : Linter) : Cmd := Cmd.linter linter m.target

/-- The message a command yields when the Bubble Tea runtime calls it. For the
closure of `runLinter` this is its body (commands.go, lines 15-26), with the
five-minute context; `tea.Quit` and widget commands yield messages `Update`
has no case for. -/
def Cmd.call (w : World) : Cmd → Msg
  | Cmd.linter l target =>
    let ctx : Context := { timeout := some (5 * 60 * 1000000000) }
    match l.Run w ctx target with
    | (_, some err) => Msg.errorMsg err
    | (result, none) => Msg.result result
  | Cmd.quit => Msg.other
  | Cmd.widget => Msg.other

/-- The text `Update` builds from the results map (model.go, lines 253-258). -/
def combineResults (results : GoMap Result) : String :=
  results.entries.foldl
    (fun content e => content ++ ("=== " ++ e.2.Name ++ " ===\n") ++ e.2.Output ++ "\n\n") ""

/-- The index of the current theme found by the loop of the `t` key
(model.go, lines 117-123). -/
def currentThemeIndex (themes : List String) (theme : String) : Nat :=
  match themes.indexOf? theme with
  | some i => i
  | none => 0

/-- The local `expectedCount` of the `linters.Result` case of `Update`
(model.go, lines 242-245). -/
def Model.expectedCount (m : Model) : Int :=
  if m.selectedTool = (m.activeLinters.length : Int) then (m.activeLinters.length : Int) else 1

/-- `Update`, key `t` (model.go, lines 109-129): cycle through the themes.
`none` is the division by zero of `% len(themes)` or an index out of range. -/
def Model.updateTheme (m : Model) : Option (Model × List Cmd) :=
  let themes := m.Themes.keys
  let currentIndex := currentThemeIndex themes m.config.UI.Theme
  if themes.length = 0 then none
  else
    let nextIndex := (currentIndex + 1) % themes.length
    match themes[nextIndex]? with
    | none => none
    | some name =>
      some ({ m with config := { m.config with UI := { m.config.UI with Theme := name } },
                     CurrentTheme := ApplyTheme m.Themes name }, [])

/-- `Update`, a key on the Explorer tab (model.go, lines 134-155). -/
def Model.updateExplorerTab (m : Model) (x : Ext) (s : String) : Option (Model × List Cmd) :=
  let (explorer, explorerCmd) := m.explorer.Update x (Msg.key s)
  let m := { m with explorer := explorer }
  let selectedFiles := m.explorer.GetSelectedFiles
  if s = "r" ∧ selectedFiles.length > 0 then
    let m := { m with target := " ".intercalate selectedFiles, state := State.StateRunning }
    some (m, m.activeLinters.map (fun linter => m.runLinter linter))
  else some (m, explorerCmd)

/-- `Update`, a key on the Linters tab (model.go, lines 157-175). `none` is an
index out of range. -/
def Model.updateLintersTab (m : Model) (s : String) : Option (Model × List Cmd) :=
  if s = "up" ∨ s = "k" then
    some (if m.selectedTool > 0 then { m with selectedTool := m.selectedTool - 1 } else m, [])
  else if s = "down" ∨ s = "j" then
    some (if m.selectedTool < (m.activeLinters.length : Int) - 1
          then { m with selectedTool := m.selectedTool + 1 } else m, [])
  else if s = "enter" then
    if m.selectedTool < (m.activeLinters.length : Int) then
      let m := { m with state := State.StateRunning }
      if m.selectedTool < 0 then none
      else
        match m.activeLinters[m.selectedTool.toNat]? with
        | none => none
        | some linter => some (m, [m.runLinter linter])
    else some (m, [])
  else some (m, [])

/-- `Update`, case `tea.KeyMsg` (model.go, lines 87-188): the global keys
first, then the keys of the active tab. -/
def Model.updateKey (m : Model) (x : Ext) (s : String) : Option (Model × List Cmd) :=
  if s = "q" then some (m, [Cmd.quit])
  else if s = "?" then some ({ m with helpShowAll := !m.helpShowAll }, [])
  else if s = "tab" then some ({ m with activeTab := (m.activeTab + 1).tmod 4 }, [])
  else if s = "shift+tab" then some ({ m with activeTab := (m.activeTab - 1 + 4).tmod 4 }, [])
  else if s = "t" then m.updateTheme
  else if m.activeTab = 0 then m.updateExplorerTab x s
  else if m.activeTab = 1 then m.updateLintersTab s
  else if m.activeTab = 2 then
    some ({ m with viewport := { m.viewport with YOffset := x.yOffset } }, [Cmd.widget])
  else some (m, [])

/-- `Update`, case `tea.WindowSizeMsg` (model.go, lines 190-230). -/
def Model.updateWindowSize (m : Model) (x : Ext) (Width Height : Int) : Model × List Cmd :=
  let m := { m with width := Width, height := Height,
                    viewport := { m.viewport with Width := Width - 4, Height := Height - 10 },
                    helpWidth := Width }
  let m := { m with explorer := { m.explorer with width := Width - 10, height := Height - 15 } }
  let (explorer, cmd) := m.explorer.Update x (Msg.windowSize Width Height)
  let m := { m with explorer := explorer }
  let leftColWidth := (Width * 3).tdiv 10
  let rightColWidth := Width - leftColWidth
  let contentHeight := Height - 3
  let repoInfoHeight : Int := 6
  let toolsHeight := contentHeight - repoInfoHeight
  match m.panes with
  | p0 :: p1 :: p2 :: p3 :: rest =>
    ({ m with panes := p0.SetSize leftColWidth repoInfoHeight
                :: p1.SetSize leftColWidth toolsHeight
                :: p2.SetSize rightColWidth contentHeight
                :: p3.SetSize rightColWidth contentHeight :: rest }, cmd)
  | _ => (m, cmd)

/-- `Update`, case `linters.Result` (model.go, lines 238-272): merge the
result, then show the results if enough of them are in the map. -/
def Model.updateResult (m : Model) (msg : Result) : Model :=
  let m := { m with results := m.results.set msg.Name msg }
  let expectedCount := m.expectedCount
  if (m.results.len : Int) ≥ expectedCount then
    let m := { m with state := State.StateResults, activeTab := 2 }
    let content := combineResults m.results
    let m := { m with viewport := (m.viewport.SetContent content).GotoTop }
    match m.panes with
    | p0 :: p1 :: p2 :: Pane.output outputPane :: rest =>
      { m with panes := p0 :: p1 :: p2
                 :: Pane.output ((outputPane.SetContent content).SetTitle "Linter Results")
                 :: rest }
    | _ => m
  else m

/-- Go `(Model).Update` (model.go), the type switch over the message. `none`
is a run-time panic (division by zero, index out of range). A message of a
type without a case (an `errorMsg` among them) leaves the model as it is. -/
def Model.Update (m : Model) (x : Ext) (msg : Msg) : Option (Model × List Cmd) :=
  match msg with
  | Msg.key s => m.updateKey x s
  | Msg.windowSize Width Height => some (m.updateWindowSize x Width Height)
  | Msg.spinnerTick =>
    if m.state = State.StateRunning then some ({ m with spinner := x.frame }, [Cmd.widget])
    else some (m, [])
  | Msg.result r => some (m.updateResult r, [])
  | Msg.errorMsg _ => some (m, [])
  | Msg.other => some (m, [])

/-- The model after a sequence of messages, each with what `Update` observes
outside at that step; `none` if one of the calls panics. -/
def Model.feed (m : Model) : List (Ext × Msg) → Option Model
  | [] => some m
  | (x, msg) :: rest =>
    match m.Update x msg with
    | some (m', _) => m'.feed rest
    | none => none

end tui

/-! ## Concrete inputs -/

namespace Demo

open linters tui

/-- A machine on which every binary is found and every command exits with
status 1 after printing one finding. -/
def findingsWorld : World :=
  { now := 100,
    exec := fun _ _ _ =>
      { stdout := "issue found", stderr := "", err := CmdErr.exitError "exit status 1",
        ctxErr := CtxErr.none, duration := 7, finished := 107 },
    durationString := fun _ => "7ns",
    lookPath := fun _ => true }

/-- A machine on which the command is killed when its one-second deadline
passes. -/
def timeoutWorld : World :=
  { now := 100,
    exec := fun _ _ _ =>
      { stdout := "partial", stderr := "", err := CmdErr.exitError "signal: killed",
        ctxErr := CtxErr.deadlineExceeded, duration := 1000000000, finished := 1000000100 },
    durationString := fun _ => "1s",
    lookPath := fun _ => true }

/-- A machine on which starting the command fails: the binary is missing. -/
def missingWorld : World :=
  { now := 100,
    exec := fun _ _ _ =>
      { stdout := "", stderr := "", err := CmdErr.other "exec: php: executable file not found in PATH",
        ctxErr := CtxErr.none, duration := 1, finished := 101 },
    durationString := fun _ => "1ns",
    lookPath := fun _ => true }

def phpLinter : Linter := Linter.php { path := "php", args := ["-l"], enabled := true }

def phpcsLinter : Linter :=
  Linter.phpcs { path := "phpcs", args := ["--standard=PSR12"], enabled := true }

def disabledESLint : Linter :=
  Linter.eslint { path := "eslint", args := ["--format=stylish"], enabled := false }

/-- Another PHP adapter, with the same name as `phpLinter`. -/
def phpOther : Linter := Linter.php { path := "/usr/bin/php", args := [], enabled := true }

def phpstanLinter : Linter :=
  Linter.phpstan { path := "phpstan", args := ["analyse", "--level=5"], enabled := true }

/-- A project at `/repo` with project-local copies of the four probed
binaries. -/
def vendorProject : Project :=
  { gitRoot := Except.ok "/repo",
    stat := fun path =>
      path == "/repo/vendor/bin/phpstan" || path == "/repo/vendor/bin/phpcs" ||
      path == "/repo/bin/golangci-lint" || path == "/repo/node_modules/.bin/eslint",
    join := fun parts => "/".intercalate parts }

/-- The registry with the two PHP adapters. -/
def registry : Registry := (NewRegistry.Register phpLinter).Register phpcsLinter

/-- A configuration without themes of its own. -/
def cfg : config.Config :=
  { Linters := GoMap.empty, UI := { Theme := "tokyo-night", Themes := GoMap.empty } }

/-- The model the program starts with: both adapters are active. -/
def start : Model := NewModel findingsWorld "." cfg registry

/-- Observations with the file `a.php` under the cursor of the explorer. -/
def onFile : Ext :=
  { selectedItem := some { path := "a.php", name := "a.php", isDir := false, selected := false },
    readFile := fun _ => Except.ok "", yOffset := 0, frame := 0 }

def ctx : Context := { timeout := some 1000000000 }

/-- Observations of a user who has scrolled the results down by five lines. -/
def scrolled : Ext := { onFile with yOffset := 5 }

def phpDone : Result :=
  { Name := "php", Success := true, Output := "No syntax errors", Error := "",
    Duration := 5, Timestamp := 105 }

def phpcsDone : Result :=
  { Name := "phpcs", Success := false, Output := "issue found", Error := "",
    Duration := 7, Timestamp := 107 }

/-- A `php` result that arrives late, after the results were shown. -/
def phpLate : Result := { phpDone with Output := "late", Timestamp := 200 }

/-- The steps of a first run: to the Linters tab, Enter on `php`, its result,
and back from the Results tab to the Linters tab. -/
def firstRun : List (Ext × Msg) :=
  [(onFile, Msg.key "tab"), (onFile, Msg.key "enter"), (onFile, Msg.result phpDone),
   (onFile, Msg.key "shift+tab")]

/-- The model after the first run. -/
def finished : Model := (start.feed firstRun).getD start

/-- A machine on which none of the linters is installed. -/
def bareWorld : World :=
  { now := 100,
    exec := fun _ _ _ =>
      { stdout := "", stderr := "", err := CmdErr.other "exec: no command",
        ctxErr := CtxErr.none, duration := 1, finished := 101 },
    durationString := fun _ => "1ns",
    lookPath := fun _ => false }

/-- The model the program starts with on that machine: no adapter is active. -/
def bareStart : Model := NewModel bareWorld "." cfg registry

/-- The model the program starts with under the default configuration, which
brings four themes. -/
def themedStart : Model := NewModel findingsWorld "." config.DefaultConfig registry

/-- An output whose first line has 65536 bytes, as a tool prints it that
reports in one line of JSON, followed by a second, short line. -/
def longOutput : String := String.mk (List.replicate 65536 'x' ++ [Char.ofNat 10, 'y'])

/-- The first line of `longOutput`. -/
def longLine : String := String.mk (List.replicate 65536 'x')

/-- A result whose output has Windows line ends. -/
def windowsResult : Result :=
  { Name := "phpstan", Success := false, Output := "a.php:3 error\r\nb\r\n", Error := "",
    Duration := 0, Timestamp := 0 }

/-- A result with the output `longOutput`. -/
def longResult : Result :=
  { Name := "phpstan", Success := false, Output := longOutput, Error := "",
    Duration := 0, Timestamp := 0 }

/-- A result whose output has a trailing newline, an empty line, a line of
blanks and a line that is a carriage return only. -/
def mixedResult : Result :=
  { Name := "phpcs", Success := false, Output := "a.php:3 error\n\n   \n\r\nb.php:7 error\n",
    Error := "", Duration := 0, Timestamp := 0 }

/-- A heap that holds the configured arguments of `phpcsLinter` in an array
with one spare cell. -/
def argsHeap : Heap := { arrays := [["--standard=PSR12", ""]] }

/-- The slice `l.args` of `phpcsLinter` on `argsHeap`: one element, capacity
two. -/
def argsSlice : Slice := { array := 0, len := 1, cap := 2 }

end Demo

/-! ## Definitions used in the statements -/

namespace linters

/-- The string an element of a generic list holds, if it is a string. -/
def Atom.string? : Atom → Option String
  | Atom.str s => some s
  | _ => none

/-- The registry after registering the given adapters in order, from an empty
one: every registry the program can hold. -/
def registered (adapters : List Linter) : Registry :=
  adapters.foldl Registry.Register NewRegistry

/-- Every entry of the registry is stored under the name of its adapter. -/
def Registry.WellKeyed (r : Registry) : Prop :=
  ∀ e ∈ r.linters.entries, e.1 = e.2.Name

/-- The characters of `strings.Join(pieces, sep)` for a separator of one
character. -/
def joinChars (sep : Char) : List (List Char) → List Char
  | [] => []
  | [piece] => piece
  | piece :: rest => piece ++ sep :: joinChars sep rest

end linters

namespace tui

open linters

/-- The results map after a run of `linters.Result` messages. -/
def mergeAll (rs : List Result) (results : GoMap Result) : GoMap Result :=
  rs.foldl (fun acc r => acc.set r.Name r) results

/-- The block of one result in the combined text (model.go, lines 254-256):
the header line with the name of the tool, the output, an empty line. -/
def resultBlock (r : Result) : String := "=== " ++ r.Name ++ " ===\n" ++ r.Output ++ "\n\n"

end tui

/-! ## Laws of Go maps -/

theorem GoMap.lookupEntry_insertEntry_self {V : Type} (k : String) (v : V)
    (l : List (String × V)) :
    GoMap.lookupEntry k (GoMap.insertEntry k v l) = some v := by
  induction l with
  | nil => simp [GoMap.insertEntry, GoMap.lookupEntry]
  | cons hd tl ih =>
    obtain ⟨k', v'⟩ := hd
    unfold GoMap.insertEntry
    split_ifs with h1 h2
    · simp [GoMap.lookupEntry]
    · simp [GoMap.lookupEntry]
    · simp [GoMap.lookupEntry, h2, ih]

theorem GoMap.lookupEntry_insertEntry_of_ne {V : Type} (k k₂ : String) (v : V)
    (l : List (String × V)) (hne : k₂ ≠ k) :
    GoMap.lookupEntry k₂ (GoMap.insertEntry k v l) = GoMap.lookupEntry k₂ l := by
  induction l with
  | nil => simp [GoMap.insertEntry, GoMap.lookupEntry, hne]
  | cons hd tl ih =>
    obtain ⟨k', v'⟩ := hd
    unfold GoMap.insertEntry
    split_ifs with h1 h2
    · simp [GoMap.lookupEntry, hne]
    · subst h2
      simp [GoMap.lookupEntry, hne]
    · simp only [GoMap.lookupEntry, ih]

/-- In a sorted entry list, a key below the first key has no entry. -/
theorem GoMap.lookupEntry_eq_none_of_lt {V : Type} (k : String) (l : List (String × V))
    (h : ∀ c ∈ l.map (fun e => keyCode e.1), keyCode k < c) :
    GoMap.lookupEntry k l = none := by
  induction l with
  | nil => rfl
  | cons hd tl ih =>
    obtain ⟨k', v'⟩ := hd
    have hk : k ≠ k' := by
      intro he
      have := h (keyCode k') (by simp)
      rw [he] at this
      exact lt_irrefl _ this
    simp only [GoMap.lookupEntry, hk, if_false]
    exact ih (fun c hc => h c (by simp only [List.map_cons, List.mem_cons]; exact Or.inr hc))

theorem GoMap.length_insertEntry {V : Type} (k : String) (v : V) (l : List (String × V))
    (hl : GoMap.Sorted l) :
    (GoMap.insertEntry k v l).length =
      if (GoMap.lookupEntry k l).isSome then l.length else l.length + 1 := by
  induction l with
  | nil => simp [GoMap.insertEntry, GoMap.lookupEntry]
  | cons hd tl ih =>
    obtain ⟨k', v'⟩ := hd
    unfold GoMap.Sorted at hl ih
    simp only [List.map_cons, List.pairwise_cons] at hl
    unfold GoMap.insertEntry
    by_cases h1 : keyCode k < keyCode k'
    · have hnone : GoMap.lookupEntry k ((k', v') :: tl) = none := by
        apply GoMap.lookupEntry_eq_none_of_lt
        intro c hc
        simp only [List.map_cons, List.mem_cons] at hc
        rcases hc with hc | hc
        · rw [hc]; exact h1
        · exact lt_trans h1 (hl.1 c hc)
      simp [h1, hnone]
    · by_cases h2 : k = k'
      · simp [h1, h2, GoMap.lookupEntry]
      · simp [h1, h2, GoMap.lookupEntry, ih hl.2]
        split_ifs <;> rfl

/-- Two sorted entry lists with the same lookups are the same list. -/
theorem GoMap.entries_ext {V : Type} (l₁ l₂ : List (String × V))
    (h₁ : GoMap.Sorted l₁) (h₂ : GoMap.Sorted l₂)
    (h : ∀ k, GoMap.lookupEntry k l₁ = GoMap.lookupEntry k l₂) : l₁ = l₂ := by
  induction l₁ generalizing l₂ with
  | nil =>
    cases l₂ with
    | nil => rfl
    | cons hd tl =>
      have := h hd.1
      simp [GoMap.lookupEntry] at this
  | cons hd tl ih =>
    obtain ⟨a, va⟩ := hd
    cases l₂ with
    | nil =>
      have := h a
      simp [GoMap.lookupEntry] at this
    | cons hd₂ tl₂ =>
      obtain ⟨b, vb⟩ := hd₂
      unfold GoMap.Sorted at h₁ h₂ ih
      simp only [List.map_cons, List.pairwise_cons] at h₁ h₂
      have hta : GoMap.lookupEntry a tl = none :=
        GoMap.lookupEntry_eq_none_of_lt a tl h₁.1
      have htb : GoMap.lookupEntry b tl₂ = none :=
        GoMap.lookupEntry_eq_none_of_lt b tl₂ h₂.1
      have hab : a = b := by
        by_contra hne
        have ha := h a
        have hb := h b
        simp only [GoMap.lookupEntry, if_true, hne, if_false] at ha
        have hne' : ¬ b = a := fun e => hne e.symm
        simp only [GoMap.lookupEntry, if_true, hne', if_false] at hb
        rcases lt_trichotomy (keyCode a) (keyCode b) with hlt | heq | hgt
        · have : GoMap.lookupEntry a tl₂ = none :=
            GoMap.lookupEntry_eq_none_of_lt a tl₂ (fun c hc => lt_trans hlt (h₂.1 c hc))
          rw [this] at ha
          exact Option.noConfusion ha
        · exact hne (keyCode_injective heq)
        · have : GoMap.lookupEntry b tl = none :=
            GoMap.lookupEntry_eq_none_of_lt b tl (fun c hc => lt_trans hgt (h₁.1 c hc))
          rw [this] at hb
          exact Option.noConfusion hb.symm
      subst hab
      have hv : va = vb := by
        have := h a
        simpa [GoMap.lookupEntry] using this
      subst hv
      have htl : tl = tl₂ := by
        apply ih tl₂ h₁.2 h₂.2
        intro k
        by_cases hk : k = a
        · rw [hk, hta, htb]
        · have := h k
          simpa [GoMap.lookupEntry, hk] using this
      rw [htl]

theorem GoMap.ext {V : Type} (m₁ m₂ : GoMap V) (h : ∀ k, m₁.get? k = m₂.get? k) : m₁ = m₂ :=
  Subtype.ext (GoMap.entries_ext m₁.1 m₂.1 m₁.2 m₂.2 h)

theorem GoMap.get?_set_self {V : Type} (m : GoMap V) (k : String) (v : V) :
    (m.set k v).get? k = some v :=
  GoMap.lookupEntry_insertEntry_self k v m.1

theorem GoMap.get?_set_of_ne {V : Type} (m : GoMap V) (k k₂ : String) (v : V) (hne : k₂ ≠ k) :
    (m.set k v).get? k₂ = m.get? k₂ :=
  GoMap.lookupEntry_insertEntry_of_ne k k₂ v m.1 hne

theorem GoMap.len_set {V : Type} (m : GoMap V) (k : String) (v : V) :
    (m.set k v).len = if (m.get? k).isSome then m.len else m.len + 1 :=
  GoMap.length_insertEntry k v m.1 m.2

theorem GoMap.len_set_le {V : Type} (m : GoMap V) (k : String) (v : V) :
    (m.set k v).len ≤ m.len + 1 := by
  rw [GoMap.len_set]
  split_ifs <;> omega

theorem GoMap.len_le_len_set {V : Type} (m : GoMap V) (k : String) (v : V) :
    m.len ≤ (m.set k v).len := by
  rw [GoMap.len_set]
  split_ifs <;> omega

theorem GoMap.one_le_len_set {V : Type} (m : GoMap V) (k : String) (v : V) :
    1 ≤ (m.set k v).len := by
  rw [GoMap.len_set]
  split_ifs with h
  · have : m.len ≠ 0 := by
      intro h0
      have h1 : m.1 = [] := List.length_eq_zero.mp h0
      simp [GoMap.get?, h1, GoMap.lookupEntry] at h
    omega
  · omega

theorem GoMap.set_set_same {V : Type} (m : GoMap V) (k : String) (v v₂ : V) :
    (m.set k v).set k v₂ = m.set k v₂ := by
  apply GoMap.ext
  intro k₂
  by_cases hk : k₂ = k
  · rw [hk, GoMap.get?_set_self, GoMap.get?_set_self]
  · rw [GoMap.get?_set_of_ne _ _ _ _ hk, GoMap.get?_set_of_ne _ _ _ _ hk,
      GoMap.get?_set_of_ne _ _ _ _ hk]

theorem GoMap.set_comm {V : Type} (m : GoMap V) (k₁ k₂ : String) (v₁ v₂ : V) (hne : k₁ ≠ k₂) :
    (m.set k₁ v₁).set k₂ v₂ = (m.set k₂ v₂).set k₁ v₁ := by
  apply GoMap.ext
  intro k
  by_cases h2 : k = k₂
  · subst h2
    rw [GoMap.get?_set_self, GoMap.get?_set_of_ne _ _ _ _ (Ne.symm hne), GoMap.get?_set_self]
  · by_cases h1 : k = k₁
    · subst h1
      rw [GoMap.get?_set_of_ne _ _ _ _ h2, GoMap.get?_set_self, GoMap.get?_set_self]
    · rw [GoMap.get?_set_of_ne _ _ _ _ h2, GoMap.get?_set_of_ne _ _ _ _ h1,
        GoMap.get?_set_of_ne _ _ _ _ h1, GoMap.get?_set_of_ne _ _ _ _ h2]

/-! ## The adapters' failure classification -/

namespace linters

/-- The argument vector `Run` hands to the command (the statements before
`exec.CommandContext`), as an expression. -/
theorem argv_eq (args : List String) (target : String) :
    (if target ≠ "" then ([] ++ args) ++ [target] else [] ++ args) =
      if target = "" then args else args ++ [target] := by
  by_cases h : target = "" <;> simp [h]

/-- C3: for every enabled adapter and every target, when the process ends with
an exit-status error and the context's deadline has not elapsed, `Run` returns a
nil error and a result with `Success = false`, `Output` the captured stdout and
`Error` the captured stderr. -/
theorem run_nonzero_exit (l : Linter) (w : World) (ctx : Context) (target text : String)
    (hen : l.enabled = true)
    (hexit : (w.exec ctx l.path (if target = "" then l.args else l.args ++ [target])).err
      = CmdErr.exitError text)
    (hctx : (w.exec ctx l.path (if target = "" then l.args else l.args ++ [target])).ctxErr
      ≠ CtxErr.deadlineExceeded) :
    (l.Run w ctx target).2 = none ∧
    (l.Run w ctx target).1.Name = l.Name ∧
    (l.Run w ctx target).1.Success = false ∧
    (l.Run w ctx target).1.Output
      = (w.exec ctx l.path (if target = "" then l.args else l.args ++ [target])).stdout ∧
    (l.Run w ctx target).1.Error
      = (w.exec ctx l.path (if target = "" then l.args else l.args ++ [target])).stderr := by
  cases l <;>
    simp only [Linter.enabled, Linter.path, Linter.args] at hen hexit hctx <;>
    simp [Linter.Run, Linter.Name, Linter.path, Linter.args, PHPStan.Run, PHPCS.Run, PHP.Run,
      GolangCI.Run, ESLint.Run, hen, argv_eq, hexit, hctx, CmdErr.isErr, CmdErr.isExitError]

/-- C3 at a concrete input: `phpcs` exits with status 1 after printing a finding. -/
theorem run_nonzero_exit_witness :
    (Demo.phpcsLinter.Run Demo.findingsWorld Demo.ctx "x.php").2 = none ∧
    (Demo.phpcsLinter.Run Demo.findingsWorld Demo.ctx "x.php").1.Name = "phpcs" ∧
    (Demo.phpcsLinter.Run Demo.findingsWorld Demo.ctx "x.php").1.Success = false ∧
    (Demo.phpcsLinter.Run Demo.findingsWorld Demo.ctx "x.php").1.Output = "issue found" ∧
    (Demo.phpcsLinter.Run Demo.findingsWorld Demo.ctx "x.php").1.Error = "" :=
  run_nonzero_exit Demo.phpcsLinter Demo.findingsWorld Demo.ctx "x.php" "exit status 1"
    (by decide) (by decide) (by decide)

/-- The two error texts of `Run` never coincide: they differ in their ninth
character. -/
theorem timeout_text_ne_failure_text (a b : String) :
    "command timed out after " ++ a ≠ "command failed: " ++ b := by
  intro h
  have h2 := congrArg (fun s => s.data.get? 8) h
  simp [String.data_append] at h2

/-- C4: for every enabled adapter, when the command ended with an error, the
result carries the captured stdout and stderr with `Success = false`; if the
deadline has elapsed the error is the timeout error, whether or not the error of
the process is an exit-status error (so a process killed by the deadline is
never a nil-error result); if the deadline has not elapsed and the error is no
exit-status error, the error is the `command failed` error wrapping it; and
the two error texts are always different. -/
theorem run_timeout_precedence (l : Linter) (w : World) (ctx : Context) (target : String)
    (hen : l.enabled = true)
    (herr : (w.exec ctx l.path (if target = "" then l.args else l.args ++ [target])).err.isErr
      = true) :
    (l.Run w ctx target).1 =
      { Name := l.Name, Success := false,
        Output := (w.exec ctx l.path (if target = "" then l.args else l.args ++ [target])).stdout,
        Error := (w.exec ctx l.path (if target = "" then l.args else l.args ++ [target])).stderr,
        Duration :=
          (w.exec ctx l.path (if target = "" then l.args else l.args ++ [target])).duration,
        Timestamp :=
          (w.exec ctx l.path (if target = "" then l.args else l.args ++ [target])).finished } ∧
    ((w.exec ctx l.path (if target = "" then l.args else l.args ++ [target])).ctxErr
        = CtxErr.deadlineExceeded →
      (l.Run w ctx target).2 = some ("command timed out after " ++ w.durationString
        (w.exec ctx l.path (if target = "" then l.args else l.args ++ [target])).duration)) ∧
    ((w.exec ctx l.path (if target = "" then l.args else l.args ++ [target])).ctxErr
        ≠ CtxErr.deadlineExceeded →
      (w.exec ctx l.path (if target = "" then l.args else l.args ++ [target])).err.isExitError
        = false →
      (l.Run w ctx target).2 = some ("command failed: " ++
        (w.exec ctx l.path (if target = "" then l.args else l.args ++ [target])).err.text)) ∧
    (∀ a b : String, "command timed out after " ++ a ≠ "command failed: " ++ b) := by
  refine ⟨?_, ?_, ?_, timeout_text_ne_failure_text⟩
  · cases l <;>
      simp only [Linter.enabled, Linter.path, Linter.args] at hen herr <;>
      simp only [Linter.Run, Linter.Name, Linter.path, Linter.args, PHPStan.Run, PHPCS.Run,
        PHP.Run, GolangCI.Run, ESLint.Run, hen, argv_eq, herr] <;>
      simp <;> split_ifs <;> simp
  · intro hd
    cases l <;>
      simp only [Linter.enabled, Linter.path, Linter.args] at hen herr hd <;>
      simp [Linter.Run, Linter.path, Linter.args, PHPStan.Run, PHPCS.Run,
        PHP.Run, GolangCI.Run, ESLint.Run, hen, argv_eq, herr, hd]
  · intro hd hx
    cases l <;>
      simp only [Linter.enabled, Linter.path, Linter.args] at hen herr hd hx <;>
      simp [Linter.Run, Linter.path, Linter.args, PHPStan.Run, PHPCS.Run,
        PHP.Run, GolangCI.Run, ESLint.Run, hen, argv_eq, herr, hd, hx]

/-- C4 at concrete inputs: a process killed at its one-second deadline (an
exit-status error) yields the timeout error, a missing binary the
`command failed` error. -/
theorem run_timeout_precedence_witness :
    (Demo.phpLinter.Run Demo.timeoutWorld Demo.ctx "a.php").2
      = some "command timed out after 1s" ∧
    (Demo.phpLinter.Run Demo.timeoutWorld Demo.ctx "a.php").1.Success = false ∧
    (Demo.phpLinter.Run Demo.timeoutWorld Demo.ctx "a.php").1.Output = "partial" ∧
    (Demo.phpLinter.Run Demo.missingWorld Demo.ctx "a.php").2
      = some "command failed: exec: php: executable file not found in PATH" := by
  have h1 := run_timeout_precedence Demo.phpLinter Demo.timeoutWorld Demo.ctx "a.php"
    (by decide) (by decide)
  have h2 := run_timeout_precedence Demo.phpLinter Demo.missingWorld Demo.ctx "a.php"
    (by decide) (by decide)
  refine ⟨?_, ?_, ?_, ?_⟩
  · rw [h1.2.1 (by decide)]; decide
  · rw [h1.1]
  · rw [h1.1]; decide
  · rw [h2.2.2.1 (by decide) (by decide)]; decide

/-- C5: for each of the five adapters, `Run` with the enabled flag off returns
a nil error and a result with `Success = true`, the adapter's name, an output
text containing `disabled` and an empty `Error`; the value is the same whatever
the path, the arguments, the target, the context and the behaviour of external
commands (only the clock enters, as the timestamp). -/
theorem run_disabled (l : Linter) (w : World) (ctx : Context) (target : String)
    (hen : l.enabled = false) :
    (l.Run w ctx target).2 = none ∧
    (l.Run w ctx target).1.Success = true ∧
    (l.Run w ctx target).1.Name = l.Name ∧
    "disabled".data <:+: (l.Run w ctx target).1.Output.data ∧
    (l.Run w ctx target).1.Error = "" ∧
    (l.Run w ctx target).1.Timestamp = w.now ∧
    (∀ (l' : Linter) (w' : World) (ctx' : Context) (target' : String),
      l'.Name = l.Name → l'.enabled = false → w'.now = w.now →
      l'.Run w' ctx' target' = l.Run w ctx target) := by
  cases l <;>
    simp only [Linter.enabled] at hen <;>
    (refine ⟨?_, ?_, ?_, ?_, ?_, ?_, ?_⟩ <;>
      try simp [Linter.Run, Linter.Name, PHPStan.Run, PHPCS.Run, PHP.Run, GolangCI.Run,
        ESLint.Run, hen]) <;>
    first
    | decide
    | (intro l' w' ctx' target' hn he hw
       cases l' <;>
         simp only [Linter.enabled] at he <;>
         simp_all [Linter.Run, Linter.Name, PHPStan.Run, PHPCS.Run, PHP.Run, GolangCI.Run,
           ESLint.Run, PHPStan.Name, PHPCS.Name, PHP.Name, GolangCI.Name, ESLint.Name])

/-- C5 at a concrete input: the disabled ESLint adapter on a machine where
every command would fail. -/
theorem run_disabled_witness :
    (Demo.disabledESLint.Run Demo.missingWorld Demo.ctx "a.js").2 = none ∧
    (Demo.disabledESLint.Run Demo.missingWorld Demo.ctx "a.js").1.Success = true ∧
    (Demo.disabledESLint.Run Demo.missingWorld Demo.ctx "a.js").1.Name = "eslint" ∧
    (Demo.disabledESLint.Run Demo.missingWorld Demo.ctx "a.js").1.Output
      = "ESLint is disabled in configuration" := by
  have h := run_disabled Demo.disabledESLint Demo.missingWorld Demo.ctx "a.js" (by decide)
  exact ⟨h.1, h.2.1, h.2.2.1, by decide⟩

end linters

/-! ## The results map and the state machine -/

namespace tui

open linters

theorem expectedCount_with_results (m : Model) (rs : GoMap Result) :
    Model.expectedCount { m with results := rs } = m.expectedCount := rfl

theorem updateTheme_frame (m m' : Model) (cmds : List Cmd)
    (h : m.updateTheme = some (m', cmds)) :
    m'.results = m.results ∧ m'.activeLinters = m.activeLinters ∧
      m'.selectedTool = m.selectedTool ∧ m'.state = m.state := by
  unfold Model.updateTheme at h
  simp only [] at h
  split_ifs at h
  split at h
  · exact absurd h (by simp)
  · simp only [Option.some.injEq, Prod.mk.injEq] at h
    obtain ⟨h1, -⟩ := h
    subst h1
    exact ⟨rfl, rfl, rfl, rfl⟩

theorem updateExplorerTab_frame (m m' : Model) (x : Ext) (s : String) (cmds : List Cmd)
    (h : m.updateExplorerTab x s = some (m', cmds)) :
    m'.results = m.results ∧ m'.activeLinters = m.activeLinters ∧
      m'.selectedTool = m.selectedTool := by
  unfold Model.updateExplorerTab at h
  simp only [] at h
  split_ifs at h <;>
    (simp only [Option.some.injEq, Prod.mk.injEq] at h
     obtain ⟨h1, -⟩ := h
     subst h1
     exact ⟨rfl, rfl, rfl⟩)

theorem updateLintersTab_frame (m m' : Model) (s : String) (cmds : List Cmd)
    (h : m.updateLintersTab s = some (m', cmds)) :
    m'.results = m.results ∧ m'.activeLinters = m.activeLinters := by
  unfold Model.updateLintersTab at h
  simp only [] at h
  split_ifs at h <;> first
    | (simp only [Option.some.injEq, Prod.mk.injEq] at h
       obtain ⟨h1, -⟩ := h
       subst h1
       exact ⟨rfl, rfl⟩)
    | (split at h
       · exact absurd h (by simp)
       · simp only [Option.some.injEq, Prod.mk.injEq] at h
         obtain ⟨h1, -⟩ := h
         subst h1
         exact ⟨rfl, rfl⟩)

theorem updateKey_frame (m m' : Model) (x : Ext) (s : String) (cmds : List Cmd)
    (h : m.updateKey x s = some (m', cmds)) :
    m'.results = m.results ∧ m'.activeLinters = m.activeLinters := by
  unfold Model.updateKey at h
  split_ifs at h <;> first
    | (simp only [Option.some.injEq, Prod.mk.injEq] at h
       obtain ⟨h1, -⟩ := h
       subst h1
       exact ⟨rfl, rfl⟩)
    | exact ⟨(updateTheme_frame m m' cmds h).1, (updateTheme_frame m m' cmds h).2.1⟩
    | exact ⟨(updateExplorerTab_frame m m' x s cmds h).1,
        (updateExplorerTab_frame m m' x s cmds h).2.1⟩
    | exact updateLintersTab_frame m m' s cmds h

theorem updateWindowSize_frame (m : Model) (x : Ext) (Width Height : Int) :
    (m.updateWindowSize x Width Height).1.results = m.results ∧
      (m.updateWindowSize x Width Height).1.activeLinters = m.activeLinters := by
  unfold Model.updateWindowSize
  simp only []
  split <;> exact ⟨rfl, rfl⟩

theorem updateResult_of_reached (m : Model) (r : Result)
    (h : ((m.results.set r.Name r).len : Int) ≥ m.expectedCount) :
    (m.updateResult r).results = m.results.set r.Name r ∧
    (m.updateResult r).selectedTool = m.selectedTool ∧
    (m.updateResult r).activeLinters = m.activeLinters ∧
    (m.updateResult r).state = State.StateResults ∧ (m.updateResult r).activeTab = 2 ∧
    (m.updateResult r).viewport =
      { m.viewport with content := combineResults (m.results.set r.Name r), YOffset := 0 } := by
  simp only [Model.updateResult, expectedCount_with_results, h, if_true]
  split <;> exact ⟨rfl, rfl, rfl, rfl, rfl, rfl⟩

theorem updateResult_of_not_reached (m : Model) (r : Result)
    (h : ¬ ((m.results.set r.Name r).len : Int) ≥ m.expectedCount) :
    m.updateResult r = { m with results := m.results.set r.Name r } := by
  simp only [Model.updateResult, expectedCount_with_results, h, if_false]

/-- What the `linters.Result` case writes: the merged map always, the state,
the tab and the viewport when the map has reached the expected count. -/
theorem updateResult_fields (m : Model) (r : Result) :
    (m.updateResult r).results = m.results.set r.Name r ∧
    (m.updateResult r).selectedTool = m.selectedTool ∧
    (m.updateResult r).activeLinters = m.activeLinters ∧
    (m.updateResult r).expectedCount = m.expectedCount ∧
    (((m.results.set r.Name r).len : Int) ≥ m.expectedCount →
      (m.updateResult r).state = State.StateResults ∧ (m.updateResult r).activeTab = 2 ∧
      (m.updateResult r).viewport =
        { m.viewport with content := combineResults (m.results.set r.Name r), YOffset := 0 }) ∧
    (¬ ((m.results.set r.Name r).len : Int) ≥ m.expectedCount →
      (m.updateResult r).state = m.state ∧ (m.updateResult r).activeTab = m.activeTab ∧
      (m.updateResult r).viewport = m.viewport ∧ (m.updateResult r).panes = m.panes) := by
  by_cases h : ((m.results.set r.Name r).len : Int) ≥ m.expectedCount
  · have hr := updateResult_of_reached m r h
    refine ⟨hr.1, hr.2.1, hr.2.2.1, ?_, fun _ => ⟨hr.2.2.2.1, hr.2.2.2.2.1, hr.2.2.2.2.2⟩,
      fun hn => absurd h hn⟩
    unfold Model.expectedCount
    rw [hr.2.1, hr.2.2.1]
  · have hr := updateResult_of_not_reached m r h
    rw [hr]
    exact ⟨rfl, rfl, rfl, rfl, fun hp => absurd hp h, fun _ => ⟨rfl, rfl, rfl, rfl⟩⟩

/-- Only a `linters.Result` message writes the results map, and no message
changes the list of active linters. -/
theorem update_frame (m m' : Model) (x : Ext) (msg : Msg) (cmds : List Cmd)
    (h : m.Update x msg = some (m', cmds)) :
    m'.results = (match msg with
      | Msg.result r => m.results.set r.Name r
      | _ => m.results) ∧
    m'.activeLinters = m.activeLinters := by
  cases msg with
  | key s => exact updateKey_frame m m' x s cmds h
  | windowSize w hh =>
    simp only [Model.Update, Option.some.injEq] at h
    have := updateWindowSize_frame m x w hh
    rw [h] at this
    exact this
  | spinnerTick =>
    simp only [Model.Update] at h
    split_ifs at h <;>
      (simp only [Option.some.injEq, Prod.mk.injEq] at h
       obtain ⟨h1, -⟩ := h
       subst h1
       exact ⟨rfl, rfl⟩)
  | result r =>
    simp only [Model.Update, Option.some.injEq, Prod.mk.injEq] at h
    obtain ⟨h1, -⟩ := h
    subst h1
    exact ⟨(updateResult_fields m r).1, (updateResult_fields m r).2.2.1⟩
  | errorMsg e =>
    simp only [Model.Update, Option.some.injEq, Prod.mk.injEq] at h
    obtain ⟨h1, -⟩ := h
    subst h1
    exact ⟨rfl, rfl⟩
  | other =>
    simp only [Model.Update, Option.some.injEq, Prod.mk.injEq] at h
    obtain ⟨h1, -⟩ := h
    subst h1
    exact ⟨rfl, rfl⟩

/-- C9: merging a completion stores it under its tool name, last write wins:
after `Update` on a result `r` the entry of `r.Name` is `r`, every other entry
is as before, the map has one entry more if `r.Name` had none and as many as
before if it had one, and merging `r` once more leaves the map as it is. -/
theorem merge_last_write_wins (m : Model) (x : Ext) (r : Result) :
    ∃ m', m.Update x (Msg.result r) = some (m', []) ∧
      m'.results.get? r.Name = some r ∧
      (∀ k, k ≠ r.Name → m'.results.get? k = m.results.get? k) ∧
      (m.results.get? r.Name = none → m'.results.len = m.results.len + 1) ∧
      ((m.results.get? r.Name).isSome = true → m'.results.len = m.results.len) ∧
      (∀ x₂, ∃ m₃, m'.Update x₂ (Msg.result r) = some (m₃, []) ∧ m₃.results = m'.results) := by
  refine ⟨m.updateResult r, rfl, ?_, ?_, ?_, ?_, ?_⟩
  · rw [(updateResult_fields m r).1]
    exact GoMap.get?_set_self _ _ _
  · intro k hk
    rw [(updateResult_fields m r).1]
    exact GoMap.get?_set_of_ne _ _ _ _ hk
  · intro hnone
    rw [(updateResult_fields m r).1, GoMap.len_set, hnone]
    rfl
  · intro hsome
    rw [(updateResult_fields m r).1, GoMap.len_set, if_pos hsome]
  · intro x₂
    refine ⟨(m.updateResult r).updateResult r, rfl, ?_⟩
    rw [(updateResult_fields (m.updateResult r) r).1, (updateResult_fields m r).1]
    exact GoMap.set_set_same _ _ _ _

/-- C9 at a concrete input: a late `php` result replaces the one of the
finished run, and the map keeps its single entry. -/
theorem merge_last_write_wins_witness :
    ∃ m', Demo.finished.Update Demo.onFile (Msg.result Demo.phpLate) = some (m', []) ∧
      m'.results.get? "php" = some Demo.phpLate ∧ m'.results.len = 1 := by
  obtain ⟨m', h1, h2, -, -, h5, -⟩ :=
    merge_last_write_wins Demo.finished Demo.onFile Demo.phpLate
  refine ⟨m', h1, h2, ?_⟩
  rw [h5 (by decide)]
  decide

theorem len_le_len_mergeAll (rs : List Result) (results : GoMap Result) :
    results.len ≤ (mergeAll rs results).len := by
  induction rs generalizing results with
  | nil => exact Nat.le_refl _
  | cons r rest ih =>
    exact Nat.le_trans (GoMap.len_le_len_set results r.Name r) (ih (results.set r.Name r))

/-- The model after a run of `linters.Result` messages: the map holds all of
them, and the state is `StateResults` exactly if the final map has reached the
expected count (or if no message came and it was so before). -/
theorem feed_results (e : Result → Ext) (rs : List Result) (m : Model) :
    ∃ m', m.feed (rs.map (fun r => (e r, Msg.result r))) = some m' ∧
      m'.results = mergeAll rs m.results ∧
      m'.expectedCount = m.expectedCount ∧
      m'.state = (if rs = [] then m.state
        else if ((mergeAll rs m.results).len : Int) ≥ m.expectedCount then State.StateResults
        else m.state) := by
  induction rs generalizing m with
  | nil => exact ⟨m, rfl, rfl, rfl, rfl⟩
  | cons r rest ih =>
    obtain ⟨m', hfeed, hres, hexp, hstate⟩ := ih (m.updateResult r)
    have hf := updateResult_fields m r
    refine ⟨m', ?_, ?_, ?_, ?_⟩
    · simpa [Model.feed, Model.Update] using hfeed
    · rw [hres, hf.1]; rfl
    · rw [hexp, hf.2.2.2.1]
    · rw [hstate, hf.1, hf.2.2.2.1]
      have hmono := len_le_len_mergeAll rest (m.results.set r.Name r)
      have hcons : mergeAll (r :: rest) m.results = mergeAll rest (m.results.set r.Name r) := rfl
      rw [hcons]
      simp only [reduceCtorEq, if_false]
      by_cases hrest : rest = []
      · subst hrest
        simp only [if_true]
        by_cases hth : ((m.results.set r.Name r).len : Int) ≥ m.expectedCount
        · rw [(hf.2.2.2.2.1 hth).1]
          simp [mergeAll, hth]
        · rw [(hf.2.2.2.2.2 hth).1]
          simp [mergeAll, hth]
      · simp only [hrest, if_false]
        by_cases hfin : ((mergeAll rest (m.results.set r.Name r)).len : Int) ≥ m.expectedCount
        · simp [hfin]
        · have hth : ¬ ((m.results.set r.Name r).len : Int) ≥ m.expectedCount := by
            intro hge
            apply hfin
            have : ((m.results.set r.Name r).len : Int)
                ≤ ((mergeAll rest (m.results.set r.Name r)).len : Int) := by
              exact_mod_cast hmono
            omega
          simp only [hfin, if_false]
          exact (hf.2.2.2.2.2 hth).1

theorem mergeAll_perm (rs₁ rs₂ : List Result) (results : GoMap Result)
    (hperm : rs₁.Perm rs₂) (hnames : (rs₁.map Result.Name).Nodup) :
    mergeAll rs₁ results = mergeAll rs₂ results := by
  unfold mergeAll
  apply List.Perm.foldl_eq' hperm
  intro a ha b hb z
  by_cases hab : a = b
  · rw [hab]
  · have hne : a.Name ≠ b.Name := by
      intro hn
      exact hab (List.inj_on_of_nodup_map hnames ha hb hn)
    exact GoMap.set_comm z a.Name b.Name a b hne

/-- C10: for completions with pairwise distinct tool names, feeding them to
`Update` in any two orders from the same model ends with the same results map
and the same state. -/
theorem completion_order_irrelevant (m : Model) (e₁ e₂ : Result → Ext)
    (rs₁ rs₂ : List Result) (hperm : rs₁.Perm rs₂) (hnames : (rs₁.map Result.Name).Nodup) :
    ∃ m₁ m₂, m.feed (rs₁.map (fun r => (e₁ r, Msg.result r))) = some m₁ ∧
      m.feed (rs₂.map (fun r => (e₂ r, Msg.result r))) = some m₂ ∧
      m₁.results = m₂.results ∧ m₁.state = m₂.state := by
  obtain ⟨m₁, hf₁, hr₁, -, hs₁⟩ := feed_results e₁ rs₁ m
  obtain ⟨m₂, hf₂, hr₂, -, hs₂⟩ := feed_results e₂ rs₂ m
  have hmap := mergeAll_perm rs₁ rs₂ m.results hperm hnames
  refine ⟨m₁, m₂, hf₁, hf₂, ?_, ?_⟩
  · rw [hr₁, hr₂, hmap]
  · rw [hs₁, hs₂, hmap]
    by_cases h1 : rs₁ = []
    · have h2 : rs₂ = [] := by
        rw [h1] at hperm
        exact List.Perm.nil_eq hperm |>.symm
      simp [h1, h2]
    · have h2 : rs₂ ≠ [] := by
        intro h2
        rw [h2] at hperm
        exact h1 (List.Perm.eq_nil hperm)
      simp [h1, h2]

/-- C10 at a concrete input: tool `php` succeeds, tool `phpcs` reports an
issue; both arrival orders end with the same map and state. -/
theorem completion_order_irrelevant_witness :
    ∃ m₁ m₂,
      Demo.start.feed ([Demo.phpDone, Demo.phpcsDone].map
        (fun r => (Demo.onFile, Msg.result r))) = some m₁ ∧
      Demo.start.feed ([Demo.phpcsDone, Demo.phpDone].map
        (fun r => (Demo.onFile, Msg.result r))) = some m₂ ∧
      m₁.results = m₂.results ∧ m₁.state = m₂.state :=
  completion_order_irrelevant Demo.start (fun _ => Demo.onFile) (fun _ => Demo.onFile)
    [Demo.phpDone, Demo.phpcsDone] [Demo.phpcsDone, Demo.phpDone]
    (List.Perm.swap Demo.phpcsDone Demo.phpDone []) (by decide)

/-- C1, the code at the failing input: with two active linters and one
selected file, key `r` on the Explorer tab sets `StateRunning` and launches two
linters; the first of the two completions already moves the model to
`StateResults`, with one entry in the map. -/
theorem run_all_ends_after_first_completion :
    Demo.start.activeLinters.length = 2 ∧
    ((Demo.start.feed [(Demo.onFile, Msg.key " ")]).bind
        (fun m => m.Update Demo.onFile (Msg.key "r"))).map
      (fun p => (p.1.state, p.2)) =
      some (State.StateRunning,
        [Cmd.linter Demo.phpLinter "a.php", Cmd.linter Demo.phpcsLinter "a.php"]) ∧
    (Demo.start.feed [(Demo.onFile, Msg.key " "), (Demo.onFile, Msg.key "r"),
        (Demo.onFile, Msg.result Demo.phpcsDone)]).map
      (fun m => (m.state, m.results.len, m.expectedCount)) =
      some (State.StateResults, 1, 1) := by
  decide

/-- Every result of `Run` carries the adapter's name. -/
theorem run_name (l : Linter) (w : World) (ctx : Context) (target : String) :
    (l.Run w ctx target).1.Name = l.Name := by
  cases l <;>
    simp only [Linter.Run, Linter.Name, PHPStan.Run, PHPCS.Run, PHP.Run, GolangCI.Run,
      ESLint.Run] <;>
    split_ifs <;> rfl

/-- C2, counterexample: the `php` binary is missing, `Run` returns the
`command failed` error, the command built by `runLinter` emits an `errorMsg`
and no result, and after `Update` has handled it the results map is still
empty and the state still `StateRunning`. -/
theorem runLinter_error_is_not_merged :
    (Demo.phpLinter.Run Demo.missingWorld { timeout := some (5 * 60 * 1000000000) } "a.php").2
      = some "command failed: exec: php: executable file not found in PATH" ∧
    Cmd.call Demo.missingWorld (Cmd.linter Demo.phpLinter "a.php")
      = Msg.errorMsg "command failed: exec: php: executable file not found in PATH" ∧
    (Demo.start.feed [(Demo.onFile, Msg.key " "), (Demo.onFile, Msg.key "r"),
        (Demo.onFile, Cmd.call Demo.missingWorld (Cmd.linter Demo.phpLinter "a.php"))]).map
      (fun m => (m.state, m.results.len, m.results.get? "php")) =
      some (State.StateRunning, 0, none) := by
  decide

/-- C2, amended: the command built by `runLinter` yields one message; when
`Run` returns an error it is an `errorMsg` with the error's text, when `Run`
returns a nil error it is the result itself, and `Update` then stores that
result in the map under the tool's name. -/
theorem runLinter_emits_one_message (m : Model) (l : Linter) (w : World) :
    (∀ err, (l.Run w { timeout := some (5 * 60 * 1000000000) } m.target).2 = some err →
      Cmd.call w (m.runLinter l) = Msg.errorMsg err) ∧
    ((l.Run w { timeout := some (5 * 60 * 1000000000) } m.target).2 = none →
      Cmd.call w (m.runLinter l)
        = Msg.result (l.Run w { timeout := some (5 * 60 * 1000000000) } m.target).1 ∧
      ∀ (m₂ : Model) (x : Ext), ∃ m', m₂.Update x (Cmd.call w (m.runLinter l)) = some (m', []) ∧
        m'.results.get? l.Name
          = some (l.Run w { timeout := some (5 * 60 * 1000000000) } m.target).1) := by
  constructor
  · intro err herr
    simp only [Model.runLinter, Cmd.call]
    split
    · rename_i e heq
      rw [heq] at herr
      simp only [Option.some.injEq] at herr
      rw [herr]
    · rename_i res heq
      rw [heq] at herr
      exact Option.noConfusion herr
  · intro hnone
    have hcall : Cmd.call w (m.runLinter l)
        = Msg.result (l.Run w { timeout := some (5 * 60 * 1000000000) } m.target).1 := by
      simp only [Model.runLinter, Cmd.call]
      split
      · rename_i e heq
        rw [heq] at hnone
        exact Option.noConfusion hnone
      · rename_i res heq
        rw [heq]
    refine ⟨hcall, ?_⟩
    intro m₂ x
    rw [hcall]
    refine ⟨m₂.updateResult _, rfl, ?_⟩
    rw [(updateResult_fields m₂ _).1, run_name]
    exact GoMap.get?_set_self _ _ _

/-- C2, amended, at concrete inputs: a missing binary yields an `errorMsg`,
a linter that reports an issue yields its result, which is merged. -/
theorem runLinter_emits_one_message_witness :
    Cmd.call Demo.missingWorld (Demo.start.runLinter Demo.phpLinter)
      = Msg.errorMsg "command failed: exec: php: executable file not found in PATH" ∧
    ∃ m', Demo.start.Update Demo.onFile
        (Cmd.call Demo.findingsWorld (Demo.start.runLinter Demo.phpcsLinter)) = some (m', []) ∧
      m'.results.get? "phpcs" = some
        { Name := "phpcs", Success := false, Output := "issue found", Error := "",
          Duration := 7, Timestamp := 107 } := by
  have h₁ := runLinter_emits_one_message Demo.start Demo.phpLinter Demo.missingWorld
  have h₂ := runLinter_emits_one_message Demo.start Demo.phpcsLinter Demo.findingsWorld
  refine ⟨h₁.1 _ (by decide), ?_⟩
  obtain ⟨m', hm', hget⟩ := (h₂.2 (by decide)).2 Demo.start Demo.onFile
  exact ⟨m', hm', hget⟩

/-- A key other than the space bar leaves the explorer's selection as it is. -/
theorem explorer_update_selection (e : Explorer) (x : Ext) (s : String) (hs : s ≠ " ") :
    (e.Update x (Msg.key s)).1.selectedFiles = e.selectedFiles := by
  unfold Explorer.Update
  simp only [hs, if_false]
  split_ifs
  · split
    · split_ifs
      · rfl
      · split <;> rfl
    · rfl
  · rfl
  · rfl

/-- C6, counterexample: after a first run of `php` has put its result into the
map, Enter on the Linters tab starts a new run and the map still holds that
result; and after key `r` with two active linters the handler's expected count
is 1 while two linters were launched. -/
theorem new_run_keeps_old_results :
    (Demo.start.feed [(Demo.onFile, Msg.key "tab"), (Demo.onFile, Msg.key "enter"),
        (Demo.onFile, Msg.result Demo.phpDone), (Demo.onFile, Msg.key "shift+tab")]).map
      (fun m => (m.state, m.activeTab, m.results.len)) = some (State.StateResults, 1, 1) ∧
    (Demo.start.feed [(Demo.onFile, Msg.key "tab"), (Demo.onFile, Msg.key "enter"),
        (Demo.onFile, Msg.result Demo.phpDone), (Demo.onFile, Msg.key "shift+tab"),
        (Demo.onFile, Msg.key "enter")]).map
      (fun m => (m.state, m.results.len, m.results.get? "php"))
      = some (State.StateRunning, 1, some Demo.phpDone) ∧
    ((Demo.start.feed [(Demo.onFile, Msg.key " ")]).bind
        (fun m => m.Update Demo.onFile (Msg.key "r"))).map
      (fun p => (p.1.state, p.1.expectedCount, p.2.length)) = some (State.StateRunning, 1, 2) := by
  decide

/-- C6, amended: key `r` on the Explorer tab with a selected file, and Enter on
the Linters tab with a linter under the cursor, set `StateRunning` and leave the
results map exactly as it was; `r` launches every active linter on the joined
selection, Enter launches one linter, and for Enter the handler's expected
count equals that number of launched linters. -/
theorem new_run_keeps_results (m : Model) (x : Ext) (s : String)
    (hrun : (m.activeTab = 0 ∧ s = "r" ∧ 0 < m.explorer.GetSelectedFiles.length) ∨
      (m.activeTab = 1 ∧ s = "enter" ∧ 0 ≤ m.selectedTool ∧
        m.selectedTool < (m.activeLinters.length : Int))) :
    ∃ m' cmds, m.Update x (Msg.key s) = some (m', cmds) ∧
      m'.state = State.StateRunning ∧
      m'.results = m.results ∧
      (m.activeTab = 0 →
        cmds = m.activeLinters.map
          (fun l => Cmd.linter l (" ".intercalate m.explorer.GetSelectedFiles))) ∧
      (m.activeTab = 1 → cmds.length = 1 ∧ m'.expectedCount = (cmds.length : Int)) := by
  rcases hrun with ⟨htab, hs, hsel⟩ | ⟨htab, hs, hlo, hhi⟩
  · subst hs
    have hexp : (m.explorer.Update x (Msg.key "r")).1.GetSelectedFiles
        = m.explorer.GetSelectedFiles := by
      unfold Explorer.GetSelectedFiles
      rw [explorer_update_selection m.explorer x "r" (by decide)]
    refine ⟨{ m with explorer := (m.explorer.Update x (Msg.key "r")).1,
                     target := " ".intercalate m.explorer.GetSelectedFiles,
                     state := State.StateRunning },
      m.activeLinters.map (fun l => Cmd.linter l (" ".intercalate m.explorer.GetSelectedFiles)),
      ?_, rfl, rfl, fun _ => rfl, ?_⟩
    · simp only [Model.Update, Model.updateKey, htab, if_true, Model.updateExplorerTab]
      simp [Model.runLinter, hexp, hsel]
    · intro h1
      rw [htab] at h1
      exact absurd h1 (by decide)
  · subst hs
    have hidx : m.selectedTool.toNat < m.activeLinters.length := by omega
    have hget : m.activeLinters[m.selectedTool.toNat]? = some (m.activeLinters[m.selectedTool.toNat])
      := List.getElem?_eq_getElem hidx
    have hne0 : ¬ m.activeTab = 0 := by rw [htab]; decide
    have hnlt : ¬ m.selectedTool < 0 := by omega
    refine ⟨{ m with state := State.StateRunning },
      [Cmd.linter (m.activeLinters[m.selectedTool.toNat]) m.target], ?_, rfl, rfl, ?_, ?_⟩
    · simp only [Model.Update, Model.updateKey, Model.updateLintersTab]
      simp [hne0, htab, hhi, hnlt, hget, Model.runLinter]
    · intro h0
      exact absurd h0 hne0
    · intro _
      refine ⟨rfl, ?_⟩
      have hne : ¬ m.selectedTool = (m.activeLinters.length : Int) := by omega
      simp [Model.expectedCount, hne]

/-- C6, amended, at a concrete input: Enter on the Linters tab after a finished
run of `php`. -/
theorem new_run_keeps_results_witness :
    ∃ m' cmds, Demo.finished.Update Demo.onFile (Msg.key "enter") = some (m', cmds) ∧
      m'.state = State.StateRunning ∧
      m'.results = Demo.finished.results ∧
      (Demo.finished.activeTab = 0 →
        cmds = Demo.finished.activeLinters.map
          (fun l => Cmd.linter l (" ".intercalate Demo.finished.explorer.GetSelectedFiles))) ∧
      (Demo.finished.activeTab = 1 → cmds.length = 1 ∧ m'.expectedCount = (cmds.length : Int)) :=
  new_run_keeps_results Demo.finished Demo.onFile "enter"
    (Or.inr ⟨by decide, rfl, by decide, by decide⟩)

/-- After any messages the map has grown by at most the number of results
among them, and every entry was there before or is one of these results. -/
theorem feed_results_bound (msgs : List (Ext × Msg)) (m₀ m : Model)
    (h : m₀.feed msgs = some m) :
    m.results.len ≤ m₀.results.len + (msgs.filter (fun p => p.2.isResult)).length ∧
    ∀ k r, m.results.get? k = some r →
      m₀.results.get? k = some r ∨ (r.Name = k ∧ ∃ x, (x, Msg.result r) ∈ msgs) := by
  induction msgs generalizing m₀ with
  | nil =>
    simp only [Model.feed, Option.some.injEq] at h
    subst h
    exact ⟨by simp, fun k r hk => Or.inl hk⟩
  | cons p rest ih =>
    obtain ⟨x, msg⟩ := p
    simp only [Model.feed] at h
    split at h
    · rename_i m₁ cmds hupd
      obtain ⟨hlen, hent⟩ := ih m₁ h
      have hfr := (update_frame m₀ m₁ x msg cmds hupd).1
      cases msg with
      | result r' =>
        simp only at hfr
        constructor
        · have := GoMap.len_set_le m₀.results r'.Name r'
          rw [hfr] at hlen
          have hfl : (List.filter (fun p => p.2.isResult) ((x, Msg.result r') :: rest)).length
              = (List.filter (fun p => p.2.isResult) rest).length + 1 := by
            rw [List.filter_cons_of_pos (by rfl)]
            rfl
          omega
        · intro k r hk
          rcases hent k r hk with h1 | ⟨hn, x', hx'⟩
          · rw [hfr] at h1
            by_cases hkn : k = r'.Name
            · subst hkn
              rw [GoMap.get?_set_self] at h1
              simp only [Option.some.injEq] at h1
              subst h1
              exact Or.inr ⟨rfl, x, List.mem_cons_self _ _⟩
            · rw [GoMap.get?_set_of_ne _ _ _ _ hkn] at h1
              exact Or.inl h1
          · exact Or.inr ⟨hn, x', List.mem_cons_of_mem _ hx'⟩
      | key s =>
        simp only at hfr
        rw [hfr] at hlen hent
        refine ⟨by simpa [List.filter_cons, Msg.isResult] using hlen, ?_⟩
        intro k r hk
        rcases hent k r hk with h1 | ⟨hn, x', hx'⟩
        · exact Or.inl h1
        · exact Or.inr ⟨hn, x', List.mem_cons_of_mem _ hx'⟩
      | windowSize a b =>
        simp only at hfr
        rw [hfr] at hlen hent
        refine ⟨by simpa [List.filter_cons, Msg.isResult] using hlen, ?_⟩
        intro k r hk
        rcases hent k r hk with h1 | ⟨hn, x', hx'⟩
        · exact Or.inl h1
        · exact Or.inr ⟨hn, x', List.mem_cons_of_mem _ hx'⟩
      | spinnerTick =>
        simp only at hfr
        rw [hfr] at hlen hent
        refine ⟨by simpa [List.filter_cons, Msg.isResult] using hlen, ?_⟩
        intro k r hk
        rcases hent k r hk with h1 | ⟨hn, x', hx'⟩
        · exact Or.inl h1
        · exact Or.inr ⟨hn, x', List.mem_cons_of_mem _ hx'⟩
      | errorMsg e =>
        simp only at hfr
        rw [hfr] at hlen hent
        refine ⟨by simpa [List.filter_cons, Msg.isResult] using hlen, ?_⟩
        intro k r hk
        rcases hent k r hk with h1 | ⟨hn, x', hx'⟩
        · exact Or.inl h1
        · exact Or.inr ⟨hn, x', List.mem_cons_of_mem _ hx'⟩
      | other =>
        simp only at hfr
        rw [hfr] at hlen hent
        refine ⟨by simpa [List.filter_cons, Msg.isResult] using hlen, ?_⟩
        intro k r hk
        rcases hent k r hk with h1 | ⟨hn, x', hx'⟩
        · exact Or.inl h1
        · exact Or.inr ⟨hn, x', List.mem_cons_of_mem _ hx'⟩
    · exact absurd h (by simp)

/-- C7, counterexample: a first run of `php` and a second run of `phpcs`, one
linter launched each time; after the second completion the map has two entries
for a run of one linter, and a late `php` result of the first run that arrives
during the second run is merged. -/
theorem results_exceed_launched :
    ((Demo.start.feed (Demo.firstRun ++ [(Demo.onFile, Msg.key "j")])).bind
        (fun m => m.Update Demo.onFile (Msg.key "enter"))).map
      (fun p => (p.1.state, p.2)) =
      some (State.StateRunning, [Cmd.linter Demo.phpcsLinter ""]) ∧
    (Demo.start.feed (Demo.firstRun ++ [(Demo.onFile, Msg.key "j"),
        (Demo.onFile, Msg.key "enter"), (Demo.onFile, Msg.result Demo.phpcsDone)])).map
      (fun m => m.results.len) = some 2 ∧
    (Demo.start.feed (Demo.firstRun ++ [(Demo.onFile, Msg.key "j"),
        (Demo.onFile, Msg.key "enter"), (Demo.onFile, Msg.result Demo.phpLate)])).map
      (fun m => m.results.get? "php") = some (some Demo.phpLate) := by
  decide

/-- C7, amended: in every state reached from `NewModel` the results map has no
more entries than `linters.Result` messages were delivered, and each entry is
a delivered result stored under its own name, whichever run launched it. -/
theorem results_bounded_by_delivered (w : World) (rootDir : String) (cfg : config.Config)
    (registry : Registry) (msgs : List (Ext × Msg)) (m : Model)
    (h : (NewModel w rootDir cfg registry).feed msgs = some m) :
    m.results.len ≤ (msgs.filter (fun p => p.2.isResult)).length ∧
    ∀ k r, m.results.get? k = some r → r.Name = k ∧ ∃ x, (x, Msg.result r) ∈ msgs := by
  obtain ⟨hlen, hent⟩ := feed_results_bound msgs _ m h
  constructor
  · have h0 : (NewModel w rootDir cfg registry).results.len = 0 := rfl
    omega
  · intro k r hk
    rcases hent k r hk with h1 | h1
    · have h0 : (NewModel w rootDir cfg registry).results.get? k = none := rfl
      rw [h0] at h1
      exact Option.noConfusion h1
    · exact h1

/-- C7, amended, at a concrete input: the first run of the example. -/
theorem results_bounded_by_delivered_witness :
    Demo.finished.results.len ≤ (Demo.firstRun.filter (fun p => p.2.isResult)).length ∧
    ∀ k r, Demo.finished.results.get? k = some r →
      r.Name = k ∧ ∃ x, (x, Msg.result r) ∈ Demo.firstRun :=
  results_bounded_by_delivered Demo.findingsWorld "." Demo.cfg Demo.registry Demo.firstRun
    Demo.finished (by rfl)

/-- C8, counterexample: the results of a run of `php` are shown; the user
scrolls down and moves on to the Config tab; a late duplicate `php` result then
switches the tab back to Results, replaces the viewport's content and scrolls
it to the top. -/
theorem late_result_repeats_transition :
    (Demo.start.feed [(Demo.onFile, Msg.key "tab"), (Demo.onFile, Msg.key "enter"),
        (Demo.onFile, Msg.result Demo.phpDone), (Demo.scrolled, Msg.key "down"),
        (Demo.onFile, Msg.key "tab")]).map
      (fun m => (m.state, m.activeTab, m.viewport.YOffset, m.viewport.content)) =
      some (State.StateResults, 3, 5, "=== php ===\nNo syntax errors\n\n") ∧
    (Demo.start.feed [(Demo.onFile, Msg.key "tab"), (Demo.onFile, Msg.key "enter"),
        (Demo.onFile, Msg.result Demo.phpDone), (Demo.scrolled, Msg.key "down"),
        (Demo.onFile, Msg.key "tab"), (Demo.onFile, Msg.result Demo.phpLate)]).map
      (fun m => (m.state, m.activeTab, m.viewport.YOffset, m.viewport.content)) =
      some (State.StateResults, 2, 0, "=== php ===\nlate\n\n") := by
  decide

theorem updateResult_panes_of_reached (m : Model) (r : Result)
    (h : ((m.results.set r.Name r).len : Int) ≥ m.expectedCount)
    (p0 p1 p2 : Pane) (outputPane : OutputPane) (rest : List Pane)
    (hp : m.panes = p0 :: p1 :: p2 :: Pane.output outputPane :: rest) :
    (m.updateResult r).panes = p0 :: p1 :: p2 :: Pane.output
      ((outputPane.SetContent (combineResults (m.results.set r.Name r))).SetTitle
        "Linter Results") :: rest := by
  cases m
  simp only at hp
  subst hp
  simp only [Model.updateResult]
  split_ifs with hc
  · rfl
  · exact absurd h hc

/-- C8, amended: at every merge that leaves the map with at least the expected
number of entries, the first such merge or a later one, `Update` sets
`StateResults`, switches to the Results tab, hands the text built from the
merged map to the viewport, scrolled to the top, and to the output pane; and
from then on every further result meets the condition again. -/
theorem transition_at_every_merge (m : Model) (x : Ext) (r : Result)
    (hreached : ((m.results.set r.Name r).len : Int) ≥ m.expectedCount) :
    ∃ m', m.Update x (Msg.result r) = some (m', []) ∧
      m'.results = m.results.set r.Name r ∧
      m'.state = State.StateResults ∧ m'.activeTab = 2 ∧
      m'.viewport = { m.viewport with content := combineResults m'.results, YOffset := 0 } ∧
      (∀ p0 p1 p2 outputPane rest, m.panes = p0 :: p1 :: p2 :: Pane.output outputPane :: rest →
        m'.panes = p0 :: p1 :: p2 :: Pane.output
          { outputPane with
            content := combineResults m'.results
            title := "Linter Results"
            viewport := { outputPane.viewport with content := combineResults m'.results } }
          :: rest) ∧
      (∀ r₂ : Result, ((m'.results.set r₂.Name r₂).len : Int) ≥ m'.expectedCount) := by
  have hr := updateResult_of_reached m r hreached
  have hf := updateResult_fields m r
  refine ⟨m.updateResult r, rfl, hr.1, hr.2.2.2.1, hr.2.2.2.2.1, ?_, ?_, ?_⟩
  · rw [hr.2.2.2.2.2, hr.1]
  · intro p0 p1 p2 outputPane rest hp
    rw [updateResult_panes_of_reached m r hreached p0 p1 p2 outputPane rest hp, hr.1]
    rfl
  · intro r₂
    rw [hf.2.2.2.1, hr.1]
    have := GoMap.len_le_len_set (m.results.set r.Name r) r₂.Name r₂
    have hc : ((m.results.set r.Name r).len : Int)
        ≤ (((m.results.set r.Name r).set r₂.Name r₂).len : Int) := by exact_mod_cast this
    omega

/-- C8, amended, at a concrete input: the late `php` result of the example. -/
theorem transition_at_every_merge_witness :
    ∃ m', Demo.finished.Update Demo.onFile (Msg.result Demo.phpLate) = some (m', []) ∧
      m'.state = State.StateResults ∧ m'.activeTab = 2 ∧
      m'.viewport.content = "=== php ===\nlate\n\n" := by
  obtain ⟨m', h1, h2, h3, h4, h5, -, -⟩ :=
    transition_at_every_merge Demo.finished Demo.onFile Demo.phpLate (by decide)
  refine ⟨m', h1, h3, h4, ?_⟩
  rw [h5, h2]
  decide

end tui

/-! ## Success flag, argument vector and configuration of the adapters -/

namespace linters

/-- C11: for every adapter and every outcome, `Success = false` in the result of
`Run` only if the adapter is enabled and the process ended with an exit-status
error or `Run` returned an error as well; `Success = true` exactly if the
adapter is disabled or `cmd.Run()` returned nil; and for a disabled adapter the
output is the text about being disabled, the same whatever external commands
would print. -/
theorem run_success_flag (l : Linter) (w : World) (ctx : Context) (target : String) :
    ((l.Run w ctx target).1.Success = false →
      l.enabled = true ∧
      ((w.exec ctx l.path (if target = "" then l.args else l.args ++ [target])).err.isExitError
          = true ∨
        (l.Run w ctx target).2 ≠ none)) ∧
    ((l.Run w ctx target).1.Success = true ↔
      (l.enabled = false ∨
        (w.exec ctx l.path (if target = "" then l.args else l.args ++ [target])).err
          = CmdErr.none)) ∧
    (l.enabled = false →
      "disabled".data <:+: (l.Run w ctx target).1.Output.data ∧
      ∀ w₂ : World, (l.Run w₂ ctx target).1.Output = (l.Run w ctx target).1.Output) := by
  cases l <;> rename_i a <;> obtain ⟨path, args, enabled⟩ := a <;> cases enabled <;>
    simp only [Linter.Run, Linter.path, Linter.args, Linter.enabled, PHPStan.Run, PHPCS.Run,
      PHP.Run, GolangCI.Run, ESLint.Run, argv_eq]
  case phpstan.mk.false | phpcs.mk.false | php.mk.false | golangci.mk.false | eslint.mk.false =>
    simp
    decide
  all_goals
    cases herr : (w.exec ctx path (if target = "" then args else args ++ [target])).err <;>
      simp [CmdErr.isErr, CmdErr.isExitError] <;>
      split_ifs <;> simp

/-- C11 at concrete inputs: a finding gives `Success = false` with a nil
error, a missing binary gives `Success = false` with an error, and the disabled
adapter gives `Success = true`. -/
theorem run_success_flag_witness :
    ((Demo.phpcsLinter.Run Demo.findingsWorld Demo.ctx "x.php").1.Success = false ∧
      (Demo.phpcsLinter.Run Demo.findingsWorld Demo.ctx "x.php").2 = none) ∧
    ((Demo.phpLinter.Run Demo.missingWorld Demo.ctx "x.php").1.Success = false ∧
      (Demo.phpLinter.Run Demo.missingWorld Demo.ctx "x.php").2 ≠ none) ∧
    (Demo.disabledESLint.Run Demo.missingWorld Demo.ctx "x.js").1.Success = true := by
  have h₁ := run_success_flag Demo.phpcsLinter Demo.findingsWorld Demo.ctx "x.php"
  have h₂ := run_success_flag Demo.phpLinter Demo.missingWorld Demo.ctx "x.php"
  have h₃ := run_success_flag Demo.disabledESLint Demo.missingWorld Demo.ctx "x.js"
  refine ⟨⟨by decide, by decide⟩, ⟨by decide, ?_⟩, h₃.2.1.mpr (Or.inl (by decide))⟩
  rcases (h₂.1 (by decide)).2 with h | h
  · exact absurd h (by decide)
  · exact h

/-- C12: an enabled adapter runs its command with the argument vector `args`
when the target is empty and `args` followed by the target as its one last
element otherwise: `Run` reads the outcome of exactly this command (its output
is the captured stdout of it, in every world), and two worlds that agree on this
one command give the same result. The legacy runners `RunPHPStan` and
`RunPHPCS` build the same vector from `cfg.Args`. -/
theorem run_argument_vector (l : Linter) (ctx : Context) (target : String)
    (hen : l.enabled = true) :
    ∃ argv : List String,
      (target = "" → argv = l.args) ∧
      (target ≠ "" → argv = l.args ++ [target] ∧ argv.take l.args.length = l.args ∧
        argv.drop l.args.length = [target]) ∧
      (∀ w : World, (l.Run w ctx target).1.Output = (w.exec ctx l.path argv).stdout ∧
        (l.Run w ctx target).1.Error = (w.exec ctx l.path argv).stderr) ∧
      (∀ w w₂ : World, w₂.durationString = w.durationString →
        w₂.exec ctx l.path argv = w.exec ctx l.path argv →
        l.Run w₂ ctx target = l.Run w ctx target) ∧
      (∀ (w : World) (cfg : config.PHPStanConfig) (timeout : Nat), cfg.Enabled = true →
        tools.RunPHPStan w cfg target timeout
          = tools.runTool w "phpstan" cfg.Path
              (if target = "" then cfg.Args else cfg.Args ++ [target]) timeout) ∧
      (∀ (w : World) (cfg : config.PHPCSConfig) (timeout : Nat), cfg.Enabled = true →
        tools.RunPHPCS w cfg target timeout
          = tools.runTool w "phpcs" cfg.Path
              (if target = "" then cfg.Args else cfg.Args ++ [target]) timeout) := by
  refine ⟨if target = "" then l.args else l.args ++ [target], ?_, ?_, ?_, ?_, ?_, ?_⟩
  · intro h
    simp [h]
  · intro h
    simp [h]
  · intro w
    cases l <;>
      simp only [Linter.enabled] at hen <;>
      simp only [Linter.Run, Linter.path, Linter.args, PHPStan.Run, PHPCS.Run, PHP.Run,
        GolangCI.Run, ESLint.Run, hen, argv_eq] <;>
      simp <;> split_ifs <;> simp
  · intro w w₂ hd he
    cases l <;>
      simp only [Linter.enabled] at hen <;>
      simp only [Linter.path, Linter.args] at he <;>
      simp [Linter.Run, Linter.path, Linter.args, PHPStan.Run, PHPCS.Run, PHP.Run,
        GolangCI.Run, ESLint.Run, hen, argv_eq, he, hd]
  · intro w cfg timeout hc
    simp [tools.RunPHPStan, hc, argv_eq]
  · intro w cfg timeout hc
    simp [tools.RunPHPCS, hc, argv_eq]

/-- C12 at a concrete input: `phpcs --standard=PSR12 x.php`. -/
theorem run_argument_vector_witness :
    ∃ argv : List String, argv = ["--standard=PSR12", "x.php"] ∧
      (Demo.phpcsLinter.Run Demo.findingsWorld Demo.ctx "x.php").1.Output
        = (Demo.findingsWorld.exec Demo.ctx "phpcs" argv).stdout := by
  obtain ⟨argv, -, h₂, h₃, -⟩ :=
    run_argument_vector Demo.phpcsLinter Demo.ctx "x.php" (by decide)
  exact ⟨argv, (h₂ (by decide)).1, (h₃ Demo.findingsWorld).1⟩

/-- C13, the code at the failing input: `Configure` of the PHP adapter with a
typed string list under `args` leaves the arguments at their prior value,
where the PHPCS adapter takes the list; `DefaultConfig` holds such typed lists.
A generic list of strings is taken by both. -/
theorem php_configure_ignores_typed_args :
    ((Linter.php NewPHP).Configure
        (GoMap.empty.set "args" (Value.strings ["-d", "display_errors=1", "-l"]))).1.args
      = ["-l"] ∧
    (Demo.phpcsLinter.Configure
        (GoMap.empty.set "args" (Value.strings ["-d", "display_errors=1", "-l"]))).1.args
      = ["-d", "display_errors=1", "-l"] ∧
    ((Linter.php NewPHP).Configure
        (GoMap.empty.set "args"
          (Value.list [Atom.str "-d", Atom.str "display_errors=1", Atom.str "-l"]))).1.args
      = ["-d", "display_errors=1", "-l"] ∧
    (config.DefaultConfig.Linters.get? "php").bind (fun options => options.get? "args")
      = some (Value.strings ["-l"]) := by
  decide

theorem php_args_foldl (xs : List Atom) (acc : List String) :
    xs.foldl (fun acc arg =>
        match arg with
        | Atom.str s => acc ++ [s]
        | _ => acc) acc
      = acc ++ xs.filterMap Atom.string? := by
  induction xs generalizing acc with
  | nil => simp
  | cons x rest ih =>
    cases x <;> simp [List.foldl, ih, Atom.string?, List.filterMap_cons]

theorem args_map_eq (xs : List Atom) :
    xs.map (fun arg =>
        match arg with
        | Atom.str str => str
        | _ => "")
      = xs.map (fun arg => (Atom.string? arg).getD "") := by
  apply List.map_congr_left
  intro a _
  cases a <;> rfl

/-- C14, counterexample: a generic list with a non-string element under `args`
does not leave the arguments at their prior value: the PHPStan adapter gets
the list with an empty string at that index, the PHP adapter the list without
that element. -/
theorem configure_mixed_list_replaces_args :
    (Demo.phpstanLinter.Configure
        (GoMap.empty.set "args" (Value.list [Atom.str "analyse", Atom.int 8]))).1.args
      = ["analyse", ""] ∧
    ((Linter.php NewPHP).Configure
        (GoMap.empty.set "args" (Value.list [Atom.str "-n", Atom.int 8]))).1.args
      = ["-n"] := by
  decide

/-- C14, amended: `Configure` never returns an error; a `path` that is no
string, an `enabled` that is no bool and an `args` that is neither a typed
string list nor a generic list leave the field at its prior value; a generic
list under `args` replaces the arguments, in the PHP adapter by its string
elements in order, in the other four by the list of the same length with the
empty string in place of every element that is no string. -/
theorem configure_best_effort (l : Linter) (options : GoMap Value) :
    (l.Configure options).2 = none ∧
    (l.Configure options).1.Name = l.Name ∧
    ((∀ s, options.get? "path" ≠ some (Value.str s)) → (l.Configure options).1.path = l.path) ∧
    ((∀ b, options.get? "enabled" ≠ some (Value.bool b)) →
      (l.Configure options).1.enabled = l.enabled) ∧
    ((∀ a, options.get? "args" ≠ some (Value.strings a)) →
      (∀ xs, options.get? "args" ≠ some (Value.list xs)) →
      (l.Configure options).1.args = l.args) ∧
    (∀ xs, options.get? "args" = some (Value.list xs) →
      (l.Configure options).1.args =
        match l with
        | Linter.php _ => xs.filterMap Atom.string?
        | _ => xs.map (fun arg => (Atom.string? arg).getD "")) := by
  refine ⟨?_, ?_, ?_, ?_, ?_, ?_⟩
  · cases l <;> rfl
  · cases l <;> rfl
  · intro h
    cases l <;>
      simp only [Linter.Configure, Linter.path, PHPStan.Configure, PHPCS.Configure,
        PHP.Configure, GolangCI.Configure, ESLint.Configure] <;>
      repeat' split <;>
      first
      | rfl
      | simp_all
  · intro h
    cases l <;>
      simp only [Linter.Configure, Linter.enabled, PHPStan.Configure, PHPCS.Configure,
        PHP.Configure, GolangCI.Configure, ESLint.Configure] <;>
      repeat' split <;>
      first
      | rfl
      | simp_all
  · intro h₁ h₂
    cases l <;>
      simp only [Linter.Configure, Linter.args, PHPStan.Configure, PHPCS.Configure,
        PHP.Configure, GolangCI.Configure, ESLint.Configure] <;>
      repeat' split <;>
      first
      | rfl
      | simp_all
  · intro xs h
    cases l <;>
      simp only [Linter.Configure, Linter.args, PHPStan.Configure, PHPCS.Configure,
        PHP.Configure, GolangCI.Configure, ESLint.Configure, h] <;>
      repeat' split <;>
      first
      | exact args_map_eq xs
      | (rw [php_args_foldl]; rfl)

/-- C14, amended, at concrete inputs: a number under `path` and a string under
`enabled` change nothing, a mixed generic list replaces the arguments. -/
theorem configure_best_effort_witness :
    (Demo.phpcsLinter.Configure
        ((GoMap.empty.set "path" (Value.int 3)).set "enabled" (Value.str "yes"))).1
      = Demo.phpcsLinter ∧
    (Demo.phpcsLinter.Configure
        (GoMap.empty.set "args" (Value.list [Atom.str "-n", Atom.bool true]))).1.args
      = ["-n", ""] := by
  have h₁ := configure_best_effort Demo.phpcsLinter
    ((GoMap.empty.set "path" (Value.int 3)).set "enabled" (Value.str "yes"))
  have h₂ := configure_best_effort Demo.phpcsLinter
    (GoMap.empty.set "args" (Value.list [Atom.str "-n", Atom.bool true]))
  refine ⟨by decide, ?_⟩
  rw [h₂.2.2.2.2.2 [Atom.str "-n", Atom.bool true] (by decide)]
  decide

theorem defaultOptions_get (q : String) (xs : List String) :
    (config.defaultOptions q xs).get? "path" = some (Value.str q) ∧
    (config.defaultOptions q xs).get? "args" = some (Value.strings xs) ∧
    (config.defaultOptions q xs).get? "enabled" = some (Value.bool true) :=
  ⟨rfl, rfl, rfl⟩

/-- An option bag of `DefaultConfig` sets the path of every adapter. -/
theorem configure_defaultOptions_path (l : Linter) (q : String) (xs : List String) :
    (l.Configure (config.defaultOptions q xs)).1.path = q := by
  cases l <;>
    simp only [Linter.Configure, Linter.path, PHPStan.Configure, PHPCS.Configure, PHP.Configure,
      GolangCI.Configure, ESLint.Configure, (defaultOptions_get q xs).1,
      (defaultOptions_get q xs).2.1, (defaultOptions_get q xs).2.2]

theorem configure_fold_get (es : List (String × GoMap Value)) (hs : GoMap.Sorted es)
    (r : Registry) (n : String) :
    (es.foldl
        (fun registry e =>
          match registry.Get e.1 with
          | some linter => { linters := registry.linters.set e.1 (linter.Configure e.2).1 }
          | none => registry)
        r).Get n =
      match GoMap.lookupEntry n es with
      | some o => (r.Get n).map (fun l => (l.Configure o).1)
      | none => r.Get n := by
  induction es generalizing r with
  | nil => rfl
  | cons e rest ih =>
    obtain ⟨k, o⟩ := e
    unfold GoMap.Sorted at hs ih
    simp only [List.map_cons, List.pairwise_cons] at hs
    simp only [List.foldl_cons]
    rw [ih hs.2]
    by_cases hn : n = k
    · subst hn
      have hnone : GoMap.lookupEntry n rest = none :=
        GoMap.lookupEntry_eq_none_of_lt n rest hs.1
      simp only [hnone, GoMap.lookupEntry, if_true]
      cases hg : r.Get n with
      | none => simp [hg]
      | some l => simp [Registry.Get, GoMap.get?_set_self]
    · simp only [GoMap.lookupEntry, hn, if_false]
      have hsame : (match r.Get k with
          | some linter => ({ linters := r.linters.set k (linter.Configure o).1 } : Registry)
          | none => r).Get n = r.Get n := by
        cases r.Get k with
        | none => rfl
        | some l => exact GoMap.get?_set_of_ne _ _ _ _ hn
      rw [hsame]

/-- After the loop of `main`, an adapter that is registered under a name with
an entry in the configuration is the adapter configured with that entry. -/
theorem configureLinters_get (r : Registry) (cfg : config.Config) (n : String) :
    (cmd.configureLinters r cfg).Get n =
      match cfg.Linters.get? n with
      | some o => (r.Get n).map (fun l => (l.Configure o).1)
      | none => r.Get n :=
  configure_fold_get cfg.Linters.1 cfg.Linters.2 r n

/-- C15, the code at the failing input: in a project with local copies of the
four probed binaries the constructors choose the local paths, and after the
startup of `main` with `DefaultConfig` the adapters have the bare command names
as their paths again, because `DefaultConfig` carries a `path` for each adapter
and `Configure` takes it; the paths after startup are the bare names in every
project. -/
theorem startup_overrides_probed_path :
    (NewPHPStan Demo.vendorProject).path = "/repo/vendor/bin/phpstan" ∧
    (NewPHPCS Demo.vendorProject).path = "/repo/vendor/bin/phpcs" ∧
    (NewGolangCI Demo.vendorProject).path = "/repo/bin/golangci-lint" ∧
    (NewESLint Demo.vendorProject).path = "/repo/node_modules/.bin/eslint" ∧
    (cmd.startup Demo.vendorProject config.DefaultConfig).GetAll.map (fun l => (l.Name, l.path))
      = [("eslint", "eslint"), ("golangci-lint", "golangci-lint"), ("php", "php"),
         ("phpcs", "phpcs"), ("phpstan", "phpstan")] ∧
    (∀ p : Project,
      ((cmd.startup p config.DefaultConfig).Get "phpstan").map Linter.path = some "phpstan" ∧
      ((cmd.startup p config.DefaultConfig).Get "phpcs").map Linter.path = some "phpcs" ∧
      ((cmd.startup p config.DefaultConfig).Get "golangci-lint").map Linter.path
        = some "golangci-lint" ∧
      ((cmd.startup p config.DefaultConfig).Get "eslint").map Linter.path = some "eslint") := by
  refine ⟨by decide, by decide, by decide, by decide, by decide, fun p => ⟨?_, ?_, ?_, ?_⟩⟩
  · have hc : config.DefaultConfig.Linters.get? "phpstan"
        = some (config.defaultOptions "phpstan" ["analyse", "--level=5"]) := by decide
    have hr : (DefaultRegistry p).Get "phpstan" = some (Linter.phpstan (NewPHPStan p)) := rfl
    rw [cmd.startup, configureLinters_get, hc]
    simp only [hr, Option.map_some', configure_defaultOptions_path]
  · have hc : config.DefaultConfig.Linters.get? "phpcs"
        = some (config.defaultOptions "phpcs" ["--standard=PSR12"]) := by decide
    have hr : (DefaultRegistry p).Get "phpcs" = some (Linter.phpcs (NewPHPCS p)) := rfl
    rw [cmd.startup, configureLinters_get, hc]
    simp only [hr, Option.map_some', configure_defaultOptions_path]
  · have hc : config.DefaultConfig.Linters.get? "golangci-lint"
        = some (config.defaultOptions "golangci-lint"
            ["run", "--out-format=colored-line-number"]) := by decide
    have hr : (DefaultRegistry p).Get "golangci-lint"
        = some (Linter.golangci (NewGolangCI p)) := rfl
    rw [cmd.startup, configureLinters_get, hc]
    simp only [hr, Option.map_some', configure_defaultOptions_path]
  · have hc : config.DefaultConfig.Linters.get? "eslint"
        = some (config.defaultOptions "eslint" ["--format=stylish"]) := by decide
    have hr : (DefaultRegistry p).Get "eslint" = some (Linter.eslint (NewESLint p)) := rfl
    rw [cmd.startup, configureLinters_get, hc]
    simp only [hr, Option.map_some', configure_defaultOptions_path]

end linters

/-! ## The registry -/

theorem GoMap.mem_insertEntry {V : Type} (k : String) (v : V) (l : List (String × V))
    (e : String × V) (he : e ∈ GoMap.insertEntry k v l) : e = (k, v) ∨ e ∈ l := by
  induction l with
  | nil =>
    simp only [GoMap.insertEntry, List.mem_singleton] at he
    exact Or.inl he
  | cons hd tl ih =>
    obtain ⟨k', v'⟩ := hd
    unfold GoMap.insertEntry at he
    split_ifs at he with h1 h2
    · simp only [List.mem_cons] at he ⊢
      exact he
    · simp only [List.mem_cons] at he ⊢
      rcases he with he | he
      · exact Or.inl he
      · exact Or.inr (Or.inr he)
    · simp only [List.mem_cons] at he ⊢
      rcases he with he | he
      · exact Or.inr (Or.inl he)
      · rcases ih he with h | h
        · exact Or.inl h
        · exact Or.inr (Or.inr h)

/-- In a sorted entry list, the entries are exactly the successful lookups. -/
theorem GoMap.mem_iff_lookupEntry {V : Type} (l : List (String × V)) (hl : GoMap.Sorted l)
    (k : String) (v : V) : (k, v) ∈ l ↔ GoMap.lookupEntry k l = some v := by
  induction l with
  | nil => simp [GoMap.lookupEntry]
  | cons hd tl ih =>
    obtain ⟨k', v'⟩ := hd
    unfold GoMap.Sorted at hl ih
    simp only [List.map_cons, List.pairwise_cons] at hl
    by_cases hk : k = k'
    · subst hk
      have hnot : ∀ v₂, (k, v₂) ∉ tl := fun v₂ hmem =>
        lt_irrefl _ (hl.1 (keyCode k) (List.mem_map.mpr ⟨(k, v₂), hmem, rfl⟩))
      simp only [List.mem_cons, Prod.mk.injEq, true_and, GoMap.lookupEntry, if_true,
        Option.some.injEq]
      constructor
      · rintro (h | h)
        · exact h.symm
        · exact absurd h (hnot v)
      · intro h
        exact Or.inl h.symm
    · simp only [List.mem_cons, Prod.mk.injEq, hk, false_and, false_or, GoMap.lookupEntry,
        if_false]
      exact ih hl.2

theorem GoMap.nodup_entries {V : Type} (m : GoMap V) : m.entries.Nodup := by
  have h : (m.1.map (fun e => keyCode e.1)).Nodup :=
    List.Pairwise.imp (fun hlt => ne_of_lt hlt) m.2
  exact List.Nodup.of_map _ h

theorem GoMap.nodup_keys {V : Type} (m : GoMap V) : m.keys.Nodup := by
  have h : (m.1.map (fun e => keyCode e.1)).Nodup :=
    List.Pairwise.imp (fun hlt => ne_of_lt hlt) m.2
  have h2 : m.1.map (fun e => keyCode e.1) = (m.1.map Prod.fst).map keyCode := by
    rw [List.map_map]
    rfl
  rw [h2] at h
  exact List.Nodup.of_map _ h

theorem GoMap.mem_keys_iff {V : Type} (m : GoMap V) (k : String) :
    k ∈ m.keys ↔ (m.get? k).isSome = true := by
  unfold GoMap.keys GoMap.get?
  constructor
  · intro h
    obtain ⟨e, he, hk⟩ := List.mem_map.mp h
    obtain ⟨k', v⟩ := e
    simp only at hk
    subst hk
    rw [(GoMap.mem_iff_lookupEntry m.1 m.2 k' v).mp he]
    rfl
  · intro h
    obtain ⟨v, hv⟩ := Option.isSome_iff_exists.mp h
    exact List.mem_map.mpr ⟨(k, v), (GoMap.mem_iff_lookupEntry m.1 m.2 k v).mpr hv, rfl⟩

theorem foldl_append_eq_filter_map {α β : Type} (p : α → Bool) (f : α → β) (l : List α)
    (init : List β) :
    l.foldl (fun result e => if p e then result ++ [f e] else result) init
      = init ++ (l.filter p).map f := by
  induction l generalizing init with
  | nil => simp
  | cons x rest ih =>
    simp only [List.foldl_cons, ih, List.filter_cons]
    split_ifs <;> simp

namespace linters

theorem wellKeyed_register (r : Registry) (a : Linter) (h : r.WellKeyed) :
    (r.Register a).WellKeyed := by
  intro e he
  rcases GoMap.mem_insertEntry a.Name a r.linters.1 e he with h1 | h1
  · rw [h1]
  · exact h e h1

theorem wellKeyed_foldl (adapters : List Linter) (r : Registry) (h : r.WellKeyed) :
    (adapters.foldl Registry.Register r).WellKeyed := by
  induction adapters generalizing r with
  | nil => exact h
  | cons a rest ih => exact ih (r.Register a) (wellKeyed_register r a h)

theorem wellKeyed_registered (adapters : List Linter) : (registered adapters).WellKeyed :=
  wellKeyed_foldl adapters NewRegistry (fun e he => absurd he (List.not_mem_nil e))

theorem getAll_eq (r : Registry) : r.GetAll = r.linters.entries.map Prod.snd := by
  unfold Registry.GetAll
  have h := foldl_append_eq_filter_map (fun _ : String × Linter => true) Prod.snd
    r.linters.entries []
  simpa using h

theorem getForExtension_eq (r : Registry) (ext : String) :
    r.GetForExtension ext
      = r.GetAll.filter (fun l => extensionListed ext l.FileExtensions) := by
  unfold Registry.GetForExtension
  rw [getAll_eq, foldl_append_eq_filter_map (fun e : String × Linter =>
    extensionListed ext e.2.FileExtensions) Prod.snd r.linters.entries [], List.nil_append,
    List.filter_map]
  rfl

theorem extensionListed_iff (ext : String) (exts : List String) :
    extensionListed ext exts = true ↔ ext ∈ exts := by
  induction exts with
  | nil => simp [extensionListed]
  | cons e rest ih =>
    unfold extensionListed
    by_cases h : e = ext
    · simp [h]
    · have h2 : ¬ ext = e := fun h3 => h h3.symm
      simp [h, h2, ih]

theorem mem_getAll_iff (r : Registry) (h : r.WellKeyed) (a : Linter) :
    a ∈ r.GetAll ↔ r.Get a.Name = some a := by
  rw [getAll_eq]
  constructor
  · intro hmem
    obtain ⟨e, he, hea⟩ := List.mem_map.mp hmem
    obtain ⟨k, v⟩ := e
    simp only at hea
    subst hea
    have hk : k = v.Name := h (k, v) he
    subst hk
    exact (GoMap.mem_iff_lookupEntry r.linters.1 r.linters.2 v.Name v).mp he
  · intro hget
    exact List.mem_map.mpr
      ⟨(a.Name, a), (GoMap.mem_iff_lookupEntry r.linters.1 r.linters.2 a.Name a).mpr hget, rfl⟩

theorem nodup_getAll (r : Registry) (h : r.WellKeyed) : r.GetAll.Nodup := by
  rw [getAll_eq]
  apply List.Nodup.map_on _ (GoMap.nodup_entries r.linters)
  intro e₁ h₁ e₂ h₂ heq
  obtain ⟨k₁, v₁⟩ := e₁
  obtain ⟨k₂, v₂⟩ := e₂
  simp only at heq
  subst heq
  have e1 : k₁ = v₁.Name := h (k₁, v₁) h₁
  have e2 : k₂ = v₁.Name := h (k₂, v₁) h₂
  rw [e1, e2]

theorem get_foldl_isSome (adapters : List Linter) (r : Registry) (n : String) :
    ((adapters.foldl Registry.Register r).Get n).isSome = true ↔
      (r.Get n).isSome = true ∨ n ∈ adapters.map Linter.Name := by
  induction adapters generalizing r with
  | nil => simp
  | cons a rest ih =>
    simp only [List.foldl_cons, ih, List.map_cons, List.mem_cons]
    by_cases hn : n = a.Name
    · subst hn
      simp [Registry.Get, Registry.Register, GoMap.get?_set_self]
    · simp [Registry.Get, Registry.Register, GoMap.get?_set_of_ne _ _ _ _ hn, hn]

/-- C16: after `Register(a)`, `Get(a.Name())` finds `a`; registering `b` of the
same name afterwards makes `Get` find `b`, leaves the entries of all other
names and the number of entries as they were after `Register(a)`; registering
under one name leaves every other name as it was; and a name that was never
registered is not found. -/
theorem register_get (r : Registry) (a b : Linter) :
    (r.Register a).Get a.Name = some a ∧
    (b.Name = a.Name →
      ((r.Register a).Register b).Get a.Name = some b ∧
      (∀ n, n ≠ a.Name → ((r.Register a).Register b).Get n = (r.Register a).Get n) ∧
      ((r.Register a).Register b).linters.len = (r.Register a).linters.len) ∧
    (∀ n, n ≠ a.Name → (r.Register a).Get n = r.Get n) ∧
    (∀ n, NewRegistry.Get n = none) ∧
    (∀ (adapters : List Linter) (n : String), n ∉ adapters.map Linter.Name →
      (registered adapters).Get n = none) := by
  refine ⟨GoMap.get?_set_self _ _ _, ?_, ?_, fun n => rfl, ?_⟩
  · intro hb
    refine ⟨?_, ?_, ?_⟩
    · rw [← hb]
      exact GoMap.get?_set_self _ _ _
    · intro n hn
      rw [← hb] at hn
      exact GoMap.get?_set_of_ne _ _ _ _ hn
    · simp only [Registry.Register, hb]
      rw [GoMap.len_set, GoMap.get?_set_self]
      rfl
  · intro n hn
    exact GoMap.get?_set_of_ne _ _ _ _ hn
  · intro adapters n hn
    have h := (get_foldl_isSome adapters NewRegistry n).not
    have h2 : ¬ ((NewRegistry.Get n).isSome = true ∨ n ∈ adapters.map Linter.Name) := by
      rintro (h3 | h3)
      · exact absurd h3 (by simp [NewRegistry, Registry.Get, GoMap.get?, GoMap.empty,
          GoMap.lookupEntry])
      · exact hn h3
    have h4 := h.mpr h2
    unfold registered
    cases hg : (adapters.foldl Registry.Register NewRegistry).Get n with
    | none => rfl
    | some l => rw [hg] at h4; exact absurd rfl h4

/-- C16 at a concrete input: another `php` adapter registered over the first
one. -/
theorem register_get_witness :
    ((Demo.registry.Register Demo.phpLinter).Register Demo.phpOther).Get "php"
      = some Demo.phpOther ∧
    ((Demo.registry.Register Demo.phpLinter).Register Demo.phpOther).linters.len
      = (Demo.registry.Register Demo.phpLinter).linters.len ∧
    (registered [Demo.phpLinter, Demo.phpcsLinter]).Get "eslint" = none := by
  have h := register_get Demo.registry Demo.phpLinter Demo.phpOther
  exact ⟨(h.2.1 rfl).1, (h.2.1 rfl).2.2,
    h.2.2.2.2 [Demo.phpLinter, Demo.phpcsLinter] "eslint" (by decide)⟩

/-- C17: for every registry and extension, `GetForExtension` holds an adapter
exactly once if it is the adapter registered under its name and the extension
is one of its `FileExtensions()` (compared as strings; the inner loop stops at
the first match, however often the extension is listed), and not at all
otherwise; in the default registry `.php` gives `phpstan`, `phpcs` and `php`,
`.go` gives `golangci-lint`, and `.js`, `.jsx`, `.ts`, `.tsx` give `eslint`. -/
theorem getForExtension_exact (adapters : List Linter) (ext : String) :
    (∀ a : Linter, ((registered adapters).GetForExtension ext).count a =
      if (registered adapters).Get a.Name = some a ∧ ext ∈ a.FileExtensions then 1 else 0) ∧
    (∀ exts : List String, extensionListed ext exts = true ↔ ext ∈ exts) ∧
    (∀ p : Project,
      (((DefaultRegistry p).GetForExtension ".php").map Linter.Name).Perm
        ["phpstan", "phpcs", "php"] ∧
      ((DefaultRegistry p).GetForExtension ".go").map Linter.Name = ["golangci-lint"] ∧
      ((DefaultRegistry p).GetForExtension ".js").map Linter.Name = ["eslint"] ∧
      ((DefaultRegistry p).GetForExtension ".jsx").map Linter.Name = ["eslint"] ∧
      ((DefaultRegistry p).GetForExtension ".ts").map Linter.Name = ["eslint"] ∧
      ((DefaultRegistry p).GetForExtension ".tsx").map Linter.Name = ["eslint"]) := by
  refine ⟨?_, extensionListed_iff ext, ?_⟩
  · intro a
    have hw := wellKeyed_registered adapters
    have hnd : ((registered adapters).GetForExtension ext).Nodup := by
      rw [getForExtension_eq]
      exact List.Nodup.filter _ (nodup_getAll _ hw)
    rw [List.count_eq_of_nodup hnd]
    have hmem : a ∈ (registered adapters).GetForExtension ext ↔
        ((registered adapters).Get a.Name = some a ∧ ext ∈ a.FileExtensions) := by
      rw [getForExtension_eq, List.mem_filter, mem_getAll_iff _ hw, extensionListed_iff]
    by_cases h : (registered adapters).Get a.Name = some a ∧ ext ∈ a.FileExtensions
    · rw [if_pos (hmem.mpr h), if_pos h]
    · rw [if_neg (fun hm => h (hmem.mp hm)), if_neg h]
  · intro p
    have hphp : ((DefaultRegistry p).GetForExtension ".php").map Linter.Name
        = ["php", "phpcs", "phpstan"] := rfl
    refine ⟨?_, rfl, rfl, rfl, rfl, rfl⟩
    rw [hphp]
    decide

/-- C18: for every registry, `GetAll` holds an adapter exactly once if it is
the adapter registered under its name and not at all otherwise, its length is
the number of distinct registered names, `GetAvailable` is `GetAll` filtered by
`IsAvailable`, and holds exactly once each adapter of `GetAll` that is
available. Both only read the registry. -/
theorem getAll_getAvailable_exact (adapters : List Linter) (w : World) :
    (∀ a : Linter, (registered adapters).GetAll.count a =
      if (registered adapters).Get a.Name = some a then 1 else 0) ∧
    (registered adapters).GetAll.length = (adapters.map Linter.Name).toFinset.card ∧
    (registered adapters).GetAvailable w
      = (registered adapters).GetAll.filter (fun l => l.IsAvailable w) ∧
    (∀ a : Linter, ((registered adapters).GetAvailable w).count a =
      if a ∈ (registered adapters).GetAll ∧ a.IsAvailable w = true then 1 else 0) := by
  have hw := wellKeyed_registered adapters
  have hnd := nodup_getAll _ hw
  have hav : (registered adapters).GetAvailable w
      = (registered adapters).GetAll.filter (fun l => l.IsAvailable w) := by
    rw [getAll_eq]
    rfl
  refine ⟨?_, ?_, hav, ?_⟩
  · intro a
    rw [List.count_eq_of_nodup hnd]
    by_cases h : (registered adapters).Get a.Name = some a
    · rw [if_pos ((mem_getAll_iff _ hw a).mpr h), if_pos h]
    · rw [if_neg (fun hm => h ((mem_getAll_iff _ hw a).mp hm)), if_neg h]
  · have hkeys : (registered adapters).linters.keys.toFinset
        = (adapters.map Linter.Name).toFinset := by
      ext n
      rw [List.mem_toFinset, List.mem_toFinset, GoMap.mem_keys_iff]
      have h := get_foldl_isSome adapters NewRegistry n
      have h0 : ¬ (NewRegistry.Get n).isSome = true := by
        simp [NewRegistry, Registry.Get, GoMap.get?, GoMap.empty, GoMap.lookupEntry]
      constructor
      · intro hs
        rcases h.mp hs with h1 | h1
        · exact absurd h1 h0
        · exact h1
      · intro hs
        exact h.mpr (Or.inr hs)
    rw [← hkeys, List.toFinset_card_of_nodup (GoMap.nodup_keys _), getAll_eq]
    simp [GoMap.keys, GoMap.entries]
  · intro a
    rw [hav, List.count_eq_of_nodup (List.Nodup.filter _ hnd)]
    by_cases h : a ∈ (registered adapters).GetAll ∧ a.IsAvailable w = true
    · rw [if_pos (List.mem_filter.mpr h), if_pos h]
    · rw [if_neg (fun hm => h (List.mem_filter.mp hm)), if_neg h]

/-- C18 at a concrete input: `php` registered twice and `phpcs` once give two
adapters, the later `php` among them. -/
theorem getAll_getAvailable_exact_witness :
    (registered [Demo.phpLinter, Demo.phpcsLinter, Demo.phpOther]).GetAll.length = 2 ∧
    (registered [Demo.phpLinter, Demo.phpcsLinter, Demo.phpOther]).GetAll.count Demo.phpOther
      = 1 ∧
    (registered [Demo.phpLinter, Demo.phpcsLinter, Demo.phpOther]).GetAll.count Demo.phpLinter
      = 0 := by
  have h := getAll_getAvailable_exact [Demo.phpLinter, Demo.phpcsLinter, Demo.phpOther]
    Demo.findingsWorld
  refine ⟨?_, ?_, ?_⟩
  · rw [h.2.1]
    decide
  · rw [h.1 Demo.phpOther]
    decide
  · rw [h.1 Demo.phpLinter]
    decide

end linters

/-! ## Line filtering -/

namespace linters

theorem splitChars_ne_nil (sep : Char) (l : List Char) : splitChars sep l ≠ [] := by
  cases l with
  | nil => simp [splitChars]
  | cons c cs =>
    unfold splitChars
    split_ifs
    · simp
    · split <;> simp

/-- No piece of a split contains the separator. -/
theorem not_mem_of_mem_splitChars (sep : Char) (l piece : List Char)
    (h : piece ∈ splitChars sep l) : sep ∉ piece := by
  induction l generalizing piece with
  | nil =>
    simp only [splitChars, List.mem_singleton] at h
    rw [h]
    exact List.not_mem_nil sep
  | cons c cs ih =>
    unfold splitChars at h
    split_ifs at h with hc
    · simp only [List.mem_cons] at h
      rcases h with h | h
      · rw [h]
        exact List.not_mem_nil sep
      · exact ih piece h
    · split at h
      · rename_i heq
        exact absurd heq (splitChars_ne_nil sep cs)
      · rename_i p ps heq
        simp only [List.mem_cons] at h
        rcases h with h | h
        · rw [h]
          intro hmem
          simp only [List.mem_cons] at hmem
          rcases hmem with hmem | hmem
          · exact hc hmem.symm
          · exact ih p (by rw [heq]; exact List.mem_cons_self _ _) hmem
        · exact ih piece (by rw [heq]; exact List.mem_cons_of_mem _ h)

theorem splitChars_cons_of_ne (sep c : Char) (cs piece : List Char)
    (pieces : List (List Char)) (hc : ¬ c = sep) (h : splitChars sep cs = piece :: pieces) :
    splitChars sep (c :: cs) = (c :: piece) :: pieces := by
  simp only [splitChars, hc, if_false, h]

theorem splitChars_append_sep (sep : Char) (piece rest : List Char) (h : sep ∉ piece) :
    splitChars sep (piece ++ sep :: rest) = piece :: splitChars sep rest := by
  induction piece with
  | nil => simp [splitChars]
  | cons c cs ih =>
    have hc : ¬ c = sep := fun e => h (by rw [e]; exact List.mem_cons_self _ _)
    have hcs : sep ∉ cs := fun hm => h (List.mem_cons_of_mem _ hm)
    rw [List.cons_append]
    exact splitChars_cons_of_ne sep c _ cs _ hc (ih hcs)

theorem splitChars_of_not_mem (sep : Char) (piece : List Char) (h : sep ∉ piece) :
    splitChars sep piece = [piece] := by
  induction piece with
  | nil => rfl
  | cons c cs ih =>
    have hc : ¬ c = sep := fun e => h (by rw [e]; exact List.mem_cons_self _ _)
    have hcs : sep ∉ cs := fun hm => h (List.mem_cons_of_mem _ hm)
    exact splitChars_cons_of_ne sep c cs cs [] hc (ih hcs)

theorem splitChars_joinChars (sep : Char) (pieces : List (List Char)) (hne : pieces ≠ [])
    (h : ∀ piece ∈ pieces, sep ∉ piece) : splitChars sep (joinChars sep pieces) = pieces := by
  induction pieces with
  | nil => exact absurd rfl hne
  | cons p rest ih =>
    cases rest with
    | nil => exact splitChars_of_not_mem sep p (h p (List.mem_cons_self _ _))
    | cons q rest₂ =>
      have hp : sep ∉ p := h p (List.mem_cons_self _ _)
      have hrest : ∀ piece ∈ q :: rest₂, sep ∉ piece :=
        fun piece hm => h piece (List.mem_cons_of_mem _ hm)
      simp only [joinChars]
      rw [splitChars_append_sep sep p _ hp, ih (by simp) hrest]

theorem intercalate_go_data (sep acc : String) (rest : List String) :
    (String.intercalate.go acc sep rest).data
      = acc.data ++ (rest.map (fun s => sep.data ++ s.data)).flatten := by
  induction rest generalizing acc with
  | nil => simp [String.intercalate.go]
  | cons s rest ih =>
    simp only [String.intercalate.go, ih, String.data_append, List.map_cons, List.flatten_cons,
      List.append_assoc]

theorem intercalate_data (lines : List String) :
    ((String.singleton (Char.ofNat 10)).intercalate lines).data
      = joinChars (Char.ofNat 10) (lines.map String.data) := by
  cases lines with
  | nil => rfl
  | cons a rest =>
    simp only [String.intercalate, intercalate_go_data]
    induction rest generalizing a with
    | nil => simp [joinChars]
    | cons b rest₂ ih =>
      have hb := ih b
      simp only [List.map_cons, List.flatten_cons, joinChars] at hb ⊢
      rw [← hb]
      simp [String.singleton, List.append_assoc]

theorem foldl_filter_lines (lines : List String) :
    lines.foldl
        (fun filtered line => if stringsTrimSpace line ≠ "" then filtered ++ [line] else filtered)
        []
      = lines.filter (fun line => decide (stringsTrimSpace line ≠ "")) := by
  have h := foldl_append_eq_filter_map (fun line : String => decide (stringsTrimSpace line ≠ ""))
    id lines []
  simp only [List.nil_append, List.map_id, id] at h
  rw [← h]
  congr 1
  funext filtered line
  by_cases hl : stringsTrimSpace line ≠ "" <;> simp [hl]

/-- A string trims to the empty string exactly if all its characters are white
space. -/
theorem stringsTrimSpace_eq_empty_iff (s : String) :
    stringsTrimSpace s = "" ↔ ∀ c ∈ s.data, unicodeIsSpace c = true := by
  unfold stringsTrimSpace
  constructor
  · intro h
    have h1 : ((s.data.dropWhile unicodeIsSpace).reverse.dropWhile unicodeIsSpace).reverse = [] :=
      congrArg String.data h
    have h2 : (s.data.dropWhile unicodeIsSpace).reverse.dropWhile unicodeIsSpace = [] :=
      List.reverse_eq_nil_iff.mp h1
    have h3 : ∀ c ∈ (s.data.dropWhile unicodeIsSpace).reverse, unicodeIsSpace c = true :=
      List.dropWhile_eq_nil_iff.mp h2
    intro c hc
    by_contra hns
    have hdrop : s.data.dropWhile unicodeIsSpace ≠ [] := by
      intro hd
      exact hns (List.dropWhile_eq_nil_iff.mp hd c hc)
    cases hd : s.data.dropWhile unicodeIsSpace with
    | nil => exact hdrop hd
    | cons x xs =>
      have hx : unicodeIsSpace x = true := h3 x (by rw [hd]; simp)
      have hhead := List.head_dropWhile_not unicodeIsSpace s.data hdrop
      simp only [hd, List.head_cons] at hhead
      rw [hx] at hhead
      exact absurd hhead (by simp)
  · intro h
    have h1 : s.data.dropWhile unicodeIsSpace = [] := List.dropWhile_eq_nil_iff.mpr h
    rw [h1]
    rfl

theorem parseOutput_eq_filter (r : Result) :
    ParseOutput (some r) =
      (stringsSplit r.Output (Char.ofNat 10)).filter
        (fun line => decide (stringsTrimSpace line ≠ "")) := by
  unfold ParseOutput
  simp only []
  split_ifs with h
  · rw [h]
    decide
  · exact foldl_filter_lines _

theorem mem_parseOutput (r : Result) (line : String) (h : line ∈ ParseOutput (some r)) :
    line ∈ stringsSplit r.Output (Char.ofNat 10) ∧ stringsTrimSpace line ≠ "" ∧
      Char.ofNat 10 ∉ line.data := by
  rw [parseOutput_eq_filter, List.mem_filter] at h
  refine ⟨h.1, of_decide_eq_true h.2, ?_⟩
  obtain ⟨piece, hp, hl⟩ := List.mem_map.mp h.1
  rw [← hl]
  exact not_mem_of_mem_splitChars _ _ piece hp

/-- C19: for every result, `ParseOutput` is the list of the pieces of `Output`
between the newlines, in their order, that do not trim to the empty string:
every line of it has a character that is no white space, every such piece
occurs in it as often as among the pieces and unchanged, every other piece not
at all; a nil result and an empty output give the empty list. -/
theorem parseOutput_keeps_nonblank_lines (r : Result) :
    ParseOutput (some r) =
      (stringsSplit r.Output (Char.ofNat 10)).filter
        (fun line => decide (stringsTrimSpace line ≠ "")) ∧
    (ParseOutput (some r)).Sublist (stringsSplit r.Output (Char.ofNat 10)) ∧
    (∀ line ∈ ParseOutput (some r), ∃ c ∈ line.data, unicodeIsSpace c = false) ∧
    (∀ line : String, (∃ c ∈ line.data, unicodeIsSpace c = false) →
      (ParseOutput (some r)).count line = (stringsSplit r.Output (Char.ofNat 10)).count line) ∧
    (∀ line : String, (∀ c ∈ line.data, unicodeIsSpace c = true) →
      (ParseOutput (some r)).count line = 0) ∧
    ParseOutput none = [] ∧
    (r.Output = "" → ParseOutput (some r) = []) := by
  have hnb : ∀ line : String, stringsTrimSpace line ≠ "" ↔
      ∃ c ∈ line.data, unicodeIsSpace c = false := by
    intro line
    rw [Ne, stringsTrimSpace_eq_empty_iff]
    constructor
    · intro h
      by_contra hno
      apply h
      intro c hc
      by_contra hcs
      exact hno ⟨c, hc, by simpa using hcs⟩
    · rintro ⟨c, hc, hcs⟩ hall
      rw [hall c hc] at hcs
      exact absurd hcs (by simp)
  refine ⟨parseOutput_eq_filter r, ?_, ?_, ?_, ?_, rfl, ?_⟩
  · rw [parseOutput_eq_filter]
    exact List.filter_sublist _
  · intro line hl
    exact (hnb line).mp (mem_parseOutput r line hl).2.1
  · intro line hl
    rw [parseOutput_eq_filter]
    exact List.count_filter (by simpa using (hnb line).mpr hl)
  · intro line hl
    rw [List.count_eq_zero]
    intro hmem
    exact (mem_parseOutput r line hmem).2.1 ((stringsTrimSpace_eq_empty_iff line).mpr hl)
  · intro h
    simp [ParseOutput, h]

/-- C19 at a concrete input: blank and white-space lines go, the other lines
stay as they are, indentation and carriage return included. -/
theorem parseOutput_keeps_nonblank_lines_witness :
    ParseOutput (some { Demo.phpDone with Output := "a\n\n  b \n \t\r\nc\r\n" })
      = ["a", "  b ", "c\r"] := by
  have h := (parseOutput_keeps_nonblank_lines
    { Demo.phpDone with Output := "a\n\n  b \n \t\r\nc\r\n" }).1
  rw [h]
  decide

/-- C20: line filtering is idempotent: for every result `r`, a result whose
output is the lines of `ParseOutput(r)` joined with newlines has the same
`ParseOutput` as `r`. -/
theorem parseOutput_idempotent (r r₂ : Result)
    (h : r₂.Output = "\n".intercalate (ParseOutput (some r))) :
    ParseOutput (some r₂) = ParseOutput (some r) := by
  have hjoin : r₂.Output.data
      = joinChars (Char.ofNat 10) ((ParseOutput (some r)).map String.data) := by
    rw [h]
    exact intercalate_data _
  cases hls : ParseOutput (some r) with
  | nil =>
    rw [hls] at h
    simp [ParseOutput, h, String.intercalate]
  | cons a rest =>
    rw [parseOutput_eq_filter r₂]
    have hsplit : stringsSplit r₂.Output (Char.ofNat 10) = ParseOutput (some r) := by
      unfold stringsSplit
      rw [hjoin, splitChars_joinChars]
      · rw [List.map_map]
        have hid : (String.mk ∘ String.data) = id := by
          funext s
          rfl
        rw [hid, List.map_id]
      · rw [hls]
        simp
      · intro piece hp
        obtain ⟨line, hl, hd⟩ := List.mem_map.mp hp
        rw [← hd]
        exact (mem_parseOutput r line hl).2.2
    rw [hsplit, ← hls]
    apply List.filter_eq_self.mpr
    intro line hl
    exact decide_eq_true (mem_parseOutput r line hl).2.1

/-- C20 at a concrete input: filtering the joined lines of the example again
changes nothing. -/
theorem parseOutput_idempotent_witness :
    ParseOutput (some { Demo.phpDone with Output := "a\n  b \nc\r" })
      = ParseOutput (some { Demo.phpDone with Output := "a\n\n  b \n \t\r\nc\r\n" }) :=
  parseOutput_idempotent { Demo.phpDone with Output := "a\n\n  b \n \t\r\nc\r\n" }
    { Demo.phpDone with Output := "a\n  b \nc\r" } (by decide)

end linters

/-! ## The combined results text -/

namespace tui

open linters

theorem foldl_blocks (l : List (String × Result)) (acc : String) :
    l.foldl (fun content e => content ++ ("=== " ++ e.2.Name ++ " ===\n") ++ e.2.Output ++ "\n\n")
        acc
      = (l.map (fun e => resultBlock e.2)).foldl (fun r s => r ++ s) acc := by
  induction l generalizing acc with
  | nil => rfl
  | cons e rest ih =>
    simp only [List.foldl_cons, List.map_cons]
    rw [ih]
    simp only [resultBlock, String.append_assoc]

/-- The combined text is the concatenation of the blocks of the entries. -/
theorem combineResults_eq (results : GoMap Result) :
    combineResults results = String.join (results.entries.map (fun e => resultBlock e.2)) := by
  unfold combineResults String.join
  exact foldl_blocks results.entries ""

/-- C21: when the threshold is reached, the text handed to the viewport and to
the output pane is the concatenation, over every entry of the results map once
each in some order, of the block "=== " + name + " ===\n" + Output + "\n\n";
when the map holds a single entry the text is exactly that entry's block. -/
theorem results_content_is_concatenation (m : Model) (r : Result)
    (h : ((m.results.set r.Name r).len : Int) ≥ m.expectedCount) :
    ∃ shown : List Result,
      shown.Perm ((m.updateResult r).results.entries.map Prod.snd) ∧
      (m.updateResult r).viewport.content = String.join (shown.map resultBlock) ∧
      (∀ (p0 p1 p2 : Pane) (outputPane : OutputPane) (rest : List Pane),
        m.panes = p0 :: p1 :: p2 :: Pane.output outputPane :: rest →
        ∃ shownPane : OutputPane,
          (m.updateResult r).panes = p0 :: p1 :: p2 :: Pane.output shownPane :: rest ∧
          shownPane.content = String.join (shown.map resultBlock) ∧
          shownPane.viewport.content = String.join (shown.map resultBlock) ∧
          shownPane.title = "Linter Results") ∧
      (∀ (k : String) (only : Result), (m.updateResult r).results.entries = [(k, only)] →
        (m.updateResult r).viewport.content = resultBlock only) := by
  have hr := updateResult_of_reached m r h
  have hv : (m.updateResult r).viewport.content
      = String.join ((m.results.set r.Name r).entries.map (fun e => resultBlock e.2)) := by
    rw [hr.2.2.2.2.2, ← combineResults_eq]
  refine ⟨(m.updateResult r).results.entries.map Prod.snd, List.Perm.refl _, ?_, ?_, ?_⟩
  · rw [hv, hr.1, List.map_map]
    rfl
  · intro p0 p1 p2 outputPane rest hp
    refine ⟨_, updateResult_panes_of_reached m r h p0 p1 p2 outputPane rest hp, ?_, ?_, rfl⟩
    · simp only [OutputPane.SetTitle, OutputPane.SetContent, combineResults_eq, hr.1,
        List.map_map]
      rfl
    · simp only [OutputPane.SetTitle, OutputPane.SetContent, Viewport.SetContent,
        combineResults_eq, hr.1, List.map_map]
      rfl
  · intro k only hk
    rw [hv, ← hr.1, hk]
    simp [String.join]

/-- C21 at a concrete input: the one result of the first run, and the two
results after a second tool has reported. -/
theorem results_content_is_concatenation_witness :
    (Demo.start.updateResult Demo.phpDone).viewport.content
      = "=== php ===\nNo syntax errors\n\n" ∧
    ((Demo.start.updateResult Demo.phpDone).updateResult Demo.phpcsDone).viewport.content
      = "=== php ===\nNo syntax errors\n\n=== phpcs ===\nissue found\n\n" := by
  obtain ⟨shown, -, -, -, h₁⟩ :=
    results_content_is_concatenation Demo.start Demo.phpDone (by decide)
  exact ⟨h₁ "php" Demo.phpDone (by decide), by decide⟩

end tui

/-! ## What `Configure` reads, and the legacy runners when disabled -/

namespace linters

/-- C22: `Configure` returns a nil error, and its effect depends only on what
the bag holds under `path`, `args` and `enabled`: two bags that agree on these
three keys leave the adapter in the same state, and a bag with none of them (the
empty bag among them) leaves the adapter as it was. -/
theorem configure_reads_three_keys (l : Linter) (o₁ o₂ : GoMap Value)
    (hpath : o₁.get? "path" = o₂.get? "path") (hargs : o₁.get? "args" = o₂.get? "args")
    (henabled : o₁.get? "enabled" = o₂.get? "enabled") :
    l.Configure o₁ = l.Configure o₂ ∧
    (l.Configure o₁).2 = none ∧
    (o₁.get? "path" = none → o₁.get? "args" = none → o₁.get? "enabled" = none →
      (l.Configure o₁).1 = l) ∧
    (l.Configure GoMap.empty).1 = l := by
  refine ⟨?_, ?_, ?_, ?_⟩
  · cases l <;>
      simp only [Linter.Configure, PHPStan.Configure, PHPCS.Configure, PHP.Configure,
        GolangCI.Configure, ESLint.Configure, hpath, hargs, henabled]
  · cases l <;> rfl
  · intro h₁ h₂ h₃
    cases l <;>
      simp only [Linter.Configure, PHPStan.Configure, PHPCS.Configure, PHP.Configure,
        GolangCI.Configure, ESLint.Configure, h₁, h₂, h₃]
  · cases l <;> rfl

/-- C22 at a concrete input: two bags that differ in the unrecognized key
`timeout` only. -/
theorem configure_reads_three_keys_witness :
    Demo.phpcsLinter.Configure ((GoMap.empty.set "path" (Value.str "/opt/phpcs")).set
        "timeout" (Value.int 30))
      = Demo.phpcsLinter.Configure ((GoMap.empty.set "path" (Value.str "/opt/phpcs")).set
        "timeout" (Value.int 60)) ∧
    (Demo.phpcsLinter.Configure ((GoMap.empty.set "path" (Value.str "/opt/phpcs")).set
        "timeout" (Value.int 30))).1.path = "/opt/phpcs" :=
  ⟨(configure_reads_three_keys Demo.phpcsLinter
      ((GoMap.empty.set "path" (Value.str "/opt/phpcs")).set "timeout" (Value.int 30))
      ((GoMap.empty.set "path" (Value.str "/opt/phpcs")).set "timeout" (Value.int 60))
      (by decide) (by decide) (by decide)).1, by decide⟩

/-- C24: with `Enabled = false` the legacy runners return a nil error and a
result with `Success = true`, the tool name `phpstan` or `phpcs` and an output
that contains the word "disabled"; nothing else of the configuration, the
target, the timeout or the commands of the machine has any influence. -/
theorem legacy_runners_disabled (w : World) (target : String) (timeout : Nat)
    (stanCfg : config.PHPStanConfig) (csCfg : config.PHPCSConfig)
    (hstan : stanCfg.Enabled = false) (hcs : csCfg.Enabled = false) :
    (tools.RunPHPStan w stanCfg target timeout).2 = none ∧
    (tools.RunPHPStan w stanCfg target timeout).1.Success = true ∧
    (tools.RunPHPStan w stanCfg target timeout).1.Tool = "phpstan" ∧
    (∃ before after : String, (tools.RunPHPStan w stanCfg target timeout).1.Output
      = before ++ "disabled" ++ after) ∧
    (tools.RunPHPCS w csCfg target timeout).2 = none ∧
    (tools.RunPHPCS w csCfg target timeout).1.Success = true ∧
    (tools.RunPHPCS w csCfg target timeout).1.Tool = "phpcs" ∧
    (∃ before after : String, (tools.RunPHPCS w csCfg target timeout).1.Output
      = before ++ "disabled" ++ after) ∧
    (∀ (w₂ : World) (target₂ : String) (timeout₂ : Nat) (stanCfg₂ : config.PHPStanConfig)
      (csCfg₂ : config.PHPCSConfig), w₂.now = w.now →
      stanCfg₂.Enabled = false → csCfg₂.Enabled = false →
      tools.RunPHPStan w₂ stanCfg₂ target₂ timeout₂ = tools.RunPHPStan w stanCfg target timeout ∧
      tools.RunPHPCS w₂ csCfg₂ target₂ timeout₂ = tools.RunPHPCS w csCfg target timeout) := by
  refine ⟨?_, ?_, ?_, ⟨"PHPStan is ", " in configuration", ?_⟩, ?_, ?_, ?_,
    ⟨"PHPCS is ", " in configuration", ?_⟩, ?_⟩
  any_goals simp [tools.RunPHPStan, tools.RunPHPCS, hstan, hcs]
  intro w₂ target₂ timeout₂ stanCfg₂ csCfg₂ hnow h₁ h₂
  simp [tools.RunPHPStan, tools.RunPHPCS, hstan, hcs, h₁, h₂, hnow]

/-- C24 at a concrete input: a disabled PHPStan whose binary does not exist. -/
theorem legacy_runners_disabled_witness :
    (tools.RunPHPStan Demo.missingWorld { Path := "/nonexistent", Args := [], Enabled := false }
      "src" 1000000000).2 = none ∧
    (tools.RunPHPStan Demo.missingWorld { Path := "/nonexistent", Args := [], Enabled := false }
      "src" 1000000000).1.Success = true :=
  ⟨(legacy_runners_disabled Demo.missingWorld "src" 1000000000
      { Path := "/nonexistent", Args := [], Enabled := false }
      { Path := "/nonexistent", Args := [], Enabled := false } rfl rfl).1,
   (legacy_runners_disabled Demo.missingWorld "src" 1000000000
      { Path := "/nonexistent", Args := [], Enabled := false }
      { Path := "/nonexistent", Args := [], Enabled := false } rfl rfl).2.1⟩

end linters

/-! ## The argument vector on the heap -/

namespace linters

/-- What `append` does not touch: every array but the one of its slice, and
no array leaves the heap. -/
theorem append_frame (extra : Nat → Nat) (h : Heap) (s : Slice) (xs : List String) (a : Nat)
    (ha : a ≠ s.array) (hlt : a < h.arrays.length) :
    (h.append extra s xs).1.arrays[a]? = h.arrays[a]? ∧
      h.arrays.length ≤ (h.append extra s xs).1.arrays.length := by
  unfold Heap.append
  split_ifs
  · simp only [List.length_set, le_refl, and_true]
    exact List.getElem?_set_ne (Ne.symm ha)
  · simp only [List.length_append, List.length_singleton, Nat.le_add_right, and_true]
    exact List.getElem?_append_left hlt

/-- What `append` returns holds the old elements followed by the new ones, in
an array with room for its capacity. -/
theorem append_read (extra : Nat → Nat) (h : Heap) (s : Slice) (xs : List String)
    (arr : List String) (harr : h.arrays[s.array]? = some arr) (hlen : s.len ≤ arr.length)
    (hcap : s.cap ≤ arr.length) :
    (h.append extra s xs).1.read (h.append extra s xs).2 = h.read s ++ xs ∧
    (∃ arr', (h.append extra s xs).1.arrays[(h.append extra s xs).2.array]? = some arr' ∧
      (h.append extra s xs).2.len ≤ arr'.length ∧ (h.append extra s xs).2.cap ≤ arr'.length) ∧
    ((h.append extra s xs).2.array = s.array ∨
      (h.append extra s xs).2.array = h.arrays.length) := by
  have hs : s.array < h.arrays.length := by
    by_contra hge
    rw [List.getElem?_eq_none (by omega)] at harr
    exact Option.noConfusion harr
  have hread : h.read s = arr.take s.len := by
    simp [Heap.read, harr]
  unfold Heap.append
  split_ifs with hfit
  · simp only [harr, Option.getD_some]
    have hget : (h.arrays.set s.array
        (arr.take s.len ++ xs ++ arr.drop (s.len + xs.length)))[s.array]?
          = some (arr.take s.len ++ xs ++ arr.drop (s.len + xs.length)) :=
      List.getElem?_set_self hs
    have hl : (arr.take s.len ++ xs).length = s.len + xs.length := by
      rw [List.length_append, List.length_take, Nat.min_eq_left hlen]
    refine ⟨?_, ⟨arr.take s.len ++ xs ++ arr.drop (s.len + xs.length), hget, ?_, ?_⟩,
      Or.inl trivial⟩
    · simp only [Heap.read, harr, Option.getD_some, hget]
      rw [← hl, List.take_left]
    · simp only [List.length_append, List.length_take, List.length_drop]
      omega
    · simp only [List.length_append, List.length_take, List.length_drop]
      omega
  · have hget : (h.arrays ++ [h.read s ++ xs ++ List.replicate (extra (s.len + xs.length)) ""])[
        h.arrays.length]?
          = some (h.read s ++ xs ++ List.replicate (extra (s.len + xs.length)) "") := by
      rw [List.getElem?_append_right (le_refl _)]
      simp
    have hl : (h.read s ++ xs).length = s.len + xs.length := by
      rw [hread, List.length_append, List.length_take, Nat.min_eq_left hlen]
    refine ⟨?_, ⟨h.read s ++ xs ++ List.replicate (extra (s.len + xs.length)) "", hget, ?_, ?_⟩,
      Or.inr rfl⟩
    · show List.take (s.len + xs.length)
          (((h.arrays ++ [h.read s ++ xs ++ List.replicate (extra (s.len + xs.length)) ""])[
            h.arrays.length]?).getD []) = h.read s ++ xs
      rw [hget, Option.getD_some, ← hl, List.take_left]
    · simp only [List.length_append, List.length_replicate, hl]
      omega
    · simp only [List.length_append, List.length_replicate, hl]
      omega

/-- Building the argument vector writes into no array that was on the heap
before, and the vector it builds holds the configured arguments, followed by
the target if there is one. -/
theorem buildArgs_spec (extra : Nat → Nat) (h : Heap) (configured : Slice) (target : String) :
    (∀ a, a < h.arrays.length →
      (buildArgs extra h configured target).1.arrays[a]? = h.arrays[a]?) ∧
    (buildArgs extra h configured target).1.read (buildArgs extra h configured target).2
      = if target = "" then h.read configured else h.read configured ++ [target] := by
  -- the literal and the heap that holds it
  have hlit : (Heap.mk (h.arrays ++ [[]])).arrays[(Slice.mk h.arrays.length 0 0).array]?
      = some [] := by
    show (h.arrays ++ [[]])[h.arrays.length]? = some []
    rw [List.getElem?_append_right (le_refl _)]
    simp
  have hlitread : ∀ xs, (Heap.mk (h.arrays ++ [[]])).read (Slice.mk h.arrays.length 0 0) ++ xs
      = xs := by
    intro xs
    simp [Heap.read]
  have hconf : (Heap.mk (h.arrays ++ [[]])).read configured = h.read configured := by
    unfold Heap.read
    by_cases hc : configured.array < h.arrays.length
    · rw [show (Heap.mk (h.arrays ++ [[]])).arrays = h.arrays ++ [[]] from rfl,
        List.getElem?_append_left hc]
    · have hnone : h.arrays[configured.array]? = none := List.getElem?_eq_none (by omega)
      rw [hnone]
      show List.take configured.len (((h.arrays ++ [[]])[configured.array]?).getD []) = _
      by_cases he : configured.array = h.arrays.length
      · rw [he, List.getElem?_append_right (le_refl _)]
        simp
      · rw [List.getElem?_eq_none (by simp; omega)]
  obtain ⟨hr1, ⟨arr1, harr1, hlen1, hcap1⟩, haddr1⟩ :=
    append_read extra (Heap.mk (h.arrays ++ [[]])) (Slice.mk h.arrays.length 0 0)
      ((Heap.mk (h.arrays ++ [[]])).read configured) [] hlit (Nat.zero_le _) (Nat.zero_le _)
  rw [hlitread] at hr1
  obtain ⟨hr2, -, haddr2⟩ :=
    append_read extra _ _ [target] arr1 harr1 hlen1 hcap1
  have hlen0 : (Heap.mk (h.arrays ++ [[]])).arrays.length = h.arrays.length + 1 := by
    simp
  constructor
  · intro a ha
    have hf1 := append_frame extra (Heap.mk (h.arrays ++ [[]])) (Slice.mk h.arrays.length 0 0)
      ((Heap.mk (h.arrays ++ [[]])).read configured) a (by show a ≠ h.arrays.length; omega)
      (by rw [hlen0]; omega)
    have hbase : (Heap.mk (h.arrays ++ [[]])).arrays[a]? = h.arrays[a]? :=
      List.getElem?_append_left ha
    unfold buildArgs
    simp only []
    split_ifs with ht
    · have hf2 := append_frame extra
        ((Heap.mk (h.arrays ++ [[]])).append extra (Slice.mk h.arrays.length 0 0)
          ((Heap.mk (h.arrays ++ [[]])).read configured)).1
        ((Heap.mk (h.arrays ++ [[]])).append extra (Slice.mk h.arrays.length 0 0)
          ((Heap.mk (h.arrays ++ [[]])).read configured)).2 [target] a
        (by
          rcases haddr1 with h1 | h1
          · rw [h1]; show a ≠ h.arrays.length; omega
          · rw [h1, hlen0]; omega)
        (by omega)
      rw [hf2.1, hf1.1, hbase]
    · rw [hf1.1, hbase]
  · unfold buildArgs
    simp only []
    by_cases ht : target = ""
    · simp only [ht, ne_eq, not_true_eq_false, if_false, if_true]
      rw [hr1, hconf]
    · simp only [ht, ne_eq, not_false_eq_true, if_true, if_false]
      rw [hr2, hr1, hconf]

theorem read_of_frame (h h' : Heap) (s : Slice) (hf : h'.arrays[s.array]? = h.arrays[s.array]?) :
    h'.read s = h.read s := by
  unfold Heap.read
  rw [hf]

/-- The output and the error text of a run are what the command with the
argument vector of `Run` printed, whatever its outcome. -/
theorem run_reads_argv (l : Linter) (w : World) (ctx : Context) (target : String)
    (hen : l.enabled = true) :
    (l.Run w ctx target).1.Output
      = (w.exec ctx l.path (if target = "" then l.args else l.args ++ [target])).stdout ∧
    (l.Run w ctx target).1.Error
      = (w.exec ctx l.path (if target = "" then l.args else l.args ++ [target])).stderr := by
  cases l <;>
    simp only [Linter.enabled] at hen <;>
    simp only [Linter.Run, Linter.path, Linter.args, PHPStan.Run, PHPCS.Run, PHP.Run,
      GolangCI.Run, ESLint.Run, hen, argv_eq] <;>
    simp <;> split_ifs <;> simp

/-- C25: `Run` assigns no field of the adapter, and building the argument
vector does not write into the configured arguments behind its back: with the
slice `l.args` anywhere on the heap, whatever its spare capacity, no array that
existed before the run is written, the vector handed to the command is a
fresh list of the configured arguments followed by the target, and a second
run with another target finds the configured arguments as they were and hands
over these followed by its own target only. An enabled adapter runs exactly
this vector, whatever the outcome of the command. -/
theorem run_keeps_configured_args (extra : Nat → Nat) (h : Heap) (configured : Slice)
    (l : Linter) (t₁ t₂ : String) (ctx : Context)
    (hon : configured.array < h.arrays.length) (hargs : h.read configured = l.args) :
    (∀ a, a < h.arrays.length →
      (buildArgs extra h configured t₁).1.arrays[a]? = h.arrays[a]?) ∧
    (buildArgs extra h configured t₁).1.read configured = l.args ∧
    (buildArgs extra h configured t₁).1.read (buildArgs extra h configured t₁).2
      = (if t₁ = "" then l.args else l.args ++ [t₁]) ∧
    (∀ a, a < h.arrays.length →
      (buildArgs extra (buildArgs extra h configured t₁).1 configured t₂).1.arrays[a]?
        = h.arrays[a]?) ∧
    (buildArgs extra (buildArgs extra h configured t₁).1 configured t₂).1.read configured
      = l.args ∧
    (buildArgs extra (buildArgs extra h configured t₁).1 configured t₂).1.read
        (buildArgs extra (buildArgs extra h configured t₁).1 configured t₂).2
      = (if t₂ = "" then l.args else l.args ++ [t₂]) ∧
    (l.enabled = true → ∀ w : World,
      (l.Run w ctx t₂).1.Output = (w.exec ctx l.path
        ((buildArgs extra (buildArgs extra h configured t₁).1 configured t₂).1.read
          (buildArgs extra (buildArgs extra h configured t₁).1 configured t₂).2)).stdout ∧
      (l.Run w ctx t₂).1.Error = (w.exec ctx l.path
        ((buildArgs extra (buildArgs extra h configured t₁).1 configured t₂).1.read
          (buildArgs extra (buildArgs extra h configured t₁).1 configured t₂).2)).stderr) := by
  obtain ⟨hf1, hr1⟩ := buildArgs_spec extra h configured t₁
  obtain ⟨hf2, hr2⟩ := buildArgs_spec extra (buildArgs extra h configured t₁).1 configured t₂
  have hlen : ∀ a, a < h.arrays.length →
      a < (buildArgs extra h configured t₁).1.arrays.length := by
    intro a ha
    by_contra hge
    have h1 := hf1 a ha
    rw [List.getElem?_eq_none (by omega), List.getElem?_eq_getElem ha] at h1
    exact Option.noConfusion h1
  have hc1 : (buildArgs extra h configured t₁).1.read configured = l.args := by
    rw [read_of_frame h _ configured (hf1 _ hon), hargs]
  have hf12 : ∀ a, a < h.arrays.length →
      (buildArgs extra (buildArgs extra h configured t₁).1 configured t₂).1.arrays[a]?
        = h.arrays[a]? := by
    intro a ha
    rw [hf2 a (hlen a ha), hf1 a ha]
  have hc2 : (buildArgs extra (buildArgs extra h configured t₁).1 configured t₂).1.read
      configured = l.args := by
    rw [read_of_frame h _ configured (hf12 _ hon), hargs]
  have hv2 : (buildArgs extra (buildArgs extra h configured t₁).1 configured t₂).1.read
        (buildArgs extra (buildArgs extra h configured t₁).1 configured t₂).2
      = (if t₂ = "" then l.args else l.args ++ [t₂]) := by
    rw [hr2, hc1]
  refine ⟨hf1, hc1, ?_, hf12, hc2, hv2, ?_⟩
  · rw [hr1, hargs]
  · intro hen w
    rw [hv2]
    exact run_reads_argv l w ctx t₂ hen

/-- C25 at a concrete input: the configured arguments of `phpcs` lie in an
array with a spare cell, into which `append(l.args, target)` would write; the
runs on `a.php` and then on `b.php` leave that array as it is and hand over
the arguments with their own target only. -/
theorem run_keeps_configured_args_witness :
    (buildArgs (fun _ => 1) (buildArgs (fun _ => 1) Demo.argsHeap Demo.argsSlice "a.php").1
        Demo.argsSlice "b.php").1.read Demo.argsSlice = ["--standard=PSR12"] ∧
    (buildArgs (fun _ => 1) (buildArgs (fun _ => 1) Demo.argsHeap Demo.argsSlice "a.php").1
        Demo.argsSlice "b.php").1.read
      (buildArgs (fun _ => 1) (buildArgs (fun _ => 1) Demo.argsHeap Demo.argsSlice "a.php").1
        Demo.argsSlice "b.php").2 = ["--standard=PSR12", "b.php"] ∧
    (Demo.argsHeap.append (fun _ => 1) Demo.argsSlice ["a.php"]).1.arrays
      = [["--standard=PSR12", "a.php"]] := by
  have h := run_keeps_configured_args (fun _ => 1) Demo.argsHeap Demo.argsSlice Demo.phpcsLinter
    "a.php" "b.php" Demo.ctx (by decide) (by decide)
  exact ⟨h.2.2.2.2.1, h.2.2.2.2.2.1, by decide⟩

end linters

/-! ## The cursor of the Linters tab and the active tab -/

namespace tui

open linters

theorem updateTheme_cursor (m m' : Model) (cmds : List Cmd)
    (h : m.updateTheme = some (m', cmds)) :
    m'.selectedTool = m.selectedTool ∧ m'.activeTab = m.activeTab ∧
      m'.activeLinters = m.activeLinters := by
  unfold Model.updateTheme at h
  simp only [] at h
  split_ifs at h
  split at h
  · exact absurd h (by simp)
  · simp only [Option.some.injEq, Prod.mk.injEq] at h
    obtain ⟨h1, -⟩ := h
    subst h1
    exact ⟨rfl, rfl, rfl⟩

theorem updateExplorerTab_cursor (m m' : Model) (x : Ext) (s : String) (cmds : List Cmd)
    (h : m.updateExplorerTab x s = some (m', cmds)) :
    m'.selectedTool = m.selectedTool ∧ m'.activeTab = m.activeTab ∧
      m'.activeLinters = m.activeLinters := by
  unfold Model.updateExplorerTab at h
  simp only [] at h
  split_ifs at h <;>
    (simp only [Option.some.injEq, Prod.mk.injEq] at h
     obtain ⟨h1, -⟩ := h
     subst h1
     exact ⟨rfl, rfl, rfl⟩)

/-- The keys of the Linters tab keep the cursor on a row of the list. -/
theorem updateLintersTab_cursor (m m' : Model) (s : String) (cmds : List Cmd)
    (h : m.updateLintersTab s = some (m', cmds)) :
    m'.activeTab = m.activeTab ∧ m'.activeLinters = m.activeLinters ∧
    (0 ≤ m.selectedTool → 0 ≤ m'.selectedTool) ∧
    (m.selectedTool = 0 ∨ m.selectedTool < (m.activeLinters.length : Int) →
      m'.selectedTool = 0 ∨ m'.selectedTool < (m.activeLinters.length : Int)) := by
  unfold Model.updateLintersTab at h
  simp only [] at h
  split_ifs at h <;> first
    | (simp only [Option.some.injEq, Prod.mk.injEq] at h
       obtain ⟨h1, -⟩ := h
       subst h1
       refine ⟨rfl, rfl, fun h0 => ?_, fun h1 => ?_⟩ <;> (try simp only []) <;> omega)
    | (split at h
       · exact absurd h (by simp)
       · simp only [Option.some.injEq, Prod.mk.injEq] at h
         obtain ⟨h1, -⟩ := h
         subst h1
         exact ⟨rfl, rfl, fun h0 => h0, fun h1 => h1⟩)

/-- One call of `Update` keeps the list of active linters, keeps the cursor of
the Linters tab on a row of it and keeps the active tab among the four tabs. -/
theorem update_cursor (m m' : Model) (x : Ext) (msg : Msg) (cmds : List Cmd)
    (h : m.Update x msg = some (m', cmds)) :
    m'.activeLinters = m.activeLinters ∧
    (0 ≤ m.selectedTool → 0 ≤ m'.selectedTool) ∧
    (m.selectedTool = 0 ∨ m.selectedTool < (m.activeLinters.length : Int) →
      m'.selectedTool = 0 ∨ m'.selectedTool < (m.activeLinters.length : Int)) ∧
    (0 ≤ m.activeTab ∧ m.activeTab ≤ 3 → 0 ≤ m'.activeTab ∧ m'.activeTab ≤ 3) := by
  cases msg with
  | key s =>
    simp only [Model.Update] at h
    unfold Model.updateKey at h
    split_ifs at h with h1 h2 h3 h4 h5 h6 h7 h8
    · simp only [Option.some.injEq, Prod.mk.injEq] at h
      obtain ⟨h1, -⟩ := h
      subst h1
      exact ⟨rfl, id, id, id⟩
    · simp only [Option.some.injEq, Prod.mk.injEq] at h
      obtain ⟨h1, -⟩ := h
      subst h1
      exact ⟨rfl, id, id, id⟩
    · simp only [Option.some.injEq, Prod.mk.injEq] at h
      obtain ⟨h1, -⟩ := h
      subst h1
      refine ⟨rfl, id, id, fun ht => ?_⟩
      simp only []
      rw [Int.tmod_eq_emod (by omega) (by omega)]
      omega
    · simp only [Option.some.injEq, Prod.mk.injEq] at h
      obtain ⟨h1, -⟩ := h
      subst h1
      refine ⟨rfl, id, id, fun ht => ?_⟩
      simp only []
      rw [Int.tmod_eq_emod (by omega) (by omega)]
      omega
    · obtain ⟨e1, e2, e3⟩ := updateTheme_cursor m m' cmds h
      rw [e1, e2, e3]
      exact ⟨rfl, id, id, id⟩
    · obtain ⟨e1, e2, e3⟩ := updateExplorerTab_cursor m m' x s cmds h
      rw [e1, e2, e3]
      exact ⟨rfl, id, id, id⟩
    · obtain ⟨e1, e2, e3, e4⟩ := updateLintersTab_cursor m m' s cmds h
      rw [e1, e2]
      exact ⟨rfl, e3, e4, id⟩
    · simp only [Option.some.injEq, Prod.mk.injEq] at h
      obtain ⟨h1, -⟩ := h
      subst h1
      exact ⟨rfl, id, id, id⟩
    · simp only [Option.some.injEq, Prod.mk.injEq] at h
      obtain ⟨h1, -⟩ := h
      subst h1
      exact ⟨rfl, id, id, id⟩
  | windowSize w hh =>
    simp only [Model.Update, Option.some.injEq] at h
    have hw : (m.updateWindowSize x w hh).1.activeLinters = m.activeLinters ∧
        (m.updateWindowSize x w hh).1.selectedTool = m.selectedTool ∧
        (m.updateWindowSize x w hh).1.activeTab = m.activeTab := by
      unfold Model.updateWindowSize
      simp only []
      split <;> exact ⟨rfl, rfl, rfl⟩
    rw [h] at hw
    obtain ⟨e1, e2, e3⟩ := hw
    simp only at e1 e2 e3
    rw [e1, e2, e3]
    exact ⟨rfl, id, id, id⟩
  | spinnerTick =>
    simp only [Model.Update] at h
    split_ifs at h <;>
      (simp only [Option.some.injEq, Prod.mk.injEq] at h
       obtain ⟨h1, -⟩ := h
       subst h1
       exact ⟨rfl, id, id, id⟩)
  | result r =>
    simp only [Model.Update, Option.some.injEq, Prod.mk.injEq] at h
    obtain ⟨h1, -⟩ := h
    subst h1
    have hf := updateResult_fields m r
    rw [hf.2.1, hf.2.2.1]
    refine ⟨rfl, id, id, fun ht => ?_⟩
    by_cases hc : ((m.results.set r.Name r).len : Int) ≥ m.expectedCount
    · rw [(hf.2.2.2.2.1 hc).2.1]
      omega
    · rw [(hf.2.2.2.2.2 hc).2.1]
      exact ht
  | errorMsg e =>
    simp only [Model.Update, Option.some.injEq, Prod.mk.injEq] at h
    obtain ⟨h1, -⟩ := h
    subst h1
    exact ⟨rfl, id, id, id⟩
  | other =>
    simp only [Model.Update, Option.some.injEq, Prod.mk.injEq] at h
    obtain ⟨h1, -⟩ := h
    subst h1
    exact ⟨rfl, id, id, id⟩

/-- The invariant of `update_cursor` along a sequence of messages. -/
theorem feed_cursor (msgs : List (Ext × Msg)) (m₀ m : Model)
    (h : m₀.feed msgs = some m)
    (h0 : 0 ≤ m₀.selectedTool)
    (h1 : m₀.selectedTool = 0 ∨ m₀.selectedTool < (m₀.activeLinters.length : Int))
    (h2 : 0 ≤ m₀.activeTab ∧ m₀.activeTab ≤ 3) :
    m.activeLinters = m₀.activeLinters ∧ 0 ≤ m.selectedTool ∧
    (m.selectedTool = 0 ∨ m.selectedTool < (m.activeLinters.length : Int)) ∧
    (0 ≤ m.activeTab ∧ m.activeTab ≤ 3) := by
  induction msgs generalizing m₀ with
  | nil =>
    simp only [Model.feed, Option.some.injEq] at h
    subst h
    exact ⟨rfl, h0, h1, h2⟩
  | cons p rest ih =>
    obtain ⟨x, msg⟩ := p
    simp only [Model.feed] at h
    split at h
    · rename_i m₁ cmds hupd
      obtain ⟨e1, e2, e3, e4⟩ := update_cursor m₀ m₁ x msg cmds hupd
      have := ih m₁ h (e2 h0) (by rw [e1]; exact e3 h1) (e4 h2)
      rw [e1] at this
      exact this
    · exact absurd h (by simp)

/-- C26: in every state reached from `NewModel` the cursor of the Linters tab
is not negative and, when at least one linter is active, at most
`len(activeLinters) - 1`; so with a non-empty list of active linters the
condition `selectedTool == len(activeLinters)` never holds and the expected
count is 1. -/
theorem selectedTool_in_range (w : World) (rootDir : String) (cfg : config.Config)
    (registry : Registry) (msgs : List (Ext × Msg)) (m : Model)
    (h : (NewModel w rootDir cfg registry).feed msgs = some m) :
    0 ≤ m.selectedTool ∧
    (m.activeLinters ≠ [] →
      m.selectedTool ≤ (m.activeLinters.length : Int) - 1 ∧
      m.selectedTool ≠ (m.activeLinters.length : Int) ∧
      m.expectedCount = 1) := by
  obtain ⟨-, h0, h1, -⟩ := feed_cursor msgs _ m h (le_refl _) (Or.inl rfl) ⟨le_refl _, by show (0 : Int) ≤ 3; omega⟩
  refine ⟨h0, fun hne => ?_⟩
  have hlen : 0 < m.activeLinters.length := List.length_pos.mpr hne
  have hlt : m.selectedTool ≤ (m.activeLinters.length : Int) - 1 := by omega
  refine ⟨hlt, by omega, ?_⟩
  unfold Model.expectedCount
  rw [if_neg (by omega)]

/-- C26 at a concrete input: after the first run of the example the cursor is
on the first of the two active linters. -/
theorem selectedTool_in_range_witness :
    0 ≤ Demo.finished.selectedTool ∧
    (Demo.finished.activeLinters ≠ [] →
      Demo.finished.selectedTool ≤ (Demo.finished.activeLinters.length : Int) - 1 ∧
      Demo.finished.selectedTool ≠ (Demo.finished.activeLinters.length : Int) ∧
      Demo.finished.expectedCount = 1) :=
  selectedTool_in_range Demo.findingsWorld "." Demo.cfg Demo.registry Demo.firstRun
    Demo.finished (by rfl)

theorem update_tab (m : Model) (x : Ext) :
    m.Update x (Msg.key "tab") = some ({ m with activeTab := (m.activeTab + 1).tmod 4 }, []) := by
  simp [Model.Update, Model.updateKey]

theorem update_shift_tab (m : Model) (x : Ext) :
    m.Update x (Msg.key "shift+tab")
      = some ({ m with activeTab := (m.activeTab - 1 + 4).tmod 4 }, []) := by
  simp [Model.Update, Model.updateKey]

/-- C29: in every state reached from `NewModel` the active tab is one of 0, 1,
2, 3; the key `tab` takes tab i to (i + 1) mod 4 and `shift+tab` takes it to
(i + 3) mod 4, changing no other field and returning no command; `tab` then
`shift+tab`, or the reverse, returns to the same model, and so do four presses
of either key. -/
theorem tab_keys_cycle (w : World) (rootDir : String) (cfg : config.Config)
    (registry : Registry) (msgs : List (Ext × Msg)) (m : Model)
    (h : (NewModel w rootDir cfg registry).feed msgs = some m) (x₁ x₂ x₃ x₄ : Ext) :
    (m.activeTab = 0 ∨ m.activeTab = 1 ∨ m.activeTab = 2 ∨ m.activeTab = 3) ∧
    m.Update x₁ (Msg.key "tab") = some ({ m with activeTab := (m.activeTab + 1) % 4 }, []) ∧
    m.Update x₁ (Msg.key "shift+tab")
      = some ({ m with activeTab := (m.activeTab + 3) % 4 }, []) ∧
    m.feed [(x₁, Msg.key "tab"), (x₂, Msg.key "shift+tab")] = some m ∧
    m.feed [(x₁, Msg.key "shift+tab"), (x₂, Msg.key "tab")] = some m ∧
    m.feed [(x₁, Msg.key "tab"), (x₂, Msg.key "tab"), (x₃, Msg.key "tab"),
      (x₄, Msg.key "tab")] = some m ∧
    m.feed [(x₁, Msg.key "shift+tab"), (x₂, Msg.key "shift+tab"), (x₃, Msg.key "shift+tab"),
      (x₄, Msg.key "shift+tab")] = some m := by
  obtain ⟨-, -, -, h2⟩ := feed_cursor msgs _ m h (le_refl _) (Or.inl rfl) ⟨le_refl _, by show (0 : Int) ≤ 3; omega⟩
  have hcases : m.activeTab = 0 ∨ m.activeTab = 1 ∨ m.activeTab = 2 ∨ m.activeTab = 3 := by
    omega
  refine ⟨hcases, ?_, ?_, ?_, ?_, ?_, ?_⟩ <;>
    simp only [Model.feed, update_tab, update_shift_tab] <;>
    obtain ⟨⟩ := m <;>
    simp only at hcases <;>
    rcases hcases with hc | hc | hc | hc <;>
    subst hc <;> rfl

/-- C29 at a concrete input: the model after the first run of the example, on
the Linters tab. -/
theorem tab_keys_cycle_witness :
    Demo.finished.activeTab = 1 ∧
    (Demo.finished.Update Demo.onFile (Msg.key "tab")).map (fun p => p.1.activeTab) = some 2 ∧
    (Demo.finished.Update Demo.onFile (Msg.key "shift+tab")).map (fun p => p.1.activeTab)
      = some 0 ∧
    Demo.finished.feed [(Demo.onFile, Msg.key "tab"), (Demo.scrolled, Msg.key "shift+tab")]
      = some Demo.finished := by
  have h := tab_keys_cycle Demo.findingsWorld "." Demo.cfg Demo.registry Demo.firstRun
    Demo.finished (by rfl) Demo.onFile Demo.scrolled Demo.onFile Demo.onFile
  exact ⟨by decide, by decide, by decide, h.2.2.2.1⟩

end tui

/-! ## Launching without linters, and the theme key -/

namespace tui

open linters

/-- C27, the code at the failing input: on a machine without any linter
installed the list of active linters is empty; after one file is selected in
the explorer, the key `r` puts the model into `StateRunning` and returns no
command at all, so no result will ever arrive. The sibling path, Enter on the
Linters tab, is guarded by the length of the list and leaves the state as it
is; with linters active, `r` launches one command per linter. -/
theorem run_key_without_linters :
    Demo.bareStart.activeLinters = [] ∧
    (Demo.bareStart.feed [(Demo.onFile, Msg.key " ")]).map
      (fun m => (m.state, m.explorer.GetSelectedFiles)) = some (State.StateMultiPane, ["a.php"]) ∧
    ((Demo.bareStart.feed [(Demo.onFile, Msg.key " ")]).bind
      (fun m => m.Update Demo.onFile (Msg.key "r"))).map
      (fun p => (p.1.state, p.1.target, p.2)) = some (State.StateRunning, "a.php", []) ∧
    ((Demo.bareStart.feed [(Demo.onFile, Msg.key "tab")]).bind
      (fun m => m.Update Demo.onFile (Msg.key "enter"))).map
      (fun p => (p.1.state, p.2)) = some (State.StateMultiPane, []) ∧
    ((Demo.start.feed [(Demo.onFile, Msg.key " ")]).bind
      (fun m => m.Update Demo.onFile (Msg.key "r"))).map
      (fun p => (p.1.state, p.2)) = some (State.StateRunning,
        [Cmd.linter Demo.phpLinter "a.php", Cmd.linter Demo.phpcsLinter "a.php"]) := by
  decide

theorem newModel_themes (w : World) (rootDir : String) (cfg : config.Config)
    (registry : Registry) :
    (NewModel w rootDir cfg registry).Themes
      = cfg.UI.Themes.entries.foldl (fun acc e => acc.set e.1 (convertConfigTheme e.2))
          GoMap.empty := by
  unfold NewModel InitTheme
  simp only []
  split <;> rfl

/-- C30, the code at the failing input: the model made by `NewModel` from a
configuration with an empty theme table has no registered theme (`ApplyTheme`
builds its fallback theme without registering it), and the key `t` then
divides by `len(themes) = 0`: `Update` panics. This holds for every
configuration with an empty theme table. With at least one theme registered
the key writes the name of a registered theme, as it does under the default
configuration with its four themes. -/
theorem theme_key_divides_by_zero :
    Demo.cfg.UI.Themes.len = 0 ∧
    Demo.start.Themes.keys = [] ∧
    (Demo.start.Update Demo.onFile (Msg.key "t")).isNone = true ∧
    (∀ (w : World) (rootDir : String) (cfg : config.Config) (registry : Registry) (x : Ext),
      cfg.UI.Themes.len = 0 → (NewModel w rootDir cfg registry).Update x (Msg.key "t") = none) ∧
    (∀ (m : Model) (x : Ext), m.Themes.len ≠ 0 →
      ∃ name ∈ m.Themes.keys, m.Update x (Msg.key "t")
        = some ({ m with config := { m.config with UI := { m.config.UI with Theme := name } },
                         CurrentTheme := ApplyTheme m.Themes name }, [])) ∧
    Demo.themedStart.Themes.len = 4 ∧
    (Demo.themedStart.Update Demo.onFile (Msg.key "t")).isSome = true := by
  refine ⟨by decide, by decide, by decide, ?_, ?_, by decide, by decide⟩
  · intro w rootDir cfg registry x hlen
    have hent : cfg.UI.Themes.entries = [] := List.length_eq_zero.mp hlen
    have hth := newModel_themes w rootDir cfg registry
    rw [hent] at hth
    have hkeys : (NewModel w rootDir cfg registry).Themes.keys = [] := by
      rw [hth]
      rfl
    simp [Model.Update, Model.updateKey, Model.updateTheme, hkeys]
  · intro m x hlen
    have hpos : 0 < m.Themes.keys.length := by
      have : m.Themes.keys.length = m.Themes.len := by simp [GoMap.keys, GoMap.len]
      omega
    have hlt : (currentThemeIndex m.Themes.keys m.config.UI.Theme + 1) % m.Themes.keys.length
        < m.Themes.keys.length := Nat.mod_lt _ hpos
    refine ⟨m.Themes.keys[(currentThemeIndex m.Themes.keys m.config.UI.Theme + 1)
        % m.Themes.keys.length], List.getElem_mem _, ?_⟩
    have hne : m.Themes.keys.length ≠ 0 := by omega
    simp [Model.Update, Model.updateKey, Model.updateTheme, hne, List.getElem?_eq_getElem hlt]

end tui

/-! ## The legacy parsers and their scanner -/

namespace tools

open linters

theorem allSpace_dropCR (l : List Char) :
    (∀ c ∈ dropCR l, unicodeIsSpace c = true) ↔ ∀ c ∈ l, unicodeIsSpace c = true := by
  unfold dropCR
  split_ifs with h
  · have hl : l.dropLast ++ [Char.ofNat 13] = l := List.dropLast_append_getLast? _ h
    constructor
    · intro hall c hc
      rw [← hl] at hc
      rcases List.mem_append.mp hc with h1 | h1
      · exact hall c h1
      · rw [List.mem_singleton.mp h1]
        decide
    · intro hall c hc
      exact hall c (List.mem_of_mem_dropLast hc)
  · exact Iff.rfl

/-- A line is blank with its trailing carriage return exactly if it is blank
without it. -/
theorem trimSpace_dropCR (l : List Char) :
    stringsTrimSpace (String.mk (dropCR l)) = "" ↔ stringsTrimSpace (String.mk l) = "" := by
  rw [stringsTrimSpace_eq_empty_iff, stringsTrimSpace_eq_empty_iff]
  exact allSpace_dropCR l

theorem rawLines_filter (p : List Char → Bool) (hp : p [] = false) (data : List Char) :
    (rawLines data).filter p = (splitChars (Char.ofNat 10) data).filter p := by
  unfold rawLines
  simp only []
  split_ifs with h
  · have hl := List.dropLast_append_getLast? _ h
    conv_rhs => rw [← hl]
    rw [List.filter_append]
    simp [hp]
  · rfl

theorem mem_splitChars_of_mem_rawLines (data line : List Char) (h : line ∈ rawLines data) :
    line ∈ splitChars (Char.ofNat 10) data := by
  unfold rawLines at h
  simp only [] at h
  split_ifs at h
  · exact List.mem_of_mem_dropLast h
  · exact h

theorem takeWhile_of_all {α : Type} (p : α → Bool) (l : List α) (h : ∀ x ∈ l, p x = true) :
    l.takeWhile p = l := by
  induction l with
  | nil => rfl
  | cons x rest ih =>
    rw [List.takeWhile_cons, h x (List.mem_cons_self _ _),
      ih (fun y hy => h y (List.mem_cons_of_mem _ hy))]
    rfl

/-- When every line fits the buffer of the scanner, the legacy parser returns
the non-blank pieces between the newlines, each without one trailing carriage
return. -/
theorem parsePHPStanOutput_of_fit (s : String)
    (hfit : ∀ line ∈ stringsSplit s (Char.ofNat 10), line.utf8ByteSize < maxScanTokenSize) :
    ParsePHPStanOutput s =
      ((stringsSplit s (Char.ofNat 10)).filter
        (fun line => decide (stringsTrimSpace line ≠ ""))).map
        (fun line => String.mk (dropCR line.data)) := by
  unfold ParsePHPStanOutput
  rw [foldl_filter_lines]
  unfold scanLines
  rw [takeWhile_of_all]
  · rw [List.filter_map]
    have hcongr : (rawLines s.data).filter
          ((fun line => decide (stringsTrimSpace line ≠ "")) ∘ fun line => String.mk (dropCR line))
        = (rawLines s.data).filter (fun line => decide (stringsTrimSpace (String.mk line) ≠ "")) := by
      apply List.filter_congr
      intro line _
      simp only [Function.comp, ne_eq, decide_not, trimSpace_dropCR]
    rw [hcongr, rawLines_filter _ (by decide)]
    unfold stringsSplit
    rw [List.filter_map, List.map_map]
    rfl
  · intro line hl
    have := hfit (String.mk line)
      (List.mem_map.mpr ⟨line, mem_splitChars_of_mem_rawLines _ _ hl, rfl⟩)
    simpa using this

theorem utf8ByteSize_replicate (n : Nat) :
    (String.mk (List.replicate n 'x')).utf8ByteSize = n := by
  induction n with
  | zero => rfl
  | succ k ih =>
    have hx : Char.utf8Size 'x' = 1 := by decide
    simp only [String.utf8ByteSize, List.replicate_succ, String.utf8ByteSize.go, hx] at ih ⊢
    rw [ih]

theorem splitChars_long (n : Nat) (rest : List Char) :
    splitChars (Char.ofNat 10) (List.replicate n 'x' ++ Char.ofNat 10 :: rest)
      = List.replicate n 'x' :: splitChars (Char.ofNat 10) rest := by
  apply splitChars_append_sep
  intro h
  exact absurd (List.eq_of_mem_replicate h) (by decide)

/-- A first line of `maxScanTokenSize` bytes or more ends the scan before any
line is returned. -/
theorem scanLines_long (n : Nat) (hn : maxScanTokenSize ≤ n) (rest : List Char) :
    scanLines (String.mk (List.replicate n 'x' ++ Char.ofNat 10 :: rest)) = [] := by
  unfold scanLines rawLines
  simp only [splitChars_long]
  have hne := splitChars_ne_nil (Char.ofNat 10) rest
  have hfirst : ∀ tail : List (List Char),
      List.takeWhile (fun line => decide ((String.mk line).utf8ByteSize < maxScanTokenSize))
        (List.replicate n 'x' :: tail) = [] := by
    intro tail
    rw [List.takeWhile_cons, utf8ByteSize_replicate]
    simp [Nat.not_lt.mpr hn]
  split_ifs with h
  · cases hsp : splitChars (Char.ofNat 10) rest with
    | nil => exact absurd hsp hne
    | cons p ps =>
      rw [List.dropLast_cons₂, hfirst]
      rfl
  · rw [hfirst]
    rfl

theorem trimSpace_replicate (n : Nat) (hn : 0 < n) :
    stringsTrimSpace (String.mk (List.replicate n 'x')) ≠ "" := by
  rw [Ne, stringsTrimSpace_eq_empty_iff]
  intro hall
  have := hall 'x' (List.mem_replicate.mpr ⟨by omega, rfl⟩)
  exact absurd this (by decide)

/-- C23, counterexample: an output of two non-blank lines whose first line has
65536 bytes. The scanner's buffer holds at most 65536 bytes with the newline,
`Scan` returns false at the first line and both parsers return no line at
all. -/
theorem parse_stops_at_long_line :
    stringsSplit Demo.longOutput (Char.ofNat 10) = [Demo.longLine, "y"] ∧
    Demo.longLine.utf8ByteSize = 65536 ∧
    stringsTrimSpace Demo.longLine ≠ "" ∧ stringsTrimSpace "y" ≠ "" ∧
    ParsePHPStanOutput Demo.longOutput = [] ∧ ParsePHPCSOutput Demo.longOutput = [] := by
  refine ⟨?_, utf8ByteSize_replicate 65536, trimSpace_replicate 65536 (by decide), by decide,
    ?_, ?_⟩
  · unfold stringsSplit Demo.longOutput Demo.longLine
    rw [splitChars_long]
    rfl
  · unfold ParsePHPStanOutput Demo.longOutput
    rw [scanLines_long 65536 (by decide)]
    rfl
  · unfold ParsePHPCSOutput Demo.longOutput
    rw [scanLines_long 65536 (by decide)]
    rfl

/-- C23, amended: the two legacy parsers return the same list for every
output; when every line of the output is shorter than 65536 bytes, this list
holds the lines that are not blank, in their original order and each without
one trailing carriage return, so its length is the number of lines that are
not blank: 0 for the empty string, 1 for a single line, 3 for three non-blank
lines, 2 for two non-blank lines separated by empty lines. -/
theorem legacy_parsers_count_nonblank_lines (s : String)
    (hfit : ∀ line ∈ stringsSplit s (Char.ofNat 10), line.utf8ByteSize < maxScanTokenSize) :
    ParsePHPStanOutput s = ParsePHPCSOutput s ∧
    ParsePHPStanOutput s =
      ((stringsSplit s (Char.ofNat 10)).filter
        (fun line => decide (stringsTrimSpace line ≠ ""))).map
        (fun line => String.mk (dropCR line.data)) ∧
    (ParsePHPStanOutput s).length =
      ((stringsSplit s (Char.ofNat 10)).filter
        (fun line => decide (stringsTrimSpace line ≠ ""))).length ∧
    (∀ t : String, ParsePHPStanOutput t = ParsePHPCSOutput t) ∧
    (ParsePHPStanOutput "").length = 0 ∧
    (ParsePHPStanOutput "Error: Something went wrong").length = 1 ∧
    (ParsePHPStanOutput
      "Error: Something went wrong\nWarning: This is a warning\nInfo: Just some info").length
      = 3 ∧
    (ParsePHPStanOutput "Error: Something went wrong\n\n\nWarning: This is a warning").length
      = 2 := by
  refine ⟨rfl, parsePHPStanOutput_of_fit s hfit, ?_, fun _ => rfl, by decide, by decide,
    by decide, by decide⟩
  rw [parsePHPStanOutput_of_fit s hfit, List.length_map]

/-- C23, amended, at a concrete input: two findings in an output with Windows
line ends and an empty line. -/
theorem legacy_parsers_count_nonblank_lines_witness :
    ParsePHPStanOutput "a.php:3 error\r\n\r\nb.php:7 error\r\n"
      = ParsePHPCSOutput "a.php:3 error\r\n\r\nb.php:7 error\r\n" ∧
    ParsePHPStanOutput "a.php:3 error\r\n\r\nb.php:7 error\r\n"
      = ["a.php:3 error", "b.php:7 error"] := by
  have h := legacy_parsers_count_nonblank_lines "a.php:3 error\r\n\r\nb.php:7 error\r\n"
    (by decide)
  refine ⟨h.1, ?_⟩
  rw [h.2.1]
  decide

/-- C28, counterexample: on an output with Windows line ends `ParseOutput`
keeps the carriage return at the end of each line and the legacy parser drops
it; on an output with a line of 65536 bytes `ParseOutput` returns both lines
and the legacy parser none. -/
theorem parsers_differ_on_carriage_return :
    ParseOutput (some Demo.windowsResult) = ["a.php:3 error\r", "b\r"] ∧
    ParsePHPStanOutput Demo.windowsResult.Output = ["a.php:3 error", "b"] ∧
    ParseOutput (some Demo.longResult) = [Demo.longLine, "y"] ∧
    ParsePHPStanOutput Demo.longResult.Output = [] := by
  refine ⟨by decide, by decide, ?_, ?_⟩
  · rw [parseOutput_eq_filter]
    have hsplit : stringsSplit Demo.longResult.Output (Char.ofNat 10)
        = [Demo.longLine, "y"] := by
      show stringsSplit Demo.longOutput (Char.ofNat 10) = [Demo.longLine, "y"]
      unfold stringsSplit Demo.longOutput Demo.longLine
      rw [splitChars_long]
      rfl
    have hlong : stringsTrimSpace Demo.longLine ≠ "" := trimSpace_replicate 65536 (by decide)
    have hy : stringsTrimSpace "y" ≠ "" := by decide
    simp only [hsplit, List.filter_cons, hlong, hy, ne_eq, not_false_eq_true, decide_True,
      if_true, List.filter_nil]
  · show ParsePHPStanOutput Demo.longOutput = []
    unfold ParsePHPStanOutput Demo.longOutput
    rw [scanLines_long 65536 (by decide)]
    rfl

/-- C28, amended: for every result whose output has only lines shorter than
65536 bytes and no non-blank line that ends in a carriage return,
`ParseOutput` returns the same list as the legacy parser on that output; this
covers a trailing newline, empty and whitespace-only lines and lines that
consist of carriage returns only. -/
theorem parseOutput_agrees_with_scanner (r : linters.Result)
    (hfit : ∀ line ∈ stringsSplit r.Output (Char.ofNat 10),
      line.utf8ByteSize < maxScanTokenSize)
    (hcr : ∀ line ∈ stringsSplit r.Output (Char.ofNat 10), stringsTrimSpace line ≠ "" →
      line.data.getLast? ≠ some (Char.ofNat 13)) :
    ParseOutput (some r) = ParsePHPStanOutput r.Output ∧
    ParseOutput (some r) = ParsePHPCSOutput r.Output := by
  have h : ParseOutput (some r) = ParsePHPStanOutput r.Output := by
    rw [parseOutput_eq_filter, parsePHPStanOutput_of_fit r.Output hfit]
    symm
    conv_rhs => rw [← List.map_id (List.filter _ _)]
    apply List.map_congr_left
    intro line hl
    have hmem := List.mem_filter.mp hl
    have hlast := hcr line hmem.1 (of_decide_eq_true hmem.2)
    simp only [dropCR, hlast, if_false, id]
  exact ⟨h, h⟩

/-- C28, amended, at a concrete input: an output with a trailing newline, an
empty line, a line of blanks and a line that is a carriage return only. -/
theorem parseOutput_agrees_with_scanner_witness :
    ParseOutput (some Demo.mixedResult) = ParsePHPStanOutput Demo.mixedResult.Output ∧
    ParsePHPStanOutput Demo.mixedResult.Output = ["a.php:3 error", "b.php:7 error"] :=
  ⟨(parseOutput_agrees_with_scanner Demo.mixedResult (by decide) (by decide)).1,
    by decide⟩

end tools

end LazyLint
